import Mathlib

/-!
# rf433-ook receiver: edge-timing decode engine and code ring buffer

A shallow embedding of `src/Receiver.cpp` (`addBit`, `Receiver::interruptHandler`,
`Receiver::addCode`, `Receiver::printCode`) together with theorems about it.

Conventions of the embedding:

* `unsigned long` is a 32-bit unsigned integer: every `unsigned long` result is reduced
  modulo `2 ^ 32` (`wrap32`), subtraction is modular (`sub32`).
* The compile-time constants `SYNC_CYCLES`, `MIN_PERIOD_US`, `MAX_CODES`, `Code::MIN_LENGTH`
  and `Code::MAX_LENGTH` are declared in headers that are not among the sources; they are the
  fields of `Config`, and every definition takes the configuration as a parameter.
* The function-local `static` variables of `interruptHandler` are the fields of `Statics`.
* The small counters (`codeLength`, `value`, the three bit counts, `codeIndex`) are natural
  numbers; in states reachable from start-up they are bounded by `4 * MAX_LENGTH + 3`, resp.
  `MAX_CODES`, which are taken to fit the C types of these counters.
* `currentBit` is signed in the source and is an integer here.
* The calls of `addCode` made by the handler are returned as a list (`pushed`); the handler
  reads nothing of the ring buffer, so its effect on it is `addCode` applied to these in order.
* The sample constants (`sampleConfig`) serve the concrete examples only; the general theorems
  hold for every `Config`.
-/

namespace Rf433

/-- Compile-time constants of the receiver (declared in `Receiver.hpp` and `Code.hpp`). -/
structure Config where
  SYNC_CYCLES : Nat
  MIN_PERIOD_US : Nat
  MAX_CODES : Nat
  MIN_LENGTH : Nat
  MAX_LENGTH : Nat
deriving DecidableEq, Repr

/-- Reduction of an `unsigned long` result modulo `2 ^ 32`. -/
def wrap32 (n : Nat) : Nat := n % 4294967296

/-- Unsigned 32-bit subtraction `a - b`. -/
def sub32 (a b : Nat) : Nat := wrap32 (wrap32 a + 4294967296 - wrap32 b)

/-- The string terminator `'\0'`. -/
def NUL : Char := Char.ofNat 0

/-- Modelled from the spec: the `Code` value type (its class is declared in `Code.hpp`, which is
missing). The fields are the arguments of the constructor call in `interruptHandler`, in order;
`digits` is the NUL-terminated string passed as first argument. -/
structure Code where
  digits : List Char
  trailingBitCount : Int
  trailingValue : Nat
  totalDurationMicros : Nat
  preSyncStandalone : Bool
  postSyncPresent : Bool
  preSyncPeriodMicros : Nat
  postSyncPeriodMicros : Nat
  avgZeroPeriodMicros : Nat
  avgOnePeriodMicros : Nat
  avgAllPeriodMicros : Nat
deriving DecidableEq, Repr

/-- Modelled from the spec: reading a C string out of a character array, up to the first NUL. -/
def cstr (buf : List Char) : List Char := buf.takeWhile (fun c => c != NUL)

/-- Modelled from the spec: `Code::empty()`, true for a slot that holds no code (`Code.hpp` is
missing); an empty slot is one whose digit string is empty. -/
def Code.empty (c : Code) : Bool := c.digits.isEmpty

/-- Modelled from the spec: `Code::clear()`, marks the slot empty (`Code.hpp` is missing). -/
def Code.clear (c : Code) : Code := { c with digits := [] }

/-- The default-constructed `Code` of a fresh slot. -/
def Code.blank : Code :=
  { digits := [], trailingBitCount := 0, trailingValue := 0, totalDurationMicros := 0,
    preSyncStandalone := false, postSyncPresent := false, preSyncPeriodMicros := 0,
    postSyncPeriodMicros := 0, avgZeroPeriodMicros := 0, avgOnePeriodMicros := 0,
    avgAllPeriodMicros := 0 }

instance : Inhabited Code := ⟨Code.blank⟩

/-- The `static` locals of `interruptHandler`, in declaration order. -/
structure Statics where
  last : Nat
  sync : Bool
  minZeroPeriod : Nat
  maxZeroPeriod : Nat
  minOnePeriod : Nat
  maxOnePeriod : Nat
  minSyncPeriod : Nat
  maxSyncPeriod : Nat
  code : List Char
  codeLength : Nat
  start : Nat
  stop : Nat
  preSyncStandalone : Bool
  preSyncPeriod : Nat
  postSyncPeriod : Nat
  zeroBitPeriod : Nat
  oneBitPeriod : Nat
  allBitPeriod : Nat
  zeroBitCount : Nat
  oneBitCount : Nat
  allBitCount : Nat
  currentBit : Int
  value : Nat
deriving DecidableEq, Repr

/-- State at start-up: statics are zero-initialised, except `preSyncStandalone = true`. -/
def Statics.init (cfg : Config) : Statics :=
  { last := 0, sync := false, minZeroPeriod := 0, maxZeroPeriod := 0, minOnePeriod := 0,
    maxOnePeriod := 0, minSyncPeriod := 0, maxSyncPeriod := 0,
    code := List.replicate (cfg.MAX_LENGTH + 1) NUL, codeLength := 0, start := 0, stop := 0,
    preSyncStandalone := true, preSyncPeriod := 0, postSyncPeriod := 0, zeroBitPeriod := 0,
    oneBitPeriod := 0, allBitPeriod := 0, zeroBitCount := 0, oneBitCount := 0, allBitCount := 0,
    currentBit := 0, value := 0 }

/-- Result of `addBit`: the four variables it takes by reference or pointer. -/
structure BitState where
  code : List Char
  codeLength : Nat
  currentBit : Int
  value : Nat
deriving DecidableEq, Repr

/-- The digit character written by `addBit` for a completed 4-bit group. -/
def digitChar (value : Nat) : Char :=
  if value < 10 then Char.ofNat (48 + value) else Char.ofNat (65 + (value - 10))

/-- The function `addBit` (lines 66-77). -/
def addBit (code : List Char) (codeLength : Nat) (currentBit : Int) (value : Nat) (bit : Nat) :
    BitState :=
  let value := value ||| (bit <<< currentBit.toNat)
  if currentBit = 0 then
    { code := code.set codeLength (digitChar value), codeLength := codeLength + 1,
      currentBit := 3, value := 0 }
  else
    { code := code, codeLength := codeLength, currentBit := currentBit - 1, value := value }

/-- The branch of `interruptHandler` taken by one pass from the label `retry`. -/
inductive Branch
  | idle      -- not synced, duration too short for a sync
  | acquire   -- not synced, sync acquired
  | syncEnd   -- synced, duration inside the sync window
  | tooLong   -- synced, "Code too long"
  | zeroBit   -- synced, 0-bit added
  | oneBit    -- synced, 1-bit added
  | invalid   -- synced, "Invalid duration"
deriving DecidableEq, Repr

/-- The branches that end in `goto retry` (the others end at `done`). -/
def Branch.retries : Branch → Bool
  | .syncEnd => true
  | .tooLong => true
  | .invalid => true
  | _ => false

/-- Outcome of one pass: the statics, the arguments of the `addCode` calls made, the branch. -/
structure Pass where
  st : Statics
  pushed : List Code
  branch : Branch
deriving DecidableEq, Repr

/-- Lines 150-176 of `interruptHandler`: completion evaluation and restart. -/
def complete (cfg : Config) (now : Nat) (postSyncPresent : Bool) (s : Statics) (b : Branch) :
    Pass :=
  if s.codeLength ≥ cfg.MIN_LENGTH then
    let s1 := { s with stop := now }
    let s2 := if s1.zeroBitCount > 0 then
      { s1 with zeroBitPeriod := s1.zeroBitPeriod / s1.zeroBitCount } else s1
    let s3 := if s2.oneBitCount > 0 then
      { s2 with oneBitPeriod := s2.oneBitPeriod / s2.oneBitCount } else s2
    let s4 := if s3.allBitCount > 0 then
      { s3 with allBitPeriod := s3.allBitPeriod / s3.allBitCount } else s3
    let s5 := { s4 with code := s4.code.set s4.codeLength NUL }
    { st := { s5 with sync := false, preSyncStandalone := !postSyncPresent }
      pushed := [{ digits := cstr s5.code
                   trailingBitCount := 3 - s5.currentBit
                   trailingValue := s5.value
                   totalDurationMicros := sub32 s5.stop s5.start
                   preSyncStandalone := s5.preSyncStandalone
                   postSyncPresent := postSyncPresent
                   preSyncPeriodMicros := s5.preSyncPeriod
                   postSyncPeriodMicros := s5.postSyncPeriod
                   avgZeroPeriodMicros := s5.zeroBitPeriod
                   avgOnePeriodMicros := s5.oneBitPeriod
                   avgAllPeriodMicros := s5.allBitPeriod }]
      branch := b }
  else
    { st := { s with sync := false, preSyncStandalone := !postSyncPresent }
      pushed := []
      branch := b }

/-- One pass of `interruptHandler` from the label `retry` (lines 97-177) up to `goto retry`,
`goto done` or falling out of the `if`. -/
def pass (cfg : Config) (now duration : Nat) (s : Statics) : Pass :=
  if s.sync = false then
    if duration ≥ cfg.SYNC_CYCLES * cfg.MIN_PERIOD_US then
      let period := duration / cfg.SYNC_CYCLES
      { st := { s with
                  start := s.last
                  codeLength := 0
                  preSyncPeriod := period
                  zeroBitPeriod := 0, oneBitPeriod := 0, allBitPeriod := 0
                  zeroBitCount := 0, oneBitCount := 0, allBitCount := 0
                  currentBit := 3
                  value := 0
                  sync := true
                  minZeroPeriod := wrap32 (period * 4) / 10
                  maxZeroPeriod := wrap32 (period * 16) / 10
                  minOnePeriod := wrap32 (period * 23) / 10
                  maxOnePeriod := wrap32 (period * 37) / 10
                  minSyncPeriod := wrap32 (period * sub32 cfg.SYNC_CYCLES 6)
                  maxSyncPeriod := wrap32 (period * wrap32 (cfg.SYNC_CYCLES + 4)) }
        pushed := []
        branch := .acquire }
    else
      { st := s, pushed := [], branch := .idle }
  else
    if duration ≥ s.minSyncPeriod ∧ duration ≤ s.maxSyncPeriod then
      complete cfg now true { s with postSyncPeriod := duration / cfg.SYNC_CYCLES } .syncEnd
    else if s.codeLength = cfg.MAX_LENGTH then
      complete cfg now false s .tooLong
    else if duration ≥ s.minZeroPeriod ∧ duration ≤ s.maxZeroPeriod then
      let r := addBit s.code s.codeLength s.currentBit s.value 0
      { st := { s with
                  code := r.code, codeLength := r.codeLength
                  currentBit := r.currentBit, value := r.value
                  zeroBitPeriod := wrap32 (s.zeroBitPeriod + duration)
                  zeroBitCount := s.zeroBitCount + 1
                  allBitPeriod := wrap32 (s.allBitPeriod + duration)
                  allBitCount := s.allBitCount + 1 }
        pushed := []
        branch := .zeroBit }
    else if duration ≥ s.minOnePeriod ∧ duration ≤ s.maxOnePeriod then
      let r := addBit s.code s.codeLength s.currentBit s.value 1
      { st := { s with
                  code := r.code, codeLength := r.codeLength
                  currentBit := r.currentBit, value := r.value
                  oneBitPeriod := wrap32 (s.oneBitPeriod + duration / 3)
                  oneBitCount := s.oneBitCount + 1
                  allBitPeriod := wrap32 (s.allBitPeriod + duration / 3)
                  allBitCount := s.allBitCount + 1 }
        pushed := []
        branch := .oneBit }
    else
      complete cfg now false s .invalid

/-- Outcome of a whole handler call: final statics, the `addCode` arguments in call order, and
the branches taken by the successive passes. -/
structure Outcome where
  st : Statics
  pushed : List Code
  trace : List Branch
deriving DecidableEq, Repr

/-- The loop formed by the label `retry` and the `goto retry` of line 176. -/
def retryLoop (cfg : Config) (now duration : Nat) (s : Statics) : Outcome :=
  if h : (pass cfg now duration s).branch.retries = true then
    { st := (retryLoop cfg now duration (pass cfg now duration s).st).st
      pushed := (pass cfg now duration s).pushed ++
        (retryLoop cfg now duration (pass cfg now duration s).st).pushed
      trace := (pass cfg now duration s).branch ::
        (retryLoop cfg now duration (pass cfg now duration s).st).trace }
  else
    { st := (pass cfg now duration s).st
      pushed := (pass cfg now duration s).pushed
      trace := [(pass cfg now duration s).branch] }
termination_by (if s.sync = true then 1 else 0)
decreasing_by
  all_goals
    have hp : s.sync = true ∧ (pass cfg now duration s).st.sync = false := by
      unfold pass complete at h ⊢
      split_ifs at h ⊢ <;> simp_all [Branch.retries]
    simp [hp.1, hp.2]

/-- The function `Receiver::interruptHandler` (lines 79-181); `now` is the value returned by
`micros()`, a 32-bit time stamp. -/
def Receiver.interruptHandler (cfg : Config) (now : Nat) (s : Statics) : Outcome :=
  let duration := sub32 now s.last
  let r := retryLoop cfg now duration s
  { r with st := { r.st with last := now } }

/-- The data members of the class `Receiver` used by `addCode` and `printCode`: the slot array
`codes[MAX_CODES]` and the write cursor `codeIndex`. -/
structure Receiver where
  codes : List Code
  codeIndex : Nat
deriving DecidableEq, Repr

/-- The function `Receiver::addCode` (lines 183-186). -/
def Receiver.addCode (cfg : Config) (r : Receiver) (code : Code) : Receiver :=
  { codes := r.codes.set r.codeIndex code
    codeIndex := (r.codeIndex + 1) % cfg.MAX_CODES }

/-- The `for` loop of `Receiver::printCode` (lines 191-203), entered with loop counter `n` and
`k` iterations left; returns the receiver and the code handed to `SerialUSB.println`, if any.
The sum `codeIndex + n` is formed in `uint_fast16_t` and is below `2 * MAX_CODES`, so it does not
wrap for the small `MAX_CODES` of the program. -/
def Receiver.printLoop (cfg : Config) (r : Receiver) : Nat → Nat → Receiver × Option Code
  | _, 0 => (r, none)
  | n, k + 1 =>
    let i := (r.codeIndex + n) % cfg.MAX_CODES
    if (r.codes.getD i default).empty = false then
      ({ r with codes := r.codes.set i (r.codes.getD i default).clear },
        some (r.codes.getD i default))
    else
      Receiver.printLoop cfg r (n + 1) k

/-- The function `Receiver::printCode` (lines 188-206). -/
def Receiver.printCode (cfg : Config) (r : Receiver) : Receiver × Option Code :=
  Receiver.printLoop cfg r 0 cfg.MAX_CODES

/-- Feeding a sequence of edge events (the successive values of `micros()`) to the handler;
returns the final statics and all the codes passed to `addCode`, in call order. -/
def run (cfg : Config) : List Nat → Statics → Statics × List Code
  | [], s => (s, [])
  | now :: rest, s =>
    let o := Receiver.interruptHandler cfg now s
    let r := run cfg rest o.st
    (r.1, o.pushed ++ r.2)

/-- The durations the handler computes for a sequence of events, `last` being the time stamp of
the edge before the first of them. -/
def durations : Nat → List Nat → List Nat
  | _, [] => []
  | last, now :: rest => sub32 now last :: durations now rest

/-- The time stamp of the last of a sequence of events, `last` being that of the edge before
the first of them (the value of the static `last` after the sequence). -/
def lastStamp : Nat → List Nat → Nat
  | last, [] => last
  | _, now :: rest => lastStamp now rest

/-- The test of line 125: the duration lies in the stored sync window. -/
def inSyncWindow (s : Statics) (d : Nat) : Prop := d ≥ s.minSyncPeriod ∧ d ≤ s.maxSyncPeriod

/-- The test of line 131: the duration lies in the stored zero window. -/
def inZeroWindow (s : Statics) (d : Nat) : Prop := d ≥ s.minZeroPeriod ∧ d ≤ s.maxZeroPeriod

/-- The test of line 138: the duration lies in the stored one window. -/
def inOneWindow (s : Statics) (d : Nat) : Prop := d ≥ s.minOnePeriod ∧ d ≤ s.maxOnePeriod

instance (s : Statics) (d : Nat) : Decidable (inSyncWindow s d) :=
  inferInstanceAs (Decidable (d ≥ s.minSyncPeriod ∧ d ≤ s.maxSyncPeriod))

instance (s : Statics) (d : Nat) : Decidable (inZeroWindow s d) :=
  inferInstanceAs (Decidable (d ≥ s.minZeroPeriod ∧ d ≤ s.maxZeroPeriod))

instance (s : Statics) (d : Nat) : Decidable (inOneWindow s d) :=
  inferInstanceAs (Decidable (d ≥ s.minOnePeriod ∧ d ≤ s.maxOnePeriod))

/-- Illustrative values of the constants, used for the concrete examples only. -/
def sampleConfig : Config :=
  { SYNC_CYCLES := 31, MIN_PERIOD_US := 100, MAX_CODES := 4, MIN_LENGTH := 2, MAX_LENGTH := 6 }

/-- Well-formedness of the statics: the array `code` has its declared size, `codeLength` indexes
into it, the digits stored so far are not NUL, and the pending group state is in range. -/
structure WellFormed (cfg : Config) (s : Statics) : Prop where
  size : s.code.length = cfg.MAX_LENGTH + 1
  bound : s.codeLength ≤ cfg.MAX_LENGTH
  digits : ∀ i, i < s.codeLength → s.code[i]? ≠ some NUL
  bitLo : 0 ≤ s.currentBit
  bitHi : s.currentBit ≤ 3
  small : s.value < 16

/-- Number of bits added since the last sync acquisition, as held in `codeLength` (completed
groups of four) and `currentBit` (position in the pending group). -/
def Statics.bitCount (s : Statics) : Nat := 4 * s.codeLength + (3 - s.currentBit).toNat

/-- The six stored thresholds (the calibration). -/
def Statics.windows (s : Statics) : List Nat :=
  [s.minZeroPeriod, s.maxZeroPeriod, s.minOnePeriod, s.maxOnePeriod, s.minSyncPeriod,
    s.maxSyncPeriod]

/-- A duration classified Zero or One under the calibration stored in `s`: outside the sync
window (tested first) and inside the zero window or the one window. -/
def isBitPulse (s : Statics) (d : Nat) : Prop :=
  ¬ inSyncWindow s d ∧ (inZeroWindow s d ∨ inOneWindow s d)

instance (s : Statics) (d : Nat) : Decidable (isBitPulse s d) :=
  inferInstanceAs (Decidable (¬ inSyncWindow s d ∧ (inZeroWindow s d ∨ inOneWindow s d)))

/-- The state reached from start-up, with the sample constants, by a first edge at 3100 µs: synced
with unit period 100, zero window 40..160, one window 230..370, sync window 2500..3500. -/
def syncedSample : Statics :=
  { Statics.init sampleConfig with
      last := 3100, sync := true, currentBit := 3, preSyncPeriod := 100,
      minZeroPeriod := 40, maxZeroPeriod := 160, minOnePeriod := 230, maxOnePeriod := 370,
      minSyncPeriod := 2500, maxSyncPeriod := 3500 }

/-- The slot visited by the `for` loop of `printCode` at loop counter `j`:
`codes[(codeIndex + j) % MAX_CODES]`. -/
def Receiver.slot (cfg : Config) (r : Receiver) (j : Nat) : Code :=
  r.codes.getD ((r.codeIndex + j) % cfg.MAX_CODES) default

/-- `n` successive calls of `printCode`; returns the receiver and what each call printed. -/
def Receiver.drain (cfg : Config) : Nat → Receiver → Receiver × List (Option Code)
  | 0, r => (r, [])
  | n + 1, r =>
    let p := Receiver.printCode cfg r
    let q := Receiver.drain cfg n p.1
    (q.1, p.2 :: q.2)

/-- An operation on the ring buffer: a call of `addCode` or a call of `printCode`. -/
inductive RingOp
  | push (c : Code)
  | take
deriving DecidableEq, Repr

/-- Performing a sequence of ring-buffer operations; returns the receiver and what each
`printCode` call printed, in call order. -/
def Receiver.perform (cfg : Config) : List RingOp → Receiver → Receiver × List (Option Code)
  | [], r => (r, [])
  | RingOp.push c :: ops, r => Receiver.perform cfg ops (Receiver.addCode cfg r c)
  | RingOp.take :: ops, r =>
    let p := Receiver.printCode cfg r
    let q := Receiver.perform cfg ops p.1
    (q.1, p.2 :: q.2)

/-- Reference first-in first-out queue: `pending` lists the codes pushed and not yet taken,
earliest first; each `take` yields the earliest pending code, or nothing when none is pending. -/
def fifo : List RingOp → List Code → List (Option Code)
  | [], _ => []
  | RingOp.push c :: ops, pending => fifo ops (pending ++ [c])
  | RingOp.take :: ops, pending => pending.head? :: fifo ops pending.tail

/-- The number of pushed and not yet taken codes never exceeds `cap` during the sequence, and
every pushed code is non-empty; `n` is the number pending at the start. -/
def withinCapacity (cap : Nat) : List RingOp → Nat → Prop
  | [], _ => True
  | RingOp.push c :: ops, n => c.empty = false ∧ n + 1 ≤ cap ∧ withinCapacity cap ops (n + 1)
  | RingOp.take :: ops, n => withinCapacity cap ops (n - 1)

/-- The `q.length` slots just behind the write cursor hold the codes `q`, earliest first (the
other slots are unconstrained). -/
def Filled (cfg : Config) (r : Receiver) (q : List Code) : Prop :=
  r.codes.length = cfg.MAX_CODES ∧ r.codeIndex < cfg.MAX_CODES ∧ q.length ≤ cfg.MAX_CODES ∧
  ∀ j, cfg.MAX_CODES - q.length ≤ j → j < cfg.MAX_CODES →
    q[j - (cfg.MAX_CODES - q.length)]? = some (r.slot cfg j)

/-- The ring buffer holds exactly the pending codes `q`: they fill the slots just behind the
write cursor, they are non-empty, and every other slot is empty. -/
def Holds (cfg : Config) (r : Receiver) (q : List Code) : Prop :=
  Filled cfg r q ∧ (∀ c ∈ q, c.empty = false) ∧
  ∀ j, j < cfg.MAX_CODES - q.length → (r.slot cfg j).empty = true

/-- The last `n` elements of a list. -/
def keepLast (n : Nat) (l : List Code) : List Code := l.drop (l.length - n)

/-- A non-empty sample code with the single digit `d`. -/
def sampleCode (d : Char) : Code := { Code.blank with digits := [d] }

/-- A four-slot ring buffer of blank codes with the write cursor at 2. -/
def sampleRing : Receiver := { codes := List.replicate 4 Code.blank, codeIndex := 2 }

/-- History of the candidate being decoded, kept alongside the statics for the statement of
properties of pushed codes (it is not part of the program state). -/
structure Candidate where
  /-- duration of the pulse that acquired sync -/
  lead : Nat
  /-- whether that pulse was classified as Sync by the first pass of the same handler call -/
  afterSync : Bool
  /-- the bits added by `addBit` since sync acquisition, in order -/
  bits : List Nat
  /-- the durations of the pulses accepted as Zero since sync acquisition, in order -/
  zeros : List Nat
  /-- the durations of the pulses accepted as One since sync acquisition, in order -/
  ones : List Nat
  /-- the durations of all the pulses accepted as a bit since sync acquisition, in order -/
  pulses : List Nat
deriving DecidableEq, Repr

/-- The history before any sync acquisition. -/
def Candidate.start : Candidate :=
  { lead := 0, afterSync := false, bits := [], zeros := [], ones := [], pulses := [] }

/-- Effect of one pass on the history: `acquire` starts a new candidate, `zeroBit` and `oneBit`
record the bit and the duration, the other branches record nothing. `before` is the branch of the
preceding pass of the same handler call, if any. -/
def Candidate.step (before : Option Branch) (d : Nat) (g : Candidate) : Branch → Candidate
  | .acquire =>
    { lead := d, afterSync := decide (before = some Branch.syncEnd), bits := [], zeros := [],
      ones := [], pulses := [] }
  | .zeroBit =>
    { g with bits := g.bits ++ [0], zeros := g.zeros ++ [d], pulses := g.pulses ++ [d] }
  | .oneBit =>
    { g with bits := g.bits ++ [1], ones := g.ones ++ [d], pulses := g.pulses ++ [d] }
  | _ => g

/-- Effect of a handler call with the given trace of branches on the history. -/
def Candidate.record (g : Candidate) (d : Nat) : List Branch → Candidate
  | [b] => Candidate.step none d g b
  | [b1, b2] => Candidate.step (some b1) d (Candidate.step none d g b1) b2
  | _ => g

/-- A code passed to `addCode`, with the history of its candidate at the time of the call. -/
structure Logged where
  cand : Candidate
  code : Code
deriving DecidableEq, Repr

/-- Feeding a sequence of edge events to the handler while keeping the history of the current
candidate; returns the final statics, the final history and the log of all `addCode` calls. -/
def runLog (cfg : Config) : List Nat → Statics → Candidate → Statics × Candidate × List Logged
  | [], s, g => (s, g, [])
  | now :: rest, s, g =>
    let o := Receiver.interruptHandler cfg now s
    let r := runLog cfg rest o.st (g.record (sub32 now s.last) o.trace)
    (r.1, r.2.1, o.pushed.map (fun c => { cand := g, code := c }) ++ r.2.2)

/-- Value of the `j`-th group of four bits, most significant bit first; bits beyond the end of
the list count as 0. -/
def groupValue (bits : List Nat) (j : Nat) : Nat :=
  8 * bits.getD (4 * j) 0 + 4 * bits.getD (4 * j + 1) 0 + 2 * bits.getD (4 * j + 2) 0 +
    bits.getD (4 * j + 3) 0

/-- The statics of a synced machine agree with the history of its candidate. -/
structure Tracks (s : Statics) (g : Candidate) : Prop where
  binary : ∀ b ∈ g.bits, b ≤ 1
  length : s.codeLength = g.bits.length / 4
  position : s.currentBit = 3 - ((g.bits.length % 4 : Nat) : Int)
  stored : ∀ j, j < g.bits.length / 4 → s.code[j]? = some (digitChar (groupValue g.bits j))
  pending : s.value = groupValue g.bits (g.bits.length / 4)
  zeroSum : s.zeroBitPeriod = wrap32 g.zeros.sum
  zeroCount : s.zeroBitCount = g.zeros.length
  oneSum : s.oneBitPeriod = wrap32 (g.ones.map (fun d => d / 3)).sum
  oneCount : s.oneBitCount = g.ones.length
  allSum : s.allBitPeriod = wrap32 (g.zeros.sum + (g.ones.map (fun d => d / 3)).sum)
  allCount : s.allBitCount = g.zeros.length + g.ones.length

/-- The code `c` is the one the completion evaluation builds from the statics `s`: the digits are
the first `codeLength` characters of `code`, and the sums are divided by their counts when these
are positive. -/
structure Snapshot (cfg : Config) (s : Statics) (c : Code) : Prop where
  synced : s.sync = true
  enough : cfg.MIN_LENGTH ≤ s.codeLength
  digits : c.digits = s.code.take s.codeLength
  trailingBits : c.trailingBitCount = 3 - s.currentBit
  trailingValue : c.trailingValue = s.value
  standalone : c.preSyncStandalone = s.preSyncStandalone
  prePeriod : c.preSyncPeriodMicros = s.preSyncPeriod
  avgZero : c.avgZeroPeriodMicros =
    if s.zeroBitCount > 0 then s.zeroBitPeriod / s.zeroBitCount else s.zeroBitPeriod
  avgOne : c.avgOnePeriodMicros =
    if s.oneBitCount > 0 then s.oneBitPeriod / s.oneBitCount else s.oneBitPeriod
  avgAll : c.avgAllPeriodMicros =
    if s.allBitCount > 0 then s.allBitPeriod / s.allBitCount else s.allBitPeriod

/-- The sixteen digit characters. -/
def hexDigits : List Char := "0123456789ABCDEF".toList

/-- Applying `addBit` to a sequence of bits in turn. -/
def addBits (bs : List Nat) (st : BitState) : BitState :=
  bs.foldl (fun st b => addBit st.code st.codeLength st.currentBit st.value b) st

/-- Sample events (sample constants, from start-up): a 3100 µs sync, the eight bit pulses
300, 100, 300, 300, 100, 100, 100, 100 (bits 1,0,1,1,0,0,0,0) and a closing 3100 µs sync. -/
def packingEvents : List Nat := [3100, 3400, 3500, 3800, 4100, 4200, 4300, 4400, 4500, 7600]

/-- The `addCode` call logged for `packingEvents`. -/
def packingLogged : Logged :=
  { cand := { lead := 3100, afterSync := false, bits := [1, 0, 1, 1, 0, 0, 0, 0],
              zeros := [100, 100, 100, 100, 100], ones := [300, 300, 300],
              pulses := [300, 100, 300, 300, 100, 100, 100, 100] }
    code := { digits := ['B', '0'], trailingBitCount := 0, trailingValue := 0,
              totalDurationMicros := 7600, preSyncStandalone := true, postSyncPresent := true,
              preSyncPeriodMicros := 100, postSyncPeriodMicros := 100,
              avgZeroPeriodMicros := 100, avgOnePeriodMicros := 100,
              avgAllPeriodMicros := 100 } }

/-- Sample events (sample constants, from start-up): a 3100 µs sync, one-bit pulses of 300 µs and
330 µs, six zero-bit pulses of 100 µs and a closing 3100 µs sync. -/
def averageEvents : List Nat := [3100, 3400, 3730, 3830, 3930, 4030, 4130, 4230, 4330, 7430]

/-- The `addCode` call logged for `averageEvents`. -/
def averageLogged : Logged :=
  { cand := { lead := 3100, afterSync := false, bits := [1, 1, 0, 0, 0, 0, 0, 0],
              zeros := [100, 100, 100, 100, 100, 100], ones := [300, 330],
              pulses := [300, 330, 100, 100, 100, 100, 100, 100] }
    code := { digits := ['C', '0'], trailingBitCount := 0, trailingValue := 0,
              totalDurationMicros := 7430, preSyncStandalone := true, postSyncPresent := true,
              preSyncPeriodMicros := 100, postSyncPeriodMicros := 100,
              avgZeroPeriodMicros := 100, avgOnePeriodMicros := 105,
              avgAllPeriodMicros := 101 } }

/-- Events that make the 32-bit sum of zero-bit durations wrap (sample constants, from start-up;
time stamps are values of the 32-bit `micros()` counter): a first edge after 4294967295 µs (unit
period 138547332, zero window 55418932..221675731), twenty zero-bit pulses of 221675731 µs each,
and an invalid pulse of 1 µs that ends the decode. -/
def overflowEvents : List Nat := [4294967295, 221675730, 443351461, 665027192, 886702923, 1108378654, 1330054385, 1551730116, 1773405847, 1995081578, 2216757309, 2438433040, 2660108771, 2881784502, 3103460233, 3325135964, 3546811695, 3768487426, 3990163157, 4211838888, 138547323, 138547324]

/-- The statics hold the calibration that lines 104-120 compute from the unit period `p`. -/
def Calibrated (cfg : Config) (p : Nat) (s : Statics) : Prop :=
  s.preSyncPeriod = p ∧
  s.minZeroPeriod = wrap32 (p * 4) / 10 ∧ s.maxZeroPeriod = wrap32 (p * 16) / 10 ∧
  s.minOnePeriod = wrap32 (p * 23) / 10 ∧ s.maxOnePeriod = wrap32 (p * 37) / 10 ∧
  s.minSyncPeriod = wrap32 (p * sub32 cfg.SYNC_CYCLES 6) ∧
  s.maxSyncPeriod = wrap32 (p * wrap32 (cfg.SYNC_CYCLES + 4))

instance (cfg : Config) (p : Nat) (s : Statics) : Decidable (Calibrated cfg p s) :=
  inferInstanceAs (Decidable (
    s.preSyncPeriod = p ∧
    s.minZeroPeriod = wrap32 (p * 4) / 10 ∧ s.maxZeroPeriod = wrap32 (p * 16) / 10 ∧
    s.minOnePeriod = wrap32 (p * 23) / 10 ∧ s.maxOnePeriod = wrap32 (p * 37) / 10 ∧
    s.minSyncPeriod = wrap32 (p * sub32 cfg.SYNC_CYCLES 6) ∧
    s.maxSyncPeriod = wrap32 (p * wrap32 (cfg.SYNC_CYCLES + 4))))

/-- The state reached from start-up, with the sample constants, by a first edge at 3131 µs: synced
with unit period 101, zero window 40..161, one window 232..373, sync window 2525..3535. -/
def oddSample : Statics :=
  { Statics.init sampleConfig with
      last := 3131, sync := true, currentBit := 3, preSyncPeriod := 101,
      minZeroPeriod := 40, maxZeroPeriod := 161, minOnePeriod := 232, maxOnePeriod := 373,
      minSyncPeriod := 2525, maxSyncPeriod := 3535 }

/-- The state reached from start-up, with the sample constants, by the first nine events of
`packingEvents` (a 3100 µs sync and the bit pulses for 1,0,1,1,0,0,0,0): synced, two digits. -/
def decodedSample : Statics :=
  { syncedSample with
      last := 4500, code := ['B', '0', NUL, NUL, NUL, NUL, NUL], codeLength := 2,
      zeroBitPeriod := 500, oneBitPeriod := 300, allBitPeriod := 800,
      zeroBitCount := 5, oneBitCount := 3, allBitCount := 8 }

/-- Number of `goto retry` jumps taken in a handler call: the passes that ended in one. -/
def Outcome.jumps (o : Outcome) : Nat := (o.trace.filter Branch.retries).length

/-- The state reached from start-up, with the sample constants, by a first edge after
4294967295 µs (the longest duration the 32-bit time stamps can give): unit period 138547332; the
products `period * 37` and `period * 35` exceed `2 ^ 32`, and the stored one window and sync
window are 318658863..83128398 and 3463683300..554189324. -/
def hugeSample : Statics :=
  { Statics.init sampleConfig with
      last := 4294967295, sync := true, currentBit := 3, preSyncPeriod := 138547332,
      minZeroPeriod := 55418932, maxZeroPeriod := 221675731, minOnePeriod := 318658863,
      maxOnePeriod := 83128398, minSyncPeriod := 3463683300, maxSyncPeriod := 554189324 }

/-- The state reached from start-up, with the sample constants, by a 3100 µs sync followed by
twenty-four zero-bit pulses of 100 µs: synced, digit buffer full (`MAX_LENGTH = 6` digits). -/
def fullSample : Statics :=
  { syncedSample with
      last := 5500, code := ['0', '0', '0', '0', '0', '0', NUL], codeLength := 6,
      zeroBitPeriod := 2400, allBitPeriod := 2400, zeroBitCount := 24, allBitCount := 24 }

/-- A code passed to `addCode`, with the history of its candidate at the time of the call and the
duration of the pulse that was being handled (the pulse that ended the decode). -/
structure Completion where
  cand : Candidate
  duration : Nat
  code : Code
deriving DecidableEq, Repr

/-- Feeding a sequence of edge events to the handler while keeping the history of the current
candidate; returns all `addCode` calls with the duration of the pulse that triggered them. -/
def runTrail (cfg : Config) : List Nat → Statics → Candidate → List Completion
  | [], _, _ => []
  | now :: rest, s, g =>
    let o := Receiver.interruptHandler cfg now s
    o.pushed.map (fun c => { cand := g, duration := sub32 now s.last, code := c }) ++
      runTrail cfg rest o.st (g.record (sub32 now s.last) o.trace)

/-- In a synced machine the time stamp of the last edge is, modulo `2 ^ 32`, the stored `start`
plus the duration of the leading sync plus the durations of the accepted bit pulses. -/
def Timed (s : Statics) (g : Candidate) : Prop :=
  s.sync = true → wrap32 s.last = wrap32 (s.start + g.lead + g.pulses.sum)

/-- The `addCode` call made for `packingEvents`, with the 3100 µs closing sync that triggered
it. -/
def packingCompletion : Completion :=
  { cand := packingLogged.cand, duration := 3100, code := packingLogged.code }

/-- Sample events (sample constants, from start-up) with a trailing sync that is not reused: a
3100 µs sync, eight bit pulses, a 2500 µs pulse (inside the sync window 2500..3500 but below
`31 * 100`, so it ends the first code and leaves the machine unsynced), an ignored 50 µs pulse,
then a fresh 3100 µs sync, eight zero-bit pulses and a closing 3100 µs sync. -/
def staleEvents : List Nat :=
  [3100, 3400, 3500, 3800, 4100, 4200, 4300, 4400, 4500, 7000, 7050, 10150, 10250, 10350, 10450,
    10550, 10650, 10750, 10850, 10950, 14050]

/-- In a synced machine whose candidate was acquired from the pulse that the first pass of the
same call classified as Sync, `preSyncStandalone` is false. -/
def Flagged (s : Statics) (g : Candidate) : Prop :=
  s.sync = true → g.afterSync = true → s.preSyncStandalone = false

/-! ## Theorems -/

theorem complete_branch (cfg : Config) (now : Nat) (p : Bool) (s : Statics) (b : Branch) :
    (complete cfg now p s b).branch = b := by
  unfold complete
  split <;> rfl

theorem complete_sync (cfg : Config) (now : Nat) (p : Bool) (s : Statics) (b : Branch) :
    (complete cfg now p s b).st.sync = false := by
  unfold complete
  split <;> rfl

/-- A pass that ends in `goto retry` started synced and leaves `sync` false. -/
theorem pass_retries (cfg : Config) (now duration : Nat) (s : Statics)
    (h : (pass cfg now duration s).branch.retries = true) :
    s.sync = true ∧ (pass cfg now duration s).st.sync = false := by
  unfold pass at h ⊢
  split_ifs at h ⊢ <;>
    simp_all [complete_branch, complete_sync, Branch.retries]

/-- A pass entered with `sync` false never ends in `goto retry`. -/
theorem pass_unsynced_retries (cfg : Config) (now duration : Nat) (s : Statics)
    (h : s.sync = false) : (pass cfg now duration s).branch.retries = false := by
  cases hb : (pass cfg now duration s).branch.retries
  · rfl
  · have := (pass_retries cfg now duration s hb).1
    simp [h] at this

theorem retryLoop_done (cfg : Config) (now duration : Nat) (s : Statics)
    (h : (pass cfg now duration s).branch.retries = false) :
    retryLoop cfg now duration s =
      { st := (pass cfg now duration s).st
        pushed := (pass cfg now duration s).pushed
        trace := [(pass cfg now duration s).branch] } := by
  rw [retryLoop]
  simp [h]

theorem retryLoop_unsynced (cfg : Config) (now duration : Nat) (s : Statics)
    (h : s.sync = false) :
    retryLoop cfg now duration s =
      { st := (pass cfg now duration s).st
        pushed := (pass cfg now duration s).pushed
        trace := [(pass cfg now duration s).branch] } :=
  retryLoop_done cfg now duration s (pass_unsynced_retries cfg now duration s h)

theorem retryLoop_retry (cfg : Config) (now duration : Nat) (s : Statics)
    (h : (pass cfg now duration s).branch.retries = true) :
    retryLoop cfg now duration s =
      { st := (pass cfg now duration (pass cfg now duration s).st).st
        pushed := (pass cfg now duration s).pushed ++
          (pass cfg now duration (pass cfg now duration s).st).pushed
        trace := [(pass cfg now duration s).branch,
          (pass cfg now duration (pass cfg now duration s).st).branch] } := by
  rw [retryLoop]
  simp only [h, dite_true]
  rw [retryLoop_unsynced cfg now duration _ (pass_retries cfg now duration s h).2]

/-- C1. Sync acquisition: from any state with `sync` false, an edge whose duration `d` is at least
`SYNC_CYCLES * MIN_PERIOD_US` leaves the handler synced with `preSyncPeriod = d / SYNC_CYCLES`,
`codeLength = 0`, `currentBit = 3`, `value = 0`, the three sums and three counts zero and
`start` equal to the previous edge time stamp; a shorter edge changes nothing but `last`; in both
cases `addCode` is not called. -/
theorem c1_sync_acquisition (cfg : Config) (s : Statics) (now : Nat) (h : s.sync = false) :
    (cfg.SYNC_CYCLES * cfg.MIN_PERIOD_US ≤ sub32 now s.last →
      (Receiver.interruptHandler cfg now s).st.sync = true ∧
      (Receiver.interruptHandler cfg now s).st.preSyncPeriod = sub32 now s.last / cfg.SYNC_CYCLES ∧
      (Receiver.interruptHandler cfg now s).st.codeLength = 0 ∧
      (Receiver.interruptHandler cfg now s).st.currentBit = 3 ∧
      (Receiver.interruptHandler cfg now s).st.value = 0 ∧
      (Receiver.interruptHandler cfg now s).st.zeroBitPeriod = 0 ∧
      (Receiver.interruptHandler cfg now s).st.oneBitPeriod = 0 ∧
      (Receiver.interruptHandler cfg now s).st.allBitPeriod = 0 ∧
      (Receiver.interruptHandler cfg now s).st.zeroBitCount = 0 ∧
      (Receiver.interruptHandler cfg now s).st.oneBitCount = 0 ∧
      (Receiver.interruptHandler cfg now s).st.allBitCount = 0 ∧
      (Receiver.interruptHandler cfg now s).st.start = s.last ∧
      (Receiver.interruptHandler cfg now s).st.last = now ∧
      (Receiver.interruptHandler cfg now s).pushed = []) ∧
    (sub32 now s.last < cfg.SYNC_CYCLES * cfg.MIN_PERIOD_US →
      (Receiver.interruptHandler cfg now s).st = { s with last := now } ∧
      (Receiver.interruptHandler cfg now s).pushed = []) := by
  unfold Receiver.interruptHandler
  simp only [retryLoop_unsynced cfg now _ s h]
  unfold pass
  constructor
  · intro hd
    simp [h, hd]
  · intro hd
    simp [h, Nat.not_le.mpr hd]

/-- C1 at start-up with the sample constants: an edge at time 4000 (duration 4000, at least
`31 * 100`) acquires sync with unit period `4000 / 31 = 129`. -/
theorem c1_sync_acquisition_witness :
    (Statics.init sampleConfig).sync = false ∧
    sampleConfig.SYNC_CYCLES * sampleConfig.MIN_PERIOD_US ≤ sub32 4000 (Statics.init sampleConfig).last ∧
    (Receiver.interruptHandler sampleConfig 4000 (Statics.init sampleConfig)).st.sync = true ∧
    (Receiver.interruptHandler sampleConfig 4000 (Statics.init sampleConfig)).st.preSyncPeriod = 129 :=
  ⟨rfl, by decide,
    ((c1_sync_acquisition sampleConfig (Statics.init sampleConfig) 4000 rfl).1 (by decide)).1,
    ((c1_sync_acquisition sampleConfig (Statics.init sampleConfig) 4000 rfl).1 (by decide)).2.1⟩

/-! ### Well-formedness is an invariant -/

theorem digitChar_ne_NUL (v : Nat) (h : v < 16) : digitChar v ≠ NUL := by
  unfold digitChar NUL
  interval_cases v <;> decide

theorem or_shift_lt (v b : Nat) (c : Int) (hv : v < 16) (hb : b ≤ 1) (h0 : 0 ≤ c) (h3 : c ≤ 3) :
    v ||| (b <<< c.toNat) < 16 := by
  have hc : c.toNat ≤ 3 := by omega
  have hs : b <<< c.toNat < 2 ^ 4 := by
    interval_cases hh : c.toNat <;> interval_cases b <;> decide
  exact Nat.or_lt_two_pow (n := 4) hv hs

theorem cstr_set_NUL (l : List Char) : ∀ n, n < l.length → (∀ i, i < n → l[i]? ≠ some NUL) →
    cstr (l.set n NUL) = l.take n := by
  induction l with
  | nil => intro n hn; simp at hn
  | cons a t ih =>
    intro n hn hd
    cases n with
    | zero => simp [cstr, List.takeWhile_cons]
    | succ m =>
      have ha : a ≠ NUL := by
        have := hd 0 (Nat.succ_pos m)
        simpa using this
      have ht : ∀ i, i < m → t[i]? ≠ some NUL := by
        intro i hi
        have := hd (i + 1) (by omega)
        simpa using this
      have := ih m (by simpa using hn) ht
      simp only [cstr] at this ⊢
      simp [List.takeWhile_cons, ha, this]

theorem init_wellFormed (cfg : Config) : WellFormed cfg (Statics.init cfg) where
  size := by simp [Statics.init]
  bound := by simp [Statics.init]
  digits := by intro i hi; simp [Statics.init] at hi
  bitLo := by simp [Statics.init]
  bitHi := by simp [Statics.init]
  small := by simp [Statics.init]

theorem addBit_wellFormed (cfg : Config) (s : Statics) (bit : Nat) (hb : bit ≤ 1)
    (hw : WellFormed cfg s) (hfull : s.codeLength ≠ cfg.MAX_LENGTH) :
    (addBit s.code s.codeLength s.currentBit s.value bit).code.length = cfg.MAX_LENGTH + 1 ∧
    (addBit s.code s.codeLength s.currentBit s.value bit).codeLength ≤ cfg.MAX_LENGTH ∧
    (∀ i, i < (addBit s.code s.codeLength s.currentBit s.value bit).codeLength →
      (addBit s.code s.codeLength s.currentBit s.value bit).code[i]? ≠ some NUL) ∧
    0 ≤ (addBit s.code s.codeLength s.currentBit s.value bit).currentBit ∧
    (addBit s.code s.codeLength s.currentBit s.value bit).currentBit ≤ 3 ∧
    (addBit s.code s.codeLength s.currentBit s.value bit).value < 16 := by
  have hv := or_shift_lt s.value bit s.currentBit hw.small hb hw.bitLo hw.bitHi
  have hlt : s.codeLength < cfg.MAX_LENGTH := lt_of_le_of_ne hw.bound hfull
  unfold addBit
  by_cases hc : s.currentBit = 0
  · simp only [hc, if_true]
    refine ⟨by simp [hw.size], by omega, ?_, by norm_num, by norm_num, by norm_num⟩
    intro i hi
    rw [List.getElem?_set]
    by_cases hi2 : s.codeLength = i
    · have : s.codeLength < s.code.length := by rw [hw.size]; omega
      simp only [hi2, if_true]
      rw [if_pos (by omega)]
      intro h
      have h2 := digitChar_ne_NUL _ (by simpa [hc] using hv)
      exact h2 (Option.some.inj h)
    · rw [if_neg hi2]
      exact hw.digits i (by omega)
  · simp only [hc, if_false]
    exact ⟨hw.size, hw.bound, hw.digits, by have := hw.bitLo; omega, by have := hw.bitHi; omega, hv⟩

theorem complete_wellFormed (cfg : Config) (now : Nat) (p : Bool) (s : Statics) (b : Branch)
    (hw : WellFormed cfg s) : WellFormed cfg (complete cfg now p s b).st := by
  have hlt : s.codeLength < s.code.length := by rw [hw.size]; have := hw.bound; omega
  unfold complete
  split
  · refine ⟨?_, ?_, ?_, ?_, ?_, ?_⟩
    · simp only []; split_ifs <;> simp [hw.size]
    · simp only []; split_ifs <;> exact hw.bound
    · simp only []
      split_ifs <;>
      · intro i hi
        rw [List.getElem?_set, if_neg (by omega)]
        exact hw.digits i hi
    · simp only []; split_ifs <;> exact hw.bitLo
    · simp only []; split_ifs <;> exact hw.bitHi
    · simp only []; split_ifs <;> exact hw.small
  · exact ⟨hw.size, hw.bound, hw.digits, hw.bitLo, hw.bitHi, hw.small⟩

theorem complete_pushed (cfg : Config) (now : Nat) (p : Bool) (s : Statics) (b : Branch)
    (hw : WellFormed cfg s) (c : Code) (hc : c ∈ (complete cfg now p s b).pushed) :
    cfg.MIN_LENGTH ≤ s.codeLength ∧ c.digits = s.code.take s.codeLength := by
  have hlt : s.codeLength < s.code.length := by rw [hw.size]; have := hw.bound; omega
  unfold complete at hc
  split at hc
  · rename_i hmin
    simp only [List.mem_singleton] at hc
    refine ⟨hmin, ?_⟩
    rw [hc]
    simp only []
    have key := cstr_set_NUL s.code s.codeLength hlt hw.digits
    split_ifs <;> exact key
  · simp at hc

theorem pass_wellFormed (cfg : Config) (now d : Nat) (s : Statics) (hw : WellFormed cfg s) :
    WellFormed cfg (pass cfg now d s).st := by
  unfold pass
  split_ifs with h1 h2 h3 h4 h5 h6
  · exact ⟨hw.size, by simp, by intro i hi; simp at hi, by simp, by simp, by simp⟩
  · exact hw
  · exact complete_wellFormed cfg now true _ _ ⟨hw.size, hw.bound, hw.digits, hw.bitLo, hw.bitHi, hw.small⟩
  · exact complete_wellFormed cfg now false _ _ hw
  · obtain ⟨a1, a2, a3, a4, a5, a6⟩ := addBit_wellFormed cfg s 0 (by norm_num) hw h4
    exact ⟨a1, a2, a3, a4, a5, a6⟩
  · obtain ⟨a1, a2, a3, a4, a5, a6⟩ := addBit_wellFormed cfg s 1 (by norm_num) hw h4
    exact ⟨a1, a2, a3, a4, a5, a6⟩
  · exact complete_wellFormed cfg now false _ _ hw

theorem pass_pushed (cfg : Config) (now d : Nat) (s : Statics) (hw : WellFormed cfg s)
    (c : Code) (hc : c ∈ (pass cfg now d s).pushed) :
    s.sync = true ∧ cfg.MIN_LENGTH ≤ s.codeLength ∧ c.digits = s.code.take s.codeLength := by
  unfold pass at hc
  split_ifs at hc with h1 h2 h3 h4 h5 h6
  · simp at hc
  · simp at hc
  · have := complete_pushed cfg now true { s with postSyncPeriod := d / cfg.SYNC_CYCLES } _
      ⟨hw.size, hw.bound, hw.digits, hw.bitLo, hw.bitHi, hw.small⟩ c hc
    exact ⟨by simpa using h1, this⟩
  · exact ⟨by simpa using h1, complete_pushed cfg now false _ _ hw c hc⟩
  · simp at hc
  · simp at hc
  · exact ⟨by simpa using h1, complete_pushed cfg now false _ _ hw c hc⟩

theorem retryLoop_wellFormed (cfg : Config) (now d : Nat) (s : Statics) (hw : WellFormed cfg s) :
    WellFormed cfg (retryLoop cfg now d s).st := by
  cases h : (pass cfg now d s).branch.retries
  · rw [retryLoop_done cfg now d s h]
    exact pass_wellFormed cfg now d s hw
  · rw [retryLoop_retry cfg now d s h]
    exact pass_wellFormed cfg now d _ (pass_wellFormed cfg now d s hw)

theorem retryLoop_pushed (cfg : Config) (now d : Nat) (s : Statics) (hw : WellFormed cfg s)
    (c : Code) (hc : c ∈ (retryLoop cfg now d s).pushed) :
    s.sync = true ∧ cfg.MIN_LENGTH ≤ s.codeLength ∧ c.digits = s.code.take s.codeLength := by
  cases h : (pass cfg now d s).branch.retries
  · rw [retryLoop_done cfg now d s h] at hc
    exact pass_pushed cfg now d s hw c hc
  · rw [retryLoop_retry cfg now d s h] at hc
    simp only [List.mem_append] at hc
    rcases hc with hc | hc
    · exact pass_pushed cfg now d s hw c hc
    · have h2 := (pass_retries cfg now d s h).2
      have := (pass_pushed cfg now d _ (pass_wellFormed cfg now d s hw) c hc).1
      simp [h2] at this

theorem handler_wellFormed (cfg : Config) (now : Nat) (s : Statics) (hw : WellFormed cfg s) :
    WellFormed cfg (Receiver.interruptHandler cfg now s).st := by
  have h := retryLoop_wellFormed cfg now (sub32 now s.last) s hw
  unfold Receiver.interruptHandler
  exact ⟨h.size, h.bound, h.digits, h.bitLo, h.bitHi, h.small⟩

theorem handler_pushed (cfg : Config) (now : Nat) (s : Statics) (hw : WellFormed cfg s)
    (c : Code) (hc : c ∈ (Receiver.interruptHandler cfg now s).pushed) :
    s.sync = true ∧ cfg.MIN_LENGTH ≤ s.codeLength ∧ c.digits = s.code.take s.codeLength :=
  retryLoop_pushed cfg now (sub32 now s.last) s hw c hc

theorem run_wellFormed (cfg : Config) (events : List Nat) :
    ∀ s, WellFormed cfg s → WellFormed cfg (run cfg events s).1 ∧
      ∀ c ∈ (run cfg events s).2,
        cfg.MIN_LENGTH ≤ c.digits.length ∧ c.digits.length ≤ cfg.MAX_LENGTH := by
  induction events with
  | nil => intro s hw; exact ⟨hw, by simp [run]⟩
  | cons now rest ih =>
    intro s hw
    have h1 := handler_wellFormed cfg now s hw
    obtain ⟨i1, i2⟩ := ih _ h1
    refine ⟨i1, ?_⟩
    intro c hc
    simp only [run, List.mem_append] at hc
    rcases hc with hc | hc
    · obtain ⟨_, hmin, hd⟩ := handler_pushed cfg now s hw c hc
      have hb := hw.bound
      have hs := hw.size
      rw [hd, List.length_take]
      omega
    · exact i2 c hc

/-- C4. Code length invariant: after any sequence of edge events from start-up, `codeLength` is at
most `MAX_LENGTH` and the array `code` has `MAX_LENGTH + 1` elements (so `code[codeLength]` is
inside the array), and every `Code` passed to `addCode` has between `MIN_LENGTH` and `MAX_LENGTH`
digits. -/
theorem c4_code_length_invariant (cfg : Config) (events : List Nat) :
    (run cfg events (Statics.init cfg)).1.codeLength ≤ cfg.MAX_LENGTH ∧
    (run cfg events (Statics.init cfg)).1.code.length = cfg.MAX_LENGTH + 1 ∧
    ∀ c ∈ (run cfg events (Statics.init cfg)).2,
      cfg.MIN_LENGTH ≤ c.digits.length ∧ c.digits.length ≤ cfg.MAX_LENGTH := by
  obtain ⟨hw, hp⟩ := run_wellFormed cfg events (Statics.init cfg) (init_wellFormed cfg)
  exact ⟨hw.bound, hw.size, hp⟩

/-! ### Closed forms of the handler -/

/-- The handler as at most two passes: the `goto retry` is taken at most once. -/
theorem interruptHandler_unfold (cfg : Config) (now : Nat) (s : Statics) :
    Receiver.interruptHandler cfg now s =
      if (pass cfg now (sub32 now s.last) s).branch.retries = true then
        { st := { (pass cfg now (sub32 now s.last) (pass cfg now (sub32 now s.last) s).st).st with
                    last := now }
          pushed := (pass cfg now (sub32 now s.last) s).pushed ++
            (pass cfg now (sub32 now s.last) (pass cfg now (sub32 now s.last) s).st).pushed
          trace := [(pass cfg now (sub32 now s.last) s).branch,
            (pass cfg now (sub32 now s.last) (pass cfg now (sub32 now s.last) s).st).branch] }
      else
        { st := { (pass cfg now (sub32 now s.last) s).st with last := now }
          pushed := (pass cfg now (sub32 now s.last) s).pushed
          trace := [(pass cfg now (sub32 now s.last) s).branch] } := by
  unfold Receiver.interruptHandler
  cases h : (pass cfg now (sub32 now s.last) s).branch.retries
  · simp [retryLoop_done cfg now _ s h]
  · simp [retryLoop_retry cfg now _ s h]

theorem pass_zeroBit (cfg : Config) (now d : Nat) (s : Statics) (hs : s.sync = true)
    (h1 : ¬ inSyncWindow s d) (h2 : s.codeLength ≠ cfg.MAX_LENGTH) (h3 : inZeroWindow s d) :
    pass cfg now d s =
      { st := { s with
                  code := (addBit s.code s.codeLength s.currentBit s.value 0).code
                  codeLength := (addBit s.code s.codeLength s.currentBit s.value 0).codeLength
                  currentBit := (addBit s.code s.codeLength s.currentBit s.value 0).currentBit
                  value := (addBit s.code s.codeLength s.currentBit s.value 0).value
                  zeroBitPeriod := wrap32 (s.zeroBitPeriod + d)
                  zeroBitCount := s.zeroBitCount + 1
                  allBitPeriod := wrap32 (s.allBitPeriod + d)
                  allBitCount := s.allBitCount + 1 }
        pushed := []
        branch := .zeroBit } := by
  unfold inSyncWindow at h1
  unfold inZeroWindow at h3
  unfold pass
  rw [if_neg (by simp [hs]), if_neg h1, if_neg h2, if_pos h3]

theorem pass_oneBit (cfg : Config) (now d : Nat) (s : Statics) (hs : s.sync = true)
    (h1 : ¬ inSyncWindow s d) (h2 : s.codeLength ≠ cfg.MAX_LENGTH) (h3 : ¬ inZeroWindow s d)
    (h4 : inOneWindow s d) :
    pass cfg now d s =
      { st := { s with
                  code := (addBit s.code s.codeLength s.currentBit s.value 1).code
                  codeLength := (addBit s.code s.codeLength s.currentBit s.value 1).codeLength
                  currentBit := (addBit s.code s.codeLength s.currentBit s.value 1).currentBit
                  value := (addBit s.code s.codeLength s.currentBit s.value 1).value
                  oneBitPeriod := wrap32 (s.oneBitPeriod + d / 3)
                  oneBitCount := s.oneBitCount + 1
                  allBitPeriod := wrap32 (s.allBitPeriod + d / 3)
                  allBitCount := s.allBitCount + 1 }
        pushed := []
        branch := .oneBit } := by
  unfold inSyncWindow at h1
  unfold inZeroWindow at h3
  unfold inOneWindow at h4
  unfold pass
  rw [if_neg (by simp [hs]), if_neg h1, if_neg h2, if_neg h3, if_pos h4]

theorem pass_syncEnd (cfg : Config) (now d : Nat) (s : Statics) (hs : s.sync = true)
    (h1 : inSyncWindow s d) :
    pass cfg now d s =
      complete cfg now true { s with postSyncPeriod := d / cfg.SYNC_CYCLES } .syncEnd := by
  unfold inSyncWindow at h1
  unfold pass
  rw [if_neg (by simp [hs]), if_pos h1]

theorem pass_unsynced_pushed (cfg : Config) (now d : Nat) (s : Statics) (hs : s.sync = false) :
    (pass cfg now d s).pushed = [] := by
  unfold pass
  rw [if_pos hs]
  split <;> rfl

theorem addBit_bitCount (code : List Char) (len : Nat) (cb : Int) (v bit : Nat)
    (h0 : 0 ≤ cb) (h3 : cb ≤ 3) :
    4 * (addBit code len cb v bit).codeLength + (3 - (addBit code len cb v bit).currentBit).toNat
      = 4 * len + (3 - cb).toNat + 1 := by
  unfold addBit
  by_cases hc : cb = 0
  · simp [hc]; omega
  · simp only [hc, if_false]; omega

/-- One accepted bit pulse: no code is pushed, the machine stays synced with the same
calibration, and the bit count grows by one. -/
theorem handler_bit (cfg : Config) (now : Nat) (s : Statics) (hs : s.sync = true)
    (hw : WellFormed cfg s) (hfull : s.codeLength ≠ cfg.MAX_LENGTH)
    (hb : isBitPulse s (sub32 now s.last)) :
    (Receiver.interruptHandler cfg now s).pushed = [] ∧
    (Receiver.interruptHandler cfg now s).st.sync = true ∧
    (Receiver.interruptHandler cfg now s).st.windows = s.windows ∧
    (Receiver.interruptHandler cfg now s).st.bitCount = s.bitCount + 1 ∧
    (Receiver.interruptHandler cfg now s).st.last = now := by
  rw [interruptHandler_unfold]
  obtain ⟨h1, h2⟩ := hb
  by_cases hz : inZeroWindow s (sub32 now s.last)
  · rw [pass_zeroBit cfg now _ s hs h1 hfull hz]
    simp only [Branch.retries, Statics.windows, Statics.bitCount]
    refine ⟨by simp, by simp [hs], by simp, ?_, by simp⟩
    simpa using addBit_bitCount s.code s.codeLength s.currentBit s.value 0 hw.bitLo hw.bitHi
  · have ho : inOneWindow s (sub32 now s.last) := h2.resolve_left hz
    rw [pass_oneBit cfg now _ s hs h1 hfull hz ho]
    simp only [Branch.retries, Statics.windows, Statics.bitCount]
    refine ⟨by simp, by simp [hs], by simp, ?_, by simp⟩
    simpa using addBit_bitCount s.code s.codeLength s.currentBit s.value 1 hw.bitLo hw.bitHi

theorem isBitPulse_congr (s t : Statics) (h : t.windows = s.windows) (d : Nat) :
    isBitPulse t d ↔ isBitPulse s d := by
  simp only [Statics.windows, List.cons.injEq, and_true] at h
  obtain ⟨a1, a2, a3, a4, a5, a6⟩ := h
  simp only [isBitPulse, inSyncWindow, inZeroWindow, inOneWindow, a1, a2, a3, a4, a5, a6]

theorem inSyncWindow_congr (s t : Statics) (h : t.windows = s.windows) (d : Nat) :
    inSyncWindow t d ↔ inSyncWindow s d := by
  simp only [Statics.windows, List.cons.injEq, and_true] at h
  obtain ⟨a1, a2, a3, a4, a5, a6⟩ := h
  simp only [inSyncWindow, a5, a6]

theorem run_append (cfg : Config) (xs ys : List Nat) : ∀ s,
    run cfg (xs ++ ys) s =
      ((run cfg ys (run cfg xs s).1).1, (run cfg xs s).2 ++ (run cfg ys (run cfg xs s).1).2) := by
  induction xs with
  | nil => intro s; simp [run]
  | cons x rest ih => intro s; simp [run, ih]

/-- A sequence of accepted bit pulses that fits the digit buffer: nothing is pushed and the bit
count grows by the number of pulses. -/
theorem run_bits (cfg : Config) (bits : List Nat) : ∀ s, s.sync = true → WellFormed cfg s →
    s.bitCount + bits.length ≤ 4 * cfg.MAX_LENGTH →
    (∀ d ∈ durations s.last bits, isBitPulse s d) →
    (run cfg bits s).2 = [] ∧ (run cfg bits s).1.sync = true ∧
    WellFormed cfg (run cfg bits s).1 ∧ (run cfg bits s).1.windows = s.windows ∧
    (run cfg bits s).1.bitCount = s.bitCount + bits.length ∧
    (run cfg bits s).1.last = lastStamp s.last bits := by
  induction bits with
  | nil => intro s hs hw _ _; simp [run, hs, hw, lastStamp]
  | cons now rest ih =>
    intro s hs hw hcap hall
    have hfull : s.codeLength ≠ cfg.MAX_LENGTH := by
      intro h
      simp only [Statics.bitCount, List.length_cons] at hcap
      omega
    have hb : isBitPulse s (sub32 now s.last) := hall _ (by simp [durations])
    obtain ⟨b1, b2, b3, b4, b5⟩ := handler_bit cfg now s hs hw hfull hb
    have hw2 := handler_wellFormed cfg now s hw
    have hall2 : ∀ d ∈ durations (Receiver.interruptHandler cfg now s).st.last rest,
        isBitPulse (Receiver.interruptHandler cfg now s).st d := by
      intro d hd
      rw [isBitPulse_congr _ _ b3]
      rw [b5] at hd
      exact hall d (by simp [durations, hd])
    obtain ⟨i1, i2, i3, i4, i5, i6⟩ := ih _ b2 hw2
      (by rw [b4]; simp only [List.length_cons] at hcap; omega) hall2
    simp only [run]
    refine ⟨by simp [b1, i1], i2, i3, by rw [i4, b3], ?_, ?_⟩
    · rw [i5, b4]; simp only [List.length_cons]; omega
    · rw [i6, b5]; rfl

/-- Only the first pass of a handler call can call `addCode`. -/
theorem handler_pushed_eq (cfg : Config) (now : Nat) (s : Statics) :
    (Receiver.interruptHandler cfg now s).pushed = (pass cfg now (sub32 now s.last) s).pushed := by
  rw [interruptHandler_unfold]
  cases h : (pass cfg now (sub32 now s.last) s).branch.retries
  · simp
  · simp [pass_unsynced_pushed cfg now _ _ (pass_retries cfg now _ s h).2]

/-- Closed form of a handler call that acquires sync. -/
theorem handler_acquire (cfg : Config) (now : Nat) (s : Statics) (hs : s.sync = false)
    (hd : cfg.SYNC_CYCLES * cfg.MIN_PERIOD_US ≤ sub32 now s.last) :
    Receiver.interruptHandler cfg now s =
      { st := { s with
                  last := now
                  start := s.last
                  codeLength := 0
                  preSyncPeriod := sub32 now s.last / cfg.SYNC_CYCLES
                  zeroBitPeriod := 0, oneBitPeriod := 0, allBitPeriod := 0
                  zeroBitCount := 0, oneBitCount := 0, allBitCount := 0
                  currentBit := 3
                  value := 0
                  sync := true
                  minZeroPeriod := wrap32 (sub32 now s.last / cfg.SYNC_CYCLES * 4) / 10
                  maxZeroPeriod := wrap32 (sub32 now s.last / cfg.SYNC_CYCLES * 16) / 10
                  minOnePeriod := wrap32 (sub32 now s.last / cfg.SYNC_CYCLES * 23) / 10
                  maxOnePeriod := wrap32 (sub32 now s.last / cfg.SYNC_CYCLES * 37) / 10
                  minSyncPeriod :=
                    wrap32 (sub32 now s.last / cfg.SYNC_CYCLES * sub32 cfg.SYNC_CYCLES 6)
                  maxSyncPeriod :=
                    wrap32 (sub32 now s.last / cfg.SYNC_CYCLES * wrap32 (cfg.SYNC_CYCLES + 4)) }
        pushed := []
        trace := [.acquire] } := by
  unfold Receiver.interruptHandler
  simp only [retryLoop_unsynced cfg now _ s hs]
  unfold pass
  simp [hs, hd]

/-- Closed form of a handler call that leaves the machine waiting for a sync. -/
theorem handler_idle (cfg : Config) (now : Nat) (s : Statics) (hs : s.sync = false)
    (hd : sub32 now s.last < cfg.SYNC_CYCLES * cfg.MIN_PERIOD_US) :
    Receiver.interruptHandler cfg now s =
      { st := { s with last := now }, pushed := [], trace := [.idle] } := by
  unfold Receiver.interruptHandler
  simp only [retryLoop_unsynced cfg now _ s hs]
  unfold pass
  simp [hs, Nat.not_le.mpr hd]

/-- The completion evaluation with at least `MIN_LENGTH` digits calls `addCode` once, with this
code. -/
theorem complete_long (cfg : Config) (now : Nat) (p : Bool) (s : Statics) (b : Branch)
    (hw : WellFormed cfg s) (hmin : cfg.MIN_LENGTH ≤ s.codeLength) :
    (complete cfg now p s b).pushed =
      [{ digits := s.code.take s.codeLength
         trailingBitCount := 3 - s.currentBit
         trailingValue := s.value
         totalDurationMicros := sub32 now s.start
         preSyncStandalone := s.preSyncStandalone
         postSyncPresent := p
         preSyncPeriodMicros := s.preSyncPeriod
         postSyncPeriodMicros := s.postSyncPeriod
         avgZeroPeriodMicros :=
           if s.zeroBitCount > 0 then s.zeroBitPeriod / s.zeroBitCount else s.zeroBitPeriod
         avgOnePeriodMicros :=
           if s.oneBitCount > 0 then s.oneBitPeriod / s.oneBitCount else s.oneBitPeriod
         avgAllPeriodMicros :=
           if s.allBitCount > 0 then s.allBitPeriod / s.allBitCount else s.allBitPeriod }] := by
  have hlt : s.codeLength < s.code.length := by rw [hw.size]; have := hw.bound; omega
  have key := cstr_set_NUL s.code s.codeLength hlt hw.digits
  unfold complete
  rw [if_pos hmin]
  simp only []
  split_ifs <;> simp [key]

/-- The completion evaluation with fewer than `MIN_LENGTH` digits only restarts. -/
theorem complete_short (cfg : Config) (now : Nat) (p : Bool) (s : Statics) (b : Branch)
    (hmin : s.codeLength < cfg.MIN_LENGTH) :
    complete cfg now p s b =
      { st := { s with sync := false, preSyncStandalone := !p }, pushed := [], branch := b } := by
  unfold complete
  rw [if_neg (by omega)]

/-- C2. Minimum-length decode: from any state with `sync` false (whose array `code` has its
declared size, and with `MIN_LENGTH ≤ MAX_LENGTH`), one leading pulse of duration at least
`SYNC_CYCLES * MIN_PERIOD_US`, then exactly `4 * MIN_LENGTH` pulses each classified Zero or One
under the calibration of the leading pulse, then one pulse inside the sync window: no code is
pushed before the last event, and over the whole sequence exactly one code is pushed, with
`MIN_LENGTH` digits, `trailingBitCount = 0` and `postSyncPresent = true`. -/
theorem c2_minimum_length_decode (cfg : Config) (s : Statics) (now0 : Nat) (bits : List Nat)
    (nowS : Nat) (hs : s.sync = false) (hsize : s.code.length = cfg.MAX_LENGTH + 1)
    (hcfg : cfg.MIN_LENGTH ≤ cfg.MAX_LENGTH)
    (hlead : cfg.SYNC_CYCLES * cfg.MIN_PERIOD_US ≤ sub32 now0 s.last)
    (hlen : bits.length = 4 * cfg.MIN_LENGTH)
    (hbits : ∀ d ∈ durations now0 bits, isBitPulse (Receiver.interruptHandler cfg now0 s).st d)
    (hsync : inSyncWindow (Receiver.interruptHandler cfg now0 s).st
      (sub32 nowS (lastStamp now0 bits))) :
    (run cfg (now0 :: bits) s).2 = [] ∧
    ∃ c, (run cfg (now0 :: (bits ++ [nowS])) s).2 = [c] ∧
      c.digits.length = cfg.MIN_LENGTH ∧ c.trailingBitCount = 0 ∧ c.postSyncPresent = true := by
  have hacq := handler_acquire cfg now0 s hs hlead
  have hp1 : (Receiver.interruptHandler cfg now0 s).pushed = [] := by rw [hacq]
  have hl1 : (Receiver.interruptHandler cfg now0 s).st.last = now0 := by rw [hacq]
  have hy1 : (Receiver.interruptHandler cfg now0 s).st.sync = true := by rw [hacq]
  have hc1 : (Receiver.interruptHandler cfg now0 s).st.bitCount = 0 := by
    rw [hacq]; simp [Statics.bitCount]
  have hw1 : WellFormed cfg (Receiver.interruptHandler cfg now0 s).st := by
    rw [hacq]
    exact ⟨hsize, by simp, by intro i hi; simp at hi, by simp, by simp, by simp⟩
  obtain ⟨r1, r2, r3, r4, r5, r6⟩ := run_bits cfg bits _ hy1 hw1
    (by rw [hc1, hlen]; omega) (by rw [hl1]; exact hbits)
  rw [hc1] at r5
  rw [hl1] at r6
  have hfirst : (run cfg (now0 :: bits) s).2 = [] := by simp [run, hp1, r1]
  refine ⟨hfirst, ?_⟩
  have hsplit : now0 :: (bits ++ [nowS]) = (now0 :: bits) ++ [nowS] := by simp
  rw [hsplit, run_append, hfirst]
  have hst : (run cfg (now0 :: bits) s).1 = (run cfg bits (Receiver.interruptHandler cfg now0 s).st).1 := by
    simp [run]
  rw [hst]
  generalize (run cfg bits (Receiver.interruptHandler cfg now0 s).st).1 = s2 at r2 r3 r4 r5 r6
  have hlo := r3.bitLo
  have hhi := r3.bitHi
  simp only [Statics.bitCount] at r5
  have hlen2 : s2.codeLength = cfg.MIN_LENGTH := by omega
  have hcb : s2.currentBit = 3 := by omega
  have hin : inSyncWindow s2 (sub32 nowS s2.last) := by
    rw [inSyncWindow_congr _ _ r4, r6]; exact hsync
  have hpush : (Receiver.interruptHandler cfg nowS s2).pushed = _ :=
    (handler_pushed_eq cfg nowS s2).trans
      ((congrArg Pass.pushed (pass_syncEnd cfg nowS _ s2 r2 hin)).trans
        (complete_long cfg nowS true _ .syncEnd
          ⟨r3.size, r3.bound, r3.digits, r3.bitLo, r3.bitHi, r3.small⟩ (by simp [hlen2])))
  refine ⟨_, by simp only [run, List.nil_append, List.append_nil]; exact hpush, ?_, ?_, rfl⟩
  · have := r3.size
    simp only [List.length_take]
    omega
  · simp [hcb]

/-- C2 with the sample constants (`MIN_LENGTH = 2`): from start-up, a 3100 µs sync, eight bit
pulses of alternating 100 µs and 300 µs, and a closing 3100 µs sync push exactly one code. -/
theorem c2_minimum_length_decode_witness :
    (run sampleConfig (3100 :: [3200, 3500, 3600, 3900, 4000, 4300, 4400, 4700])
      (Statics.init sampleConfig)).2 = [] ∧
    ∃ c, (run sampleConfig (3100 :: ([3200, 3500, 3600, 3900, 4000, 4300, 4400, 4700] ++ [7800]))
        (Statics.init sampleConfig)).2 = [c] ∧
      c.digits.length = sampleConfig.MIN_LENGTH ∧ c.trailingBitCount = 0 ∧
      c.postSyncPresent = true :=
  c2_minimum_length_decode sampleConfig (Statics.init sampleConfig) 3100
    [3200, 3500, 3600, 3900, 4000, 4300, 4400, 4700] 7800 rfl (by decide) (by decide) (by decide)
    (by decide)
    (by rw [handler_acquire sampleConfig 3100 _ rfl (by decide)]; decide)
    (by rw [handler_acquire sampleConfig 3100 _ rfl (by decide)]; decide)

/-- The sample synced state is the one the handler reaches from start-up on an edge at 3100 µs. -/
theorem syncedSample_reached :
    (Receiver.interruptHandler sampleConfig 3100 (Statics.init sampleConfig)).st = syncedSample := by
  rw [handler_acquire sampleConfig 3100 _ rfl (by decide)]
  decide

/-- C3 as stated fails: in the sample synced state (no digit yet, sync window 2500..3500) a pulse
of 2500 µs lies in the sync window, yet the handler leaves `sync` false, because 2500 is below
`SYNC_CYCLES * MIN_PERIOD_US = 3100`. -/
theorem c3_too_short_counterexample :
    syncedSample.sync = true ∧ syncedSample.codeLength < sampleConfig.MIN_LENGTH ∧
    inSyncWindow syncedSample (sub32 5600 syncedSample.last) ∧
    (Receiver.interruptHandler sampleConfig 5600 syncedSample).st.sync = false := by
  refine ⟨rfl, by decide, by decide, ?_⟩
  rw [interruptHandler_unfold]
  decide

/-- C3, amended. Too-short candidate: in a synced state with fewer than `MIN_LENGTH` digits, a pulse
inside the sync window pushes no code, sets `preSyncStandalone` to false, and leaves exactly the
state that the unsynced branch produces from that same pulse; so the machine is synced again
(unit period `d / SYNC_CYCLES`, no digits, cleared accumulators) when
`d ≥ SYNC_CYCLES * MIN_PERIOD_US`, and is left waiting for a sync when `d` is smaller. -/
theorem c3_too_short (cfg : Config) (s : Statics) (now : Nat) (hs : s.sync = true)
    (hshort : s.codeLength < cfg.MIN_LENGTH) (hin : inSyncWindow s (sub32 now s.last)) :
    (Receiver.interruptHandler cfg now s).pushed = [] ∧
    (Receiver.interruptHandler cfg now s).st.preSyncStandalone = false ∧
    (Receiver.interruptHandler cfg now s).st =
      (Receiver.interruptHandler cfg now
        { s with sync := false, preSyncStandalone := false
                 postSyncPeriod := sub32 now s.last / cfg.SYNC_CYCLES }).st ∧
    (cfg.SYNC_CYCLES * cfg.MIN_PERIOD_US ≤ sub32 now s.last →
      (Receiver.interruptHandler cfg now s).st.sync = true ∧
      (Receiver.interruptHandler cfg now s).st.preSyncPeriod = sub32 now s.last / cfg.SYNC_CYCLES ∧
      (Receiver.interruptHandler cfg now s).st.codeLength = 0 ∧
      (Receiver.interruptHandler cfg now s).st.currentBit = 3 ∧
      (Receiver.interruptHandler cfg now s).st.value = 0 ∧
      (Receiver.interruptHandler cfg now s).st.zeroBitPeriod = 0 ∧
      (Receiver.interruptHandler cfg now s).st.oneBitPeriod = 0 ∧
      (Receiver.interruptHandler cfg now s).st.allBitPeriod = 0 ∧
      (Receiver.interruptHandler cfg now s).st.zeroBitCount = 0 ∧
      (Receiver.interruptHandler cfg now s).st.oneBitCount = 0 ∧
      (Receiver.interruptHandler cfg now s).st.allBitCount = 0 ∧
      (Receiver.interruptHandler cfg now s).st.start = s.last) ∧
    (sub32 now s.last < cfg.SYNC_CYCLES * cfg.MIN_PERIOD_US →
      (Receiver.interruptHandler cfg now s).st.sync = false) := by
  have hp : pass cfg now (sub32 now s.last) s =
      { st := { s with sync := false, preSyncStandalone := false
                       postSyncPeriod := sub32 now s.last / cfg.SYNC_CYCLES }
        pushed := [], branch := .syncEnd } := by
    rw [pass_syncEnd cfg now _ s hs hin]
    exact complete_short cfg now true
      { s with postSyncPeriod := sub32 now s.last / cfg.SYNC_CYCLES } _ hshort
  have hleft : Receiver.interruptHandler cfg now s =
      { st := { (pass cfg now (sub32 now s.last)
                  { s with sync := false, preSyncStandalone := false
                           postSyncPeriod := sub32 now s.last / cfg.SYNC_CYCLES }).st with
                  last := now }
        pushed := (pass cfg now (sub32 now s.last)
                  { s with sync := false, preSyncStandalone := false
                           postSyncPeriod := sub32 now s.last / cfg.SYNC_CYCLES }).pushed
        trace := [.syncEnd, (pass cfg now (sub32 now s.last)
                  { s with sync := false, preSyncStandalone := false
                           postSyncPeriod := sub32 now s.last / cfg.SYNC_CYCLES }).branch] } := by
    rw [interruptHandler_unfold, hp]
    simp [Branch.retries]
  have hright : (Receiver.interruptHandler cfg now
        { s with sync := false, preSyncStandalone := false
                 postSyncPeriod := sub32 now s.last / cfg.SYNC_CYCLES }).st =
      { (pass cfg now (sub32 now s.last)
                  { s with sync := false, preSyncStandalone := false
                           postSyncPeriod := sub32 now s.last / cfg.SYNC_CYCLES }).st with
                  last := now } := by
    rw [interruptHandler_unfold]
    rw [if_neg (by simp [pass_unsynced_retries])]
  rw [hright, hleft]
  unfold pass
  by_cases hd : cfg.SYNC_CYCLES * cfg.MIN_PERIOD_US ≤ sub32 now s.last
  · simp [hd]
  · simp [hd]

/-- C3 amended, in the sample synced state: a 3100 µs pulse (inside the sync window 2500..3500 and
not below `31 * 100`) pushes nothing and leaves the machine synced with unit period 100. -/
theorem c3_too_short_witness :
    (Receiver.interruptHandler sampleConfig 6200 syncedSample).pushed = [] ∧
    (Receiver.interruptHandler sampleConfig 6200 syncedSample).st.sync = true ∧
    (Receiver.interruptHandler sampleConfig 6200 syncedSample).st.preSyncPeriod =
      sub32 6200 syncedSample.last / sampleConfig.SYNC_CYCLES :=
  ⟨(c3_too_short sampleConfig syncedSample 6200 rfl (by decide) (by decide)).1,
    ((c3_too_short sampleConfig syncedSample 6200 rfl (by decide) (by decide)).2.2.2.1
      (by decide)).1,
    ((c3_too_short sampleConfig syncedSample 6200 rfl (by decide) (by decide)).2.2.2.1
      (by decide)).2.1⟩

/-! ### The ring buffer -/

theorem mod_offset (i j n : Nat) (hi : i < n) (hj : j < n) :
    (i + j) % n = if i + j < n then i + j else i + j - n := by
  split_ifs with h
  · exact Nat.mod_eq_of_lt h
  · rw [Nat.mod_eq_sub_mod (by omega)]
    exact Nat.mod_eq_of_lt (by omega)

theorem printLoop_none (cfg : Config) (r : Receiver) (k : Nat) : ∀ n,
    (∀ j, n ≤ j → j < n + k → (r.slot cfg j).empty = true) →
    Receiver.printLoop cfg r n k = (r, none) := by
  induction k with
  | zero => intro n _; rfl
  | succ k ih =>
    intro n h
    have h0 : (r.codes.getD ((r.codeIndex + n) % cfg.MAX_CODES) default).empty = true :=
      h n (le_refl n) (by omega)
    simp only [Receiver.printLoop, h0]
    exact ih (n + 1) (fun j hj1 hj2 => h j (by omega) (by omega))

theorem printLoop_found (cfg : Config) (r : Receiver) (m k : Nat) : ∀ n, n ≤ m → m < n + k →
    (∀ j, n ≤ j → j < m → (r.slot cfg j).empty = true) → (r.slot cfg m).empty = false →
    Receiver.printLoop cfg r n k =
      ({ r with codes := r.codes.set ((r.codeIndex + m) % cfg.MAX_CODES) (r.slot cfg m).clear },
        some (r.slot cfg m)) := by
  induction k with
  | zero => intro n h1 h2; omega
  | succ k ih =>
    intro n h1 h2 hskip hm
    by_cases hnm : n = m
    · subst hnm
      have h0 : (r.codes.getD ((r.codeIndex + n) % cfg.MAX_CODES) default).empty = false := hm
      simp only [Receiver.printLoop, h0]
      rfl
    · have h0 : (r.codes.getD ((r.codeIndex + n) % cfg.MAX_CODES) default).empty = true :=
        hskip n (le_refl n) (by omega)
      simp only [Receiver.printLoop, h0]
      exact ih (n + 1) (by omega) (by omega) (fun j hj1 hj2 => hskip j (by omega) hj2) hm

theorem slot_empty_of_all (cfg : Config) (r : Receiver) (h : ∀ c ∈ r.codes, c.empty = true)
    (j : Nat) : (r.slot cfg j).empty = true := by
  unfold Receiver.slot
  rw [List.getD_eq_getElem?_getD]
  cases hc : r.codes[(r.codeIndex + j) % cfg.MAX_CODES]? with
  | none => rfl
  | some c => exact h c (List.getElem?_mem hc)

/-- C7. Drain on empty: when every slot is empty, whatever the write cursor, `printCode` prints no
code and leaves the slots and the cursor unchanged. -/
theorem c7_drain_on_empty (cfg : Config) (r : Receiver) (h : ∀ c ∈ r.codes, c.empty = true) :
    Receiver.printCode cfg r = (r, none) :=
  printLoop_none cfg r cfg.MAX_CODES 0 (fun j _ _ => slot_empty_of_all cfg r h j)

/-- C7 on a four-slot buffer of blank codes with the cursor at 2. -/
theorem c7_drain_on_empty_witness :
    Receiver.printCode sampleConfig { codes := List.replicate 4 Code.blank, codeIndex := 2 } =
      ({ codes := List.replicate 4 Code.blank, codeIndex := 2 }, none) :=
  c7_drain_on_empty sampleConfig { codes := List.replicate 4 Code.blank, codeIndex := 2 }
    (by decide)

theorem getD_set_self (l : List Code) (i : Nat) (c : Code) (h : i < l.length) :
    (l.set i c).getD i default = c := by
  rw [List.getD_eq_getElem?_getD, List.getElem?_set]
  simp [h]

theorem getD_set_other (l : List Code) (i p : Nat) (c : Code) (h : i ≠ p) :
    (l.set i c).getD p default = l.getD p default := by
  rw [List.getD_eq_getElem?_getD, List.getD_eq_getElem?_getD, List.getElem?_set]
  simp [h]

theorem slot_addCode (cfg : Config) (r : Receiver) (c : Code) (j : Nat)
    (hlen : r.codes.length = cfg.MAX_CODES) (hidx : r.codeIndex < cfg.MAX_CODES)
    (hj : j < cfg.MAX_CODES) :
    (Receiver.addCode cfg r c).slot cfg j =
      if j = cfg.MAX_CODES - 1 then c else r.slot cfg (j + 1) := by
  unfold Receiver.slot Receiver.addCode
  simp only [Nat.mod_add_mod]
  have hre : r.codeIndex + 1 + j = r.codeIndex + (j + 1) := by omega
  rw [hre]
  split_ifs with h
  · have h2 : r.codeIndex + (j + 1) = r.codeIndex + cfg.MAX_CODES := by omega
    rw [h2, Nat.add_mod_right, Nat.mod_eq_of_lt hidx]
    exact getD_set_self _ _ _ (by omega)
  · have hlt : j + 1 < cfg.MAX_CODES := by omega
    apply getD_set_other
    rw [mod_offset _ _ _ hidx hlt]
    split_ifs <;> omega

theorem filled_push (cfg : Config) (r : Receiver) (q : List Code) (c : Code)
    (h : Filled cfg r q) : Filled cfg (Receiver.addCode cfg r c) (keepLast cfg.MAX_CODES (q ++ [c])) := by
  obtain ⟨hlen, hidx, hq, hslots⟩ := h
  have hpos : 0 < cfg.MAX_CODES := by omega
  have hklen : (keepLast cfg.MAX_CODES (q ++ [c])).length = min (q.length + 1) cfg.MAX_CODES := by
    simp only [keepLast, List.length_drop, List.length_append, List.length_singleton]
    omega
  refine ⟨by simp [Receiver.addCode, hlen], Nat.mod_lt _ hpos, by rw [hklen]; omega, ?_⟩
  intro j hj1 hj2
  rw [slot_addCode cfg r c j hlen hidx hj2, hklen]
  rw [hklen] at hj1
  simp only [keepLast, List.getElem?_drop, List.length_append, List.length_singleton]
  by_cases hfull : q.length < cfg.MAX_CODES
  · have e1 : min (q.length + 1) cfg.MAX_CODES = q.length + 1 := by omega
    rw [e1] at hj1 ⊢
    have e2 : q.length + 1 - cfg.MAX_CODES = 0 := by omega
    rw [e2, Nat.zero_add]
    split_ifs with hlast
    · have e3 : j - (cfg.MAX_CODES - (q.length + 1)) = q.length := by omega
      rw [e3]
      simp
    · have e3 : j - (cfg.MAX_CODES - (q.length + 1)) = j + 1 - (cfg.MAX_CODES - q.length) := by
        omega
      rw [e3, List.getElem?_append_left (by omega)]
      exact hslots (j + 1) (by omega) (by omega)
  · have e0 : q.length = cfg.MAX_CODES := by omega
    have e1 : min (q.length + 1) cfg.MAX_CODES = cfg.MAX_CODES := by omega
    rw [e1]
    have e2 : q.length + 1 - cfg.MAX_CODES + (j - (cfg.MAX_CODES - cfg.MAX_CODES)) = j + 1 := by
      omega
    rw [e2]
    split_ifs with hlast
    · have e3 : j + 1 = q.length := by omega
      rw [e3]
      simp
    · rw [List.getElem?_append_left (by omega)]
      have := hslots (j + 1) (by omega) (by omega)
      rw [e0] at this
      simpa using this

theorem keepLast_of_le (n : Nat) (l : List Code) (h : l.length ≤ n) : keepLast n l = l := by
  unfold keepLast
  rw [Nat.sub_eq_zero_of_le h]
  rfl

theorem keepLast_append (n : Nat) (a b : List Code) :
    keepLast n (keepLast n a ++ b) = keepLast n (a ++ b) := by
  by_cases h : a.length ≤ n
  · rw [keepLast_of_le n a h]
  · have hl : (List.drop (a.length - n) a ++ b).length - n = b.length := by
      simp only [List.length_append, List.length_drop]
      omega
    have hr : (a ++ b).length - n = (a.length - n) + b.length := by
      simp only [List.length_append]
      omega
    have hd : List.drop (a.length - n) (a ++ b) = List.drop (a.length - n) a ++ b :=
      List.drop_append_of_le_length (by omega)
    unfold keepLast
    rw [hl, hr, ← List.drop_drop, hd]

theorem filled_pushes (cfg : Config) (cs : List Code) : ∀ (r : Receiver) (q : List Code),
    Filled cfg r q →
    Filled cfg (cs.foldl (Receiver.addCode cfg) r) (keepLast cfg.MAX_CODES (q ++ cs)) := by
  induction cs with
  | nil =>
    intro r q h
    simpa [keepLast_of_le _ _ h.2.2.1] using h
  | cons c rest ih =>
    intro r q h
    have h1 := ih _ _ (filled_push cfg r q c h)
    rw [keepLast_append] at h1
    simpa using h1

theorem holds_push (cfg : Config) (r : Receiver) (q : List Code) (c : Code)
    (h : Holds cfg r q) (hroom : q.length < cfg.MAX_CODES) (hc : c.empty = false) :
    Holds cfg (Receiver.addCode cfg r c) (q ++ [c]) := by
  obtain ⟨hf, hne, hem⟩ := h
  have h1 := filled_push cfg r q c hf
  rw [keepLast_of_le _ _ (by simp; omega)] at h1
  refine ⟨h1, ?_, ?_⟩
  · intro x hx
    simp only [List.mem_append, List.mem_singleton] at hx
    rcases hx with hx | hx
    · exact hne x hx
    · rw [hx]; exact hc
  · intro j hj
    simp only [List.length_append, List.length_singleton] at hj
    rw [slot_addCode cfg r c j hf.1 hf.2.1 (by omega), if_neg (by omega)]
    exact hem (j + 1) (by omega)

theorem holds_take_nil (cfg : Config) (r : Receiver) (h : Holds cfg r []) :
    Receiver.printCode cfg r = (r, none) :=
  printLoop_none cfg r cfg.MAX_CODES 0 (fun j _ hj => h.2.2 j (by simpa using hj))

theorem holds_take_cons (cfg : Config) (r : Receiver) (c : Code) (q : List Code)
    (h : Holds cfg r (c :: q)) :
    (Receiver.printCode cfg r).2 = some c ∧ Holds cfg (Receiver.printCode cfg r).1 q := by
  obtain ⟨⟨hlen, hidx, hq, hslots⟩, hne, hem⟩ := h
  simp only [List.length_cons] at hq hslots hem
  have hm : cfg.MAX_CODES - (q.length + 1) < cfg.MAX_CODES := by omega
  have hslot : r.slot cfg (cfg.MAX_CODES - (q.length + 1)) = c := by
    have := hslots (cfg.MAX_CODES - (q.length + 1)) (le_refl _) hm
    simpa using this.symm
  have hfound := printLoop_found cfg r (cfg.MAX_CODES - (q.length + 1)) cfg.MAX_CODES 0
    (Nat.zero_le _) (by omega) (fun j _ hj => hem j hj)
    (by rw [hslot]; exact hne c (List.mem_cons_self c q))
  rw [hslot] at hfound
  unfold Receiver.printCode
  rw [hfound]
  refine ⟨rfl, ⟨by simp [hlen], hidx, by omega, ?_⟩, fun x hx => hne x (List.mem_cons_of_mem c hx),
    ?_⟩
  · intro j hj1 hj2
    have hother : (r.codeIndex + (cfg.MAX_CODES - (q.length + 1))) % cfg.MAX_CODES ≠
        (r.codeIndex + j) % cfg.MAX_CODES := by
      rw [mod_offset _ _ _ hidx hm, mod_offset _ _ _ hidx hj2]
      split_ifs <;> omega
    have hs := hslots j (by omega) hj2
    have e : j - (cfg.MAX_CODES - (q.length + 1)) = (j - (cfg.MAX_CODES - q.length)) + 1 := by
      omega
    rw [e, List.getElem?_cons_succ] at hs
    rw [hs]
    unfold Receiver.slot
    simp only []
    rw [getD_set_other _ _ _ _ hother]
  · intro j hj
    unfold Receiver.slot
    simp only []
    by_cases hjm : j = cfg.MAX_CODES - (q.length + 1)
    · rw [hjm, getD_set_self _ _ _ (by rw [hlen]; exact Nat.mod_lt _ (by omega))]
      rfl
    · have hother : (r.codeIndex + (cfg.MAX_CODES - (q.length + 1))) % cfg.MAX_CODES ≠
          (r.codeIndex + j) % cfg.MAX_CODES := by
        rw [mod_offset _ _ _ hidx hm, mod_offset _ _ _ hidx (by omega)]
        split_ifs <;> omega
      rw [getD_set_other _ _ _ _ hother]
      exact hem j (by omega)

theorem drain_holds (cfg : Config) : ∀ (q : List Code) (r : Receiver), Holds cfg r q →
    (Receiver.drain cfg (q.length + 1) r).2 = q.map some ++ [none] := by
  intro q
  induction q with
  | nil =>
    intro r h
    simp [Receiver.drain, holds_take_nil cfg r h]
  | cons c q ih =>
    intro r h
    obtain ⟨h1, h2⟩ := holds_take_cons cfg r c q h
    have := ih _ h2
    have e : Receiver.drain cfg (q.length + 1 + 1) r =
        ((Receiver.drain cfg (q.length + 1) (Receiver.printCode cfg r).1).1,
          (Receiver.printCode cfg r).2 ::
            (Receiver.drain cfg (q.length + 1) (Receiver.printCode cfg r).1).2) := rfl
    simp only [List.length_cons, e, h1, this, List.map_cons, List.cons_append]

theorem perform_fifo (cfg : Config) (ops : List RingOp) : ∀ (r : Receiver) (q : List Code),
    Holds cfg r q → withinCapacity cfg.MAX_CODES ops q.length →
    (Receiver.perform cfg ops r).2 = fifo ops q := by
  induction ops with
  | nil => intro r q _ _; rfl
  | cons op ops ih =>
    intro r q h hcap
    cases op with
    | push c =>
      obtain ⟨hc, hroom, hrest⟩ := hcap
      have h2 := holds_push cfg r q c h (by omega) hc
      simp only [Receiver.perform, fifo]
      exact ih _ _ h2 (by simpa using hrest)
    | take =>
      cases q with
      | nil =>
        simp only [Receiver.perform, fifo, holds_take_nil cfg r h, List.head?_nil, List.tail_nil]
        rw [ih r [] h hcap]
      | cons c q =>
        obtain ⟨h1, h2⟩ := holds_take_cons cfg r c q h
        simp only [Receiver.perform, fifo, h1, List.head?_cons, List.tail_cons]
        rw [ih _ q h2 (by simpa [withinCapacity] using hcap)]

theorem printLoop_frame (cfg : Config) (r : Receiver) (k : Nat) : ∀ n,
    (Receiver.printLoop cfg r n k).1.codeIndex = r.codeIndex ∧
    ((Receiver.printLoop cfg r n k).2 = none → (Receiver.printLoop cfg r n k).1 = r) ∧
    ∀ c, (Receiver.printLoop cfg r n k).2 = some c →
      ∃ j, n ≤ j ∧ j < n + k ∧ r.slot cfg j = c ∧
        (Receiver.printLoop cfg r n k).1.codes =
          r.codes.set ((r.codeIndex + j) % cfg.MAX_CODES) c.clear := by
  induction k with
  | zero => intro n; simp [Receiver.printLoop]
  | succ k ih =>
    intro n
    cases h0 : (r.codes.getD ((r.codeIndex + n) % cfg.MAX_CODES) default).empty
    · have e : Receiver.printLoop cfg r n (k + 1) =
          ({ r with codes := r.codes.set ((r.codeIndex + n) % cfg.MAX_CODES)
                      (r.codes.getD ((r.codeIndex + n) % cfg.MAX_CODES) default).clear },
            some (r.codes.getD ((r.codeIndex + n) % cfg.MAX_CODES) default)) := by
        simp only [Receiver.printLoop, h0, if_true]
      rw [e]
      refine ⟨rfl, by simp, ?_⟩
      intro c hc
      simp only [Option.some.injEq] at hc
      exact ⟨n, le_refl n, by omega, hc, by rw [← hc]⟩
    · have e : Receiver.printLoop cfg r n (k + 1) = Receiver.printLoop cfg r (n + 1) k := by
        simp only [Receiver.printLoop, h0]
        rfl
      rw [e]
      obtain ⟨i1, i2, i3⟩ := ih (n + 1)
      refine ⟨i1, i2, ?_⟩
      intro c hc
      obtain ⟨j, j1, j2, j3, j4⟩ := i3 c hc
      exact ⟨j, by omega, by omega, j3, j4⟩

/-- C5. Ring-buffer overflow: in any buffer state (array of `MAX_CODES` slots, cursor inside it),
after `MAX_CODES + 1` non-empty codes `c0..cN` are pushed with `addCode`, the next `MAX_CODES`
calls of `printCode` print `c1, ..., cN` in push order and one further call prints nothing. -/
theorem c5_ring_overflow (cfg : Config) (r : Receiver) (cs : List Code)
    (hlen : r.codes.length = cfg.MAX_CODES) (hidx : r.codeIndex < cfg.MAX_CODES)
    (hcs : cs.length = cfg.MAX_CODES + 1) (hne : ∀ c ∈ cs, c.empty = false) :
    (Receiver.drain cfg (cfg.MAX_CODES + 1) (cs.foldl (Receiver.addCode cfg) r)).2 =
      cs.tail.map some ++ [none] := by
  have h0 : Filled cfg r [] := ⟨hlen, hidx, Nat.zero_le _, by intro j h1 h2; simp at h1; omega⟩
  have h1 := filled_pushes cfg cs r [] h0
  have hk : keepLast cfg.MAX_CODES ([] ++ cs) = cs.tail := by
    simp only [keepLast, List.nil_append, hcs, Nat.add_sub_cancel_left]
    exact List.drop_one cs
  rw [hk] at h1
  have htl : cs.tail.length = cfg.MAX_CODES := by simp [hcs]
  have h2 : Holds cfg (cs.foldl (Receiver.addCode cfg) r) cs.tail :=
    ⟨h1, fun c hc => hne c (List.mem_of_mem_tail hc), by intro j hj; omega⟩
  have := drain_holds cfg cs.tail _ h2
  rwa [htl] at this

/-- C5 with four slots: pushing the codes `0`..`4` into the sample buffer and draining five times
prints `1`, `2`, `3`, `4` and then nothing. -/
theorem c5_ring_overflow_witness :
    (Receiver.drain sampleConfig (sampleConfig.MAX_CODES + 1)
      ([sampleCode '0', sampleCode '1', sampleCode '2', sampleCode '3', sampleCode '4'].foldl
        (Receiver.addCode sampleConfig) sampleRing)).2 =
      [some (sampleCode '1'), some (sampleCode '2'), some (sampleCode '3'),
        some (sampleCode '4'), none] :=
  c5_ring_overflow sampleConfig sampleRing
    [sampleCode '0', sampleCode '1', sampleCode '2', sampleCode '3', sampleCode '4']
    (by decide) (by decide) (by decide) (by decide)

/-- C6. FIFO ordering: from a buffer whose slots are all empty (array of `MAX_CODES` slots, cursor
anywhere inside it), for every interleaving of `addCode` calls with non-empty codes and
`printCode` calls in which the number of pending codes never exceeds `MAX_CODES`, each
`printCode` prints the earliest pushed code not yet printed, and nothing exactly when none is
pending; and in any state a `printCode` call leaves the cursor unchanged, changes nothing when it
prints nothing, and otherwise clears only the slot it prints. -/
theorem c6_fifo_ordering (cfg : Config) (r : Receiver) (ops : List RingOp)
    (hlen : r.codes.length = cfg.MAX_CODES) (hidx : r.codeIndex < cfg.MAX_CODES)
    (hempty : ∀ c ∈ r.codes, c.empty = true) (hcap : withinCapacity cfg.MAX_CODES ops 0) :
    (Receiver.perform cfg ops r).2 = fifo ops [] ∧
    ∀ r0 : Receiver,
      (Receiver.printCode cfg r0).1.codeIndex = r0.codeIndex ∧
      ((Receiver.printCode cfg r0).2 = none → (Receiver.printCode cfg r0).1 = r0) ∧
      ∀ c, (Receiver.printCode cfg r0).2 = some c →
        ∃ j, j < cfg.MAX_CODES ∧ r0.slot cfg j = c ∧
          (Receiver.printCode cfg r0).1.codes =
            r0.codes.set ((r0.codeIndex + j) % cfg.MAX_CODES) c.clear := by
  have h0 : Holds cfg r [] :=
    ⟨⟨hlen, hidx, Nat.zero_le _, by intro j h1 h2; simp at h1; omega⟩, by simp,
      fun j _ => slot_empty_of_all cfg r hempty j⟩
  refine ⟨perform_fifo cfg ops r [] h0 hcap, ?_⟩
  intro r0
  obtain ⟨f1, f2, f3⟩ := printLoop_frame cfg r0 cfg.MAX_CODES 0
  refine ⟨f1, f2, ?_⟩
  intro c hc
  obtain ⟨j, _, j2, j3, j4⟩ := f3 c hc
  exact ⟨j, by omega, j3, j4⟩

/-- C6 on the sample buffer: push `a`, push `b`, take, push `c`, take, take, take prints
`a`, `b`, `c` and then nothing. -/
theorem c6_fifo_ordering_witness :
    (Receiver.perform sampleConfig
      [RingOp.push (sampleCode 'a'), RingOp.push (sampleCode 'b'), RingOp.take,
        RingOp.push (sampleCode 'c'), RingOp.take, RingOp.take, RingOp.take] sampleRing).2 =
      [some (sampleCode 'a'), some (sampleCode 'b'), some (sampleCode 'c'), none] :=
  (c6_fifo_ordering sampleConfig sampleRing
    [RingOp.push (sampleCode 'a'), RingOp.push (sampleCode 'b'), RingOp.take,
      RingOp.push (sampleCode 'c'), RingOp.take, RingOp.take, RingOp.take]
    (by decide) (by decide) (by decide)
    (by simp [withinCapacity, sampleCode, Code.empty, sampleConfig])).1

/-! ### Pushed codes and the history of their candidate -/

theorem complete_snapshot (cfg : Config) (now : Nat) (p : Bool) (s : Statics) (b : Branch)
    (hs : s.sync = true) (hw : WellFormed cfg s) (c : Code)
    (hc : c ∈ (complete cfg now p s b).pushed) : Snapshot cfg s c := by
  have hmin := (complete_pushed cfg now p s b hw c hc).1
  rw [complete_long cfg now p s b hw hmin, List.mem_singleton] at hc
  subst hc
  exact ⟨hs, hmin, rfl, rfl, rfl, rfl, rfl, rfl, rfl, rfl⟩

theorem pass_snapshot (cfg : Config) (now d : Nat) (s : Statics) (hw : WellFormed cfg s)
    (c : Code) (hc : c ∈ (pass cfg now d s).pushed) : Snapshot cfg s c := by
  unfold pass at hc
  split_ifs at hc with h1 h2 h3 h4 h5 h6
  · simp at hc
  · simp at hc
  · have := complete_snapshot cfg now true { s with postSyncPeriod := d / cfg.SYNC_CYCLES } _
      (by simpa using h1) ⟨hw.size, hw.bound, hw.digits, hw.bitLo, hw.bitHi, hw.small⟩ c hc
    exact ⟨this.synced, this.enough, this.digits, this.trailingBits, this.trailingValue,
      this.standalone, this.prePeriod, this.avgZero, this.avgOne, this.avgAll⟩
  · exact complete_snapshot cfg now false s _ (by simpa using h1) hw c hc
  · simp at hc
  · simp at hc
  · exact complete_snapshot cfg now false s _ (by simpa using h1) hw c hc

theorem handler_snapshot (cfg : Config) (now : Nat) (s : Statics) (hw : WellFormed cfg s)
    (c : Code) (hc : c ∈ (Receiver.interruptHandler cfg now s).pushed) : Snapshot cfg s c := by
  rw [handler_pushed_eq] at hc
  exact pass_snapshot cfg now _ s hw c hc

theorem getD_snoc (l : List Nat) (b i : Nat) :
    (l ++ [b]).getD i 0 = if i < l.length then l.getD i 0 else if i = l.length then b else 0 := by
  simp only [List.getD_eq_getElem?_getD]
  split_ifs with h1 h2
  · rw [List.getElem?_append_left h1]
  · rw [List.getElem?_append_right (by omega), h2]
    simp
  · rw [List.getElem?_eq_none (by simp; omega)]
    rfl

theorem getD_beyond (l : List Nat) (i : Nat) (h : l.length ≤ i) : l.getD i 0 = 0 := by
  rw [List.getD_eq_getElem?_getD, List.getElem?_eq_none h]
  rfl

theorem getD_binary (l : List Nat) (h : ∀ b ∈ l, b ≤ 1) (i : Nat) : l.getD i 0 ≤ 1 := by
  rw [List.getD_eq_getElem?_getD]
  cases hi : l[i]? with
  | none => simp
  | some x => exact h x (List.getElem?_mem hi)

theorem groupValue_snoc_below (l : List Nat) (b j : Nat) (h : 4 * j + 3 < l.length) :
    groupValue (l ++ [b]) j = groupValue l j := by
  unfold groupValue
  rw [getD_snoc, getD_snoc, getD_snoc, getD_snoc, if_pos (by omega), if_pos (by omega),
    if_pos (by omega), if_pos (by omega)]

theorem groupValue_beyond (l : List Nat) (j : Nat) (h : l.length ≤ 4 * j) : groupValue l j = 0 := by
  unfold groupValue
  rw [getD_beyond l _ (by omega), getD_beyond l _ (by omega), getD_beyond l _ (by omega),
    getD_beyond l _ (by omega)]

theorem groupValue_lt (l : List Nat) (h : ∀ b ∈ l, b ≤ 1) (j : Nat) : groupValue l j < 16 := by
  unfold groupValue
  have h0 := getD_binary l h (4 * j)
  have h1 := getD_binary l h (4 * j + 1)
  have h2 := getD_binary l h (4 * j + 2)
  have h3 := getD_binary l h (4 * j + 3)
  omega

/-- Adding the bit `b` at the position given by `currentBit` to the pending value yields the
value of the pending group with `b` appended. -/
theorem groupValue_or_shift (l : List Nat) (h : ∀ x ∈ l, x ≤ 1) (b : Nat) (hb : b ≤ 1) :
    groupValue l (l.length / 4) ||| (b <<< (3 - ((l.length % 4 : Nat) : Int)).toNat) =
      groupValue (l ++ [b]) (l.length / 4) := by
  have h0 := getD_binary l h (4 * (l.length / 4))
  have h1 := getD_binary l h (4 * (l.length / 4) + 1)
  have h2 := getD_binary l h (4 * (l.length / 4) + 2)
  unfold groupValue
  rw [getD_snoc, getD_snoc, getD_snoc, getD_snoc]
  have hr : l.length % 4 < 4 := Nat.mod_lt _ (by norm_num)
  have hdiv := Nat.div_add_mod l.length 4
  generalize hx0 : l.getD (4 * (l.length / 4)) 0 = x0 at h0
  generalize hx1 : l.getD (4 * (l.length / 4) + 1) 0 = x1 at h1
  generalize hx2 : l.getD (4 * (l.length / 4) + 2) 0 = x2 at h2
  have hx3 : l.getD (4 * (l.length / 4) + 3) 0 = 0 := getD_beyond l _ (by omega)
  rw [hx3]
  rcases (by omega : l.length % 4 = 0 ∨ l.length % 4 = 1 ∨ l.length % 4 = 2 ∨ l.length % 4 = 3)
    with hm | hm | hm | hm
  · have e0 : x0 = 0 := by rw [← hx0]; exact getD_beyond l _ (by omega)
    have e1 : x1 = 0 := by rw [← hx1]; exact getD_beyond l _ (by omega)
    have e2 : x2 = 0 := by rw [← hx2]; exact getD_beyond l _ (by omega)
    rw [hm, if_neg (by omega), if_pos (by omega), if_neg (by omega), if_neg (by omega),
      if_neg (by omega), if_neg (by omega), if_neg (by omega), if_neg (by omega), e0, e1, e2]
    interval_cases b <;> decide
  · have e1 : x1 = 0 := by rw [← hx1]; exact getD_beyond l _ (by omega)
    have e2 : x2 = 0 := by rw [← hx2]; exact getD_beyond l _ (by omega)
    rw [hm, if_pos (by omega), if_neg (by omega), if_pos (by omega), if_neg (by omega),
      if_neg (by omega), if_neg (by omega), if_neg (by omega), e1, e2]
    interval_cases b <;> interval_cases x0 <;> decide
  · have e2 : x2 = 0 := by rw [← hx2]; exact getD_beyond l _ (by omega)
    rw [hm, if_pos (by omega), if_pos (by omega), if_neg (by omega), if_pos (by omega),
      if_neg (by omega), if_neg (by omega), e2]
    interval_cases b <;> interval_cases x0 <;> interval_cases x1 <;> decide
  · rw [hm, if_pos (by omega), if_pos (by omega), if_pos (by omega), if_neg (by omega),
      if_pos (by omega)]
    interval_cases b <;> interval_cases x0 <;> interval_cases x1 <;> interval_cases x2 <;> decide

theorem pass_tooLong (cfg : Config) (now d : Nat) (s : Statics) (hs : s.sync = true)
    (h1 : ¬ inSyncWindow s d) (h2 : s.codeLength = cfg.MAX_LENGTH) :
    pass cfg now d s = complete cfg now false s .tooLong := by
  unfold inSyncWindow at h1
  unfold pass
  rw [if_neg (by simp [hs]), if_neg h1, if_pos h2]

theorem pass_invalid (cfg : Config) (now d : Nat) (s : Statics) (hs : s.sync = true)
    (h1 : ¬ inSyncWindow s d) (h2 : s.codeLength ≠ cfg.MAX_LENGTH) (h3 : ¬ inZeroWindow s d)
    (h4 : ¬ inOneWindow s d) :
    pass cfg now d s = complete cfg now false s .invalid := by
  unfold inSyncWindow at h1
  unfold inZeroWindow at h3
  unfold inOneWindow at h4
  unfold pass
  rw [if_neg (by simp [hs]), if_neg h1, if_neg h2, if_neg h3, if_neg h4]

theorem wrap32_add_left (a d : Nat) : wrap32 (wrap32 a + d) = wrap32 (a + d) := by
  unfold wrap32
  exact Nat.mod_add_mod a 4294967296 d

theorem tracks_fresh (s : Statics) (g : Candidate) (h1 : s.codeLength = 0)
    (h2 : s.currentBit = 3) (h3 : s.value = 0) (h4 : s.zeroBitPeriod = 0)
    (h5 : s.oneBitPeriod = 0) (h6 : s.allBitPeriod = 0) (h7 : s.zeroBitCount = 0)
    (h8 : s.oneBitCount = 0) (h9 : s.allBitCount = 0) (g1 : g.bits = []) (g2 : g.zeros = [])
    (g3 : g.ones = []) : Tracks s g where
  binary := by simp [g1]
  length := by simp [g1, h1]
  position := by simp [g1, h2]
  stored := by intro j hj; simp [g1] at hj
  pending := by rw [h3, g1]; rfl
  zeroSum := by rw [h4, g2]; rfl
  zeroCount := by simp [g2, h7]
  oneSum := by rw [h5, g3]; rfl
  oneCount := by simp [g3, h8]
  allSum := by rw [h6, g2, g3]; rfl
  allCount := by simp [g2, g3, h9]

/-- Effect of `addBit` on a state that agrees with the history `g`: it agrees with the history
extended by the bit. -/
theorem tracks_addBit (cfg : Config) (s : Statics) (g : Candidate) (b : Nat) (hb : b ≤ 1)
    (hw : WellFormed cfg s) (ht : Tracks s g) :
    (addBit s.code s.codeLength s.currentBit s.value b).codeLength = (g.bits ++ [b]).length / 4 ∧
    (addBit s.code s.codeLength s.currentBit s.value b).currentBit =
      3 - (((g.bits ++ [b]).length % 4 : Nat) : Int) ∧
    (∀ j, j < (g.bits ++ [b]).length / 4 →
      (addBit s.code s.codeLength s.currentBit s.value b).code[j]? =
        some (digitChar (groupValue (g.bits ++ [b]) j))) ∧
    (addBit s.code s.codeLength s.currentBit s.value b).value =
      groupValue (g.bits ++ [b]) ((g.bits ++ [b]).length / 4) := by
  have hv := groupValue_or_shift g.bits ht.binary b hb
  rw [← ht.pending, ← ht.position] at hv
  have hlen := ht.length
  have hpos := ht.position
  have hsize := hw.size
  have hbound := hw.bound
  simp only [List.length_append, List.length_singleton]
  unfold addBit
  by_cases hc : s.currentBit = 0
  · simp only [hc, if_true]
    have hm : g.bits.length % 4 = 3 := by omega
    have hq : (g.bits.length + 1) / 4 = g.bits.length / 4 + 1 := by omega
    refine ⟨by omega, by omega, ?_, ?_⟩
    · intro j hj
      rw [List.getElem?_set]
      by_cases hj2 : s.codeLength = j
      · rw [if_pos hj2, if_pos (by omega)]
        rw [hc] at hv
        rw [hv, ← hj2, hlen]
      · rw [if_neg hj2, ht.stored j (by omega), groupValue_snoc_below _ _ _ (by omega)]
    · rw [hq, groupValue_beyond _ _ (by simp; omega)]
  · simp only [hc, if_false]
    have hm : g.bits.length % 4 < 3 := by omega
    have hq : (g.bits.length + 1) / 4 = g.bits.length / 4 := by omega
    refine ⟨by omega, by omega, ?_, ?_⟩
    · intro j hj
      rw [ht.stored j (by omega), groupValue_snoc_below _ _ _ (by omega)]
    · rw [hq, hv]

theorem retry_tracks (cfg : Config) (now : Nat) (s : Statics) (g : Candidate)
    (hr : (pass cfg now (sub32 now s.last) s).branch.retries = true)
    (hsync : (Receiver.interruptHandler cfg now s).st.sync = true) :
    Tracks (Receiver.interruptHandler cfg now s).st
      (g.record (sub32 now s.last) (Receiver.interruptHandler cfg now s).trace) := by
  have hs1 := (pass_retries cfg now _ s hr).2
  rw [interruptHandler_unfold, if_pos hr] at hsync ⊢
  generalize (pass cfg now (sub32 now s.last) s).st = s1 at hs1 hsync ⊢
  generalize (pass cfg now (sub32 now s.last) s).branch = b1 at hr ⊢
  unfold pass at hsync ⊢
  rw [if_pos hs1] at hsync ⊢
  by_cases hd : cfg.SYNC_CYCLES * cfg.MIN_PERIOD_US ≤ sub32 now s.last
  · rw [if_pos hd]
    exact tracks_fresh _ _ rfl rfl rfl rfl rfl rfl rfl rfl rfl rfl rfl rfl
  · rw [if_neg hd] at hsync
    simp [hs1] at hsync

/-- The agreement between statics and history is kept by every handler call. -/
theorem handler_tracks (cfg : Config) (now : Nat) (s : Statics) (g : Candidate)
    (hw : WellFormed cfg s) (ht : s.sync = true → Tracks s g)
    (hsync : (Receiver.interruptHandler cfg now s).st.sync = true) :
    Tracks (Receiver.interruptHandler cfg now s).st
      (g.record (sub32 now s.last) (Receiver.interruptHandler cfg now s).trace) := by
  by_cases hs : s.sync = true
  · have t := ht hs
    by_cases h1 : inSyncWindow s (sub32 now s.last)
    · exact retry_tracks cfg now s g
        (by rw [pass_syncEnd cfg now _ s hs h1, complete_branch]; rfl) hsync
    by_cases h2 : s.codeLength = cfg.MAX_LENGTH
    · exact retry_tracks cfg now s g
        (by rw [pass_tooLong cfg now _ s hs h1 h2, complete_branch]; rfl) hsync
    by_cases h3 : inZeroWindow s (sub32 now s.last)
    · obtain ⟨a1, a2, a3, a4⟩ := tracks_addBit cfg s g 0 (by norm_num) hw t
      rw [interruptHandler_unfold, pass_zeroBit cfg now _ s hs h1 h2 h3,
        if_neg (by simp [Branch.retries])]
      dsimp only [Candidate.record, Candidate.step]
      exact {
        binary := by
          intro b hb
          simp only [List.mem_append, List.mem_singleton] at hb
          rcases hb with hb | hb
          · exact t.binary b hb
          · omega
        length := a1
        position := a2
        stored := a3
        pending := a4
        zeroSum := by
          simp only [List.sum_append, List.sum_singleton]
          rw [t.zeroSum, wrap32_add_left]
        zeroCount := by simp [t.zeroCount]
        oneSum := t.oneSum
        oneCount := t.oneCount
        allSum := by
          simp only [List.sum_append, List.sum_singleton]
          rw [t.allSum, wrap32_add_left]
          congr 1
          omega
        allCount := by simp [t.allCount]; omega }
    by_cases h4 : inOneWindow s (sub32 now s.last)
    · obtain ⟨a1, a2, a3, a4⟩ := tracks_addBit cfg s g 1 (by norm_num) hw t
      rw [interruptHandler_unfold, pass_oneBit cfg now _ s hs h1 h2 h3 h4,
        if_neg (by simp [Branch.retries])]
      dsimp only [Candidate.record, Candidate.step]
      exact {
        binary := by
          intro b hb
          simp only [List.mem_append, List.mem_singleton] at hb
          rcases hb with hb | hb
          · exact t.binary b hb
          · omega
        length := a1
        position := a2
        stored := a3
        pending := a4
        zeroSum := t.zeroSum
        zeroCount := t.zeroCount
        oneSum := by
          simp only [List.map_append, List.map_singleton, List.sum_append, List.sum_singleton]
          rw [t.oneSum, wrap32_add_left]
        oneCount := by simp [t.oneCount]
        allSum := by
          simp only [List.map_append, List.map_singleton, List.sum_append, List.sum_singleton]
          rw [t.allSum, wrap32_add_left]
          congr 1
          omega
        allCount := by simp [t.allCount]; omega }
    · exact retry_tracks cfg now s g
        (by rw [pass_invalid cfg now _ s hs h1 h2 h3 h4, complete_branch]; rfl) hsync
  · have hs0 : s.sync = false := by simpa using hs
    by_cases hd : cfg.SYNC_CYCLES * cfg.MIN_PERIOD_US ≤ sub32 now s.last
    · rw [handler_acquire cfg now s hs0 hd]
      exact tracks_fresh _ _ rfl rfl rfl rfl rfl rfl rfl rfl rfl rfl rfl rfl
    · rw [handler_idle cfg now s hs0 (by omega)] at hsync
      simp [hs0] at hsync

/-- Every logged `addCode` call was made from well-formed statics that agree with the logged
history, and its code is the snapshot of these statics. -/
theorem runLog_snapshot (cfg : Config) (events : List Nat) : ∀ (s : Statics) (g : Candidate),
    WellFormed cfg s → (s.sync = true → Tracks s g) →
    ∀ e ∈ (runLog cfg events s g).2.2,
      ∃ s0, WellFormed cfg s0 ∧ Tracks s0 e.cand ∧ Snapshot cfg s0 e.code := by
  induction events with
  | nil => intro s g _ _ e he; simp [runLog] at he
  | cons now rest ih =>
    intro s g hw ht e he
    simp only [runLog, List.mem_append, List.mem_map] at he
    rcases he with ⟨c, hc, rfl⟩ | he
    · have hsnap := handler_snapshot cfg now s hw c hc
      exact ⟨s, hw, ht hsnap.synced, hsnap⟩
    · exact ih _ _ (handler_wellFormed cfg now s hw) (handler_tracks cfg now s g hw ht) e he

theorem runLog_codes (cfg : Config) (events : List Nat) : ∀ (s : Statics) (g : Candidate),
    (runLog cfg events s g).1 = (run cfg events s).1 ∧
    (runLog cfg events s g).2.2.map Logged.code = (run cfg events s).2 := by
  induction events with
  | nil => intro s g; simp [runLog, run]
  | cons now rest ih =>
    intro s g
    obtain ⟨i1, i2⟩ := ih (Receiver.interruptHandler cfg now s).st
      (g.record (sub32 now s.last) (Receiver.interruptHandler cfg now s).trace)
    simp only [runLog, run, List.map_append, List.map_map, i1, i2]
    simp [Function.comp_def]

theorem digitChar_mem_hexDigits (v : Nat) (h : v < 16) : hexDigits[v]? = some (digitChar v) := by
  interval_cases v <;> decide

/-- C8. Bit packing: for every code passed to `addCode` in any run from start-up, with `bits` the
bits added since its sync acquisition (each 0 or 1): the digit string has `bits.length / 4`
characters, its `j`-th character is the digit character of the value of the `j`-th group of four
bits taken most significant bit first, every character is one of `0`-`9`, `A`-`F`,
`trailingBitCount` is `bits.length % 4`, and `trailingValue` is the value of the incomplete last
group with the missing low bits zero. The log covers every `addCode` call; `digitChar` maps
`0..15` to `0`-`9`, `A`-`F`; and the bits 1,0,1,1 give the digit `B`. -/
theorem c8_bit_packing (cfg : Config) (events : List Nat) :
    (∀ e ∈ (runLog cfg events (Statics.init cfg) Candidate.start).2.2,
      (∀ b ∈ e.cand.bits, b = 0 ∨ b = 1) ∧
      e.code.digits.length = e.cand.bits.length / 4 ∧
      (∀ j, j < e.cand.bits.length / 4 →
        e.code.digits[j]? = some (digitChar (groupValue e.cand.bits j))) ∧
      (∀ ch ∈ e.code.digits, ch ∈ hexDigits) ∧
      e.code.trailingBitCount = ((e.cand.bits.length % 4 : Nat) : Int) ∧
      e.code.trailingValue = groupValue e.cand.bits (e.cand.bits.length / 4)) ∧
    (runLog cfg events (Statics.init cfg) Candidate.start).2.2.map Logged.code =
      (run cfg events (Statics.init cfg)).2 ∧
    (∀ v, v < 16 → hexDigits[v]? = some (digitChar v)) ∧
    groupValue [1, 0, 1, 1] 0 = 11 ∧ digitChar 11 = 'B' ∧
    (addBits [1, 0, 1, 1]
      { code := List.replicate 7 NUL, codeLength := 0, currentBit := 3, value := 0 }).code.take 1
        = ['B'] := by
  refine ⟨?_, (runLog_codes cfg events _ _).2, digitChar_mem_hexDigits, by decide, by decide,
    by decide⟩
  intro e he
  obtain ⟨s0, hw, ht, hsnap⟩ := runLog_snapshot cfg events (Statics.init cfg) Candidate.start
    (init_wellFormed cfg) (by intro h; simp [Statics.init] at h) e he
  have hsize := hw.size
  have hbound := hw.bound
  have hlen := ht.length
  have hdl : e.code.digits.length = e.cand.bits.length / 4 := by
    rw [hsnap.digits, List.length_take]
    omega
  have hdj : ∀ j, j < e.cand.bits.length / 4 →
      e.code.digits[j]? = some (digitChar (groupValue e.cand.bits j)) := by
    intro j hj
    rw [hsnap.digits, List.getElem?_take_of_lt (by omega)]
    exact ht.stored j hj
  refine ⟨?_, hdl, hdj, ?_, ?_, ?_⟩
  · intro b hb
    have := ht.binary b hb
    omega
  · intro ch hch
    obtain ⟨j, hj⟩ := List.mem_iff_getElem?.mp hch
    have hjlt : j < e.code.digits.length := by
      by_contra hcon
      rw [List.getElem?_eq_none (by omega)] at hj
      simp at hj
    rw [hdj j (by omega)] at hj
    have hv := groupValue_lt e.cand.bits ht.binary j
    have := digitChar_mem_hexDigits _ hv
    rw [hj] at this
    exact List.getElem?_mem this
  · rw [hsnap.trailingBits, ht.position]
    omega
  · rw [hsnap.trailingValue, ht.pending]

/-- C8 on the sample run with bits 1,0,1,1,0,0,0,0: the pushed code has the digits `B`, `0`. -/
theorem c8_bit_packing_witness :
    packingLogged ∈ (runLog sampleConfig packingEvents (Statics.init sampleConfig)
      Candidate.start).2.2 ∧
    packingLogged.code.digits.length = packingLogged.cand.bits.length / 4 ∧
    packingLogged.code.digits[0]? = some (digitChar (groupValue packingLogged.cand.bits 0)) :=
  have hmem : packingLogged ∈ (runLog sampleConfig packingEvents (Statics.init sampleConfig)
      Candidate.start).2.2 := by
    simp only [packingEvents, runLog, interruptHandler_unfold]
    decide
  ⟨hmem, ((c8_bit_packing sampleConfig packingEvents).1 packingLogged hmem).2.1,
    ((c8_bit_packing sampleConfig packingEvents).1 packingLogged hmem).2.2.1 0 (by decide)⟩

/-- C9 as stated fails: in the run `overflowEvents` the only pushed code has
`avgZeroPeriod = 6927366`, whereas the sum of the twenty accepted zero-bit durations divided by
their number is 221675731 (the 32-bit accumulator wrapped). -/
theorem c9_averages_counterexample :
    (runLog sampleConfig overflowEvents (Statics.init sampleConfig) Candidate.start).2.2.map
      (fun e => (e.code.avgZeroPeriodMicros, e.cand.zeros.sum / e.cand.zeros.length,
        e.cand.zeros.length)) = [(6927366, 221675731, 20)] := by
  simp only [overflowEvents, runLog, interruptHandler_unfold]
  decide

/-- C9, amended. Averages: for every code passed to `addCode` in any run from start-up, with
`zeros` and `ones` the durations of the pulses accepted as Zero and as One since its sync
acquisition, each average is the 32-bit sum (the sum modulo `2 ^ 32`) divided by the count with
truncating division: `avgZeroPeriod = (sum zeros mod 2^32) / |zeros|`,
`avgOnePeriod = (sum of d/3 over ones mod 2^32) / |ones|`,
`avgAllPeriod = ((sum zeros + sum of d/3 over ones) mod 2^32) / (|zeros| + |ones|)`; each average
is 0 when its count is 0; and when the total sum is below `2 ^ 32` the averages are the exact
quotients. -/
theorem c9_averages (cfg : Config) (events : List Nat) :
    ∀ e ∈ (runLog cfg events (Statics.init cfg) Candidate.start).2.2,
      e.code.avgZeroPeriodMicros = wrap32 e.cand.zeros.sum / e.cand.zeros.length ∧
      e.code.avgOnePeriodMicros =
        wrap32 (e.cand.ones.map (fun d => d / 3)).sum / e.cand.ones.length ∧
      e.code.avgAllPeriodMicros =
        wrap32 (e.cand.zeros.sum + (e.cand.ones.map (fun d => d / 3)).sum) /
          (e.cand.zeros.length + e.cand.ones.length) ∧
      (e.cand.zeros.length = 0 → e.code.avgZeroPeriodMicros = 0) ∧
      (e.cand.ones.length = 0 → e.code.avgOnePeriodMicros = 0) ∧
      (e.cand.zeros.length + e.cand.ones.length = 0 → e.code.avgAllPeriodMicros = 0) ∧
      (e.cand.zeros.sum + (e.cand.ones.map (fun d => d / 3)).sum < 4294967296 →
        e.code.avgZeroPeriodMicros = e.cand.zeros.sum / e.cand.zeros.length ∧
        e.code.avgOnePeriodMicros =
          (e.cand.ones.map (fun d => d / 3)).sum / e.cand.ones.length ∧
        e.code.avgAllPeriodMicros =
          (e.cand.zeros.sum + (e.cand.ones.map (fun d => d / 3)).sum) /
            (e.cand.zeros.length + e.cand.ones.length)) := by
  intro e he
  obtain ⟨s0, hw, ht, hsnap⟩ := runLog_snapshot cfg events (Statics.init cfg) Candidate.start
    (init_wellFormed cfg) (by intro h; simp [Statics.init] at h) e he
  have hz : e.code.avgZeroPeriodMicros = wrap32 e.cand.zeros.sum / e.cand.zeros.length := by
    rw [hsnap.avgZero, ht.zeroSum, ht.zeroCount]
    split_ifs with h
    · rfl
    · have h0 : e.cand.zeros.length = 0 := by omega
      have h1 : e.cand.zeros = [] := List.length_eq_zero.mp h0
      rw [h1]
      rfl
  have ho : e.code.avgOnePeriodMicros =
      wrap32 (e.cand.ones.map (fun d => d / 3)).sum / e.cand.ones.length := by
    rw [hsnap.avgOne, ht.oneSum, ht.oneCount]
    split_ifs with h
    · rfl
    · have h0 : e.cand.ones.length = 0 := by omega
      have h1 : e.cand.ones = [] := List.length_eq_zero.mp h0
      rw [h1]
      rfl
  have ha : e.code.avgAllPeriodMicros =
      wrap32 (e.cand.zeros.sum + (e.cand.ones.map (fun d => d / 3)).sum) /
        (e.cand.zeros.length + e.cand.ones.length) := by
    rw [hsnap.avgAll, ht.allSum, ht.allCount]
    split_ifs with h
    · rfl
    · have h0 : e.cand.zeros.length = 0 := by omega
      have h0' : e.cand.ones.length = 0 := by omega
      have h1 : e.cand.zeros = [] := List.length_eq_zero.mp h0
      have h2 : e.cand.ones = [] := List.length_eq_zero.mp h0'
      rw [h1, h2]
      rfl
  refine ⟨hz, ho, ha, ?_, ?_, ?_, ?_⟩
  · intro h; rw [hz, h]; exact Nat.div_zero _
  · intro h; rw [ho, h]; exact Nat.div_zero _
  · intro h; rw [ha, h]; exact Nat.div_zero _
  · intro h
    have w1 : wrap32 e.cand.zeros.sum = e.cand.zeros.sum :=
      Nat.mod_eq_of_lt (by omega)
    have w2 : wrap32 (e.cand.ones.map (fun d => d / 3)).sum =
        (e.cand.ones.map (fun d => d / 3)).sum := Nat.mod_eq_of_lt (by omega)
    have w3 : wrap32 (e.cand.zeros.sum + (e.cand.ones.map (fun d => d / 3)).sum) =
        e.cand.zeros.sum + (e.cand.ones.map (fun d => d / 3)).sum := Nat.mod_eq_of_lt h
    rw [w1] at hz
    rw [w2] at ho
    rw [w3] at ha
    exact ⟨hz, ho, ha⟩

/-- C9 on the sample run with one-bit pulses of 300 µs and 330 µs: `avgOnePeriod` is
`(300 / 3 + 330 / 3) / 2 = 105`. -/
theorem c9_averages_witness :
    averageLogged ∈ (runLog sampleConfig averageEvents (Statics.init sampleConfig)
      Candidate.start).2.2 ∧
    averageLogged.cand.ones = [300, 330] ∧
    averageLogged.code.avgOnePeriodMicros = (300 / 3 + 330 / 3) / 2 ∧
    averageLogged.code.avgOnePeriodMicros = 105 :=
  have hmem : averageLogged ∈ (runLog sampleConfig averageEvents (Statics.init sampleConfig)
      Candidate.start).2.2 := by
    simp only [averageEvents, runLog, interruptHandler_unfold]
    decide
  ⟨hmem, rfl,
    ((c9_averages sampleConfig averageEvents averageLogged hmem).2.2.2.2.2.2 (by decide)).2.1,
    rfl⟩

/-! ### Classification of bit pulses -/

/-- The sample state with unit period 101 is the one the handler reaches from start-up on an edge
at 3131 µs. -/
theorem oddSample_reached :
    (Receiver.interruptHandler sampleConfig 3131 (Statics.init sampleConfig)).st = oddSample := by
  rw [handler_acquire sampleConfig 3131 _ rfl (by decide)]
  decide

theorem handler_trace_zeroBit (cfg : Config) (now : Nat) (s : Statics) (hs : s.sync = true)
    (h1 : ¬ inSyncWindow s (sub32 now s.last)) (h2 : s.codeLength ≠ cfg.MAX_LENGTH)
    (h3 : inZeroWindow s (sub32 now s.last)) :
    (Receiver.interruptHandler cfg now s).trace = [.zeroBit] := by
  rw [interruptHandler_unfold, pass_zeroBit cfg now _ s hs h1 h2 h3,
    if_neg (by simp [Branch.retries])]

theorem handler_trace_oneBit (cfg : Config) (now : Nat) (s : Statics) (hs : s.sync = true)
    (h1 : ¬ inSyncWindow s (sub32 now s.last)) (h2 : s.codeLength ≠ cfg.MAX_LENGTH)
    (h3 : ¬ inZeroWindow s (sub32 now s.last)) (h4 : inOneWindow s (sub32 now s.last)) :
    (Receiver.interruptHandler cfg now s).trace = [.oneBit] := by
  rw [interruptHandler_unfold, pass_oneBit cfg now _ s hs h1 h2 h3 h4,
    if_neg (by simp [Branch.retries])]

theorem handler_trace_invalid (cfg : Config) (now : Nat) (s : Statics) (hs : s.sync = true)
    (h1 : ¬ inSyncWindow s (sub32 now s.last)) (h2 : s.codeLength ≠ cfg.MAX_LENGTH)
    (h3 : ¬ inZeroWindow s (sub32 now s.last)) (h4 : ¬ inOneWindow s (sub32 now s.last)) :
    ∃ b, (Receiver.interruptHandler cfg now s).trace = [.invalid, b] := by
  rw [interruptHandler_unfold, pass_invalid cfg now _ s hs h1 h2 h3 h4, complete_branch,
    if_pos (by simp [Branch.retries])]
  exact ⟨_, rfl⟩

/-- C10 as stated fails: in the sample state with unit period `p = 101` (zero window stored as
40..161) a pulse of `d = 40` µs, outside the sync window, is accepted as a zero-bit although
`10 * d = 400 < 404 = 4 * p`. -/
theorem c10_windows_counterexample :
    oddSample.sync = true ∧ Calibrated sampleConfig 101 oddSample ∧
    oddSample.codeLength ≠ sampleConfig.MAX_LENGTH ∧
    sub32 3171 oddSample.last = 40 ∧ ¬ inSyncWindow oddSample 40 ∧
    (Receiver.interruptHandler sampleConfig 3171 oddSample).trace = [.zeroBit] ∧
    ¬ (4 * 101 ≤ 10 * 40) := by
  refine ⟨rfl, by decide, by decide, by decide, by decide, ?_, by decide⟩
  rw [interruptHandler_unfold]
  decide

/-- C10, amended. Zero/One windows: in a synced state calibrated with unit period `p` (with
`37 * p < 2 ^ 32`, so that the 32-bit threshold products do not wrap) whose digit buffer is not
full, a pulse of duration `d` outside the sync window is accepted as a zero-bit if and only if
`⌊4p/10⌋ ≤ d` and `10 d ≤ 16 p`; otherwise as a one-bit if and only if `⌊23p/10⌋ ≤ d` and
`10 d ≤ 37 p`; and otherwise it takes the invalid-duration branch. The lower bounds are the
thresholds rounded down: `⌊4p/10⌋ ≤ d` is `4 p < 10 (d + 1)`, and `⌊23p/10⌋ ≤ d` is
`23 p < 10 (d + 1)`. -/
theorem c10_windows (cfg : Config) (p : Nat) (s : Statics) (now : Nat) (hs : s.sync = true)
    (hcal : Calibrated cfg p s) (hp : p * 37 < 4294967296)
    (hfull : s.codeLength ≠ cfg.MAX_LENGTH) (hout : ¬ inSyncWindow s (sub32 now s.last)) :
    ((Receiver.interruptHandler cfg now s).trace = [.zeroBit] ↔
      (p * 4 / 10 ≤ sub32 now s.last ∧ 10 * sub32 now s.last ≤ 16 * p)) ∧
    ((Receiver.interruptHandler cfg now s).trace = [.oneBit] ↔
      (¬ (p * 4 / 10 ≤ sub32 now s.last ∧ 10 * sub32 now s.last ≤ 16 * p) ∧
        p * 23 / 10 ≤ sub32 now s.last ∧ 10 * sub32 now s.last ≤ 37 * p)) ∧
    ((Receiver.interruptHandler cfg now s).trace.head? = some .invalid ↔
      (¬ (p * 4 / 10 ≤ sub32 now s.last ∧ 10 * sub32 now s.last ≤ 16 * p) ∧
        ¬ (p * 23 / 10 ≤ sub32 now s.last ∧ 10 * sub32 now s.last ≤ 37 * p))) ∧
    (p * 4 / 10 ≤ sub32 now s.last ↔ 4 * p < 10 * (sub32 now s.last + 1)) ∧
    (p * 23 / 10 ≤ sub32 now s.last ↔ 23 * p < 10 * (sub32 now s.last + 1)) := by
  obtain ⟨_, c1, c2, c3, c4, _, _⟩ := hcal
  have w4 : wrap32 (p * 4) = p * 4 := Nat.mod_eq_of_lt (by omega)
  have w16 : wrap32 (p * 16) = p * 16 := Nat.mod_eq_of_lt (by omega)
  have w23 : wrap32 (p * 23) = p * 23 := Nat.mod_eq_of_lt (by omega)
  have w37 : wrap32 (p * 37) = p * 37 := Nat.mod_eq_of_lt (by omega)
  rw [w4] at c1
  rw [w16] at c2
  rw [w23] at c3
  rw [w37] at c4
  have hzero : inZeroWindow s (sub32 now s.last) ↔
      (p * 4 / 10 ≤ sub32 now s.last ∧ 10 * sub32 now s.last ≤ 16 * p) := by
    unfold inZeroWindow
    rw [c1, c2]
    constructor <;> intro h <;> constructor <;> omega
  have hone : inOneWindow s (sub32 now s.last) ↔
      (p * 23 / 10 ≤ sub32 now s.last ∧ 10 * sub32 now s.last ≤ 37 * p) := by
    unfold inOneWindow
    rw [c3, c4]
    constructor <;> intro h <;> constructor <;> omega
  rw [← hzero, ← hone]
  refine ⟨?_, ?_, ?_, by omega, by omega⟩
  · by_cases hz : inZeroWindow s (sub32 now s.last)
    · simp [hz, handler_trace_zeroBit cfg now s hs hout hfull hz]
    · by_cases ho : inOneWindow s (sub32 now s.last)
      · simp [hz, handler_trace_oneBit cfg now s hs hout hfull hz ho]
      · obtain ⟨b, hb⟩ := handler_trace_invalid cfg now s hs hout hfull hz ho
        simp [hz, hb]
  · by_cases hz : inZeroWindow s (sub32 now s.last)
    · simp [hz, handler_trace_zeroBit cfg now s hs hout hfull hz]
    · by_cases ho : inOneWindow s (sub32 now s.last)
      · simp [hz, ho, handler_trace_oneBit cfg now s hs hout hfull hz ho]
      · obtain ⟨b, hb⟩ := handler_trace_invalid cfg now s hs hout hfull hz ho
        simp [hz, ho, hb]
  · by_cases hz : inZeroWindow s (sub32 now s.last)
    · simp [hz, handler_trace_zeroBit cfg now s hs hout hfull hz]
    · by_cases ho : inOneWindow s (sub32 now s.last)
      · simp [hz, ho, handler_trace_oneBit cfg now s hs hout hfull hz ho]
      · obtain ⟨b, hb⟩ := handler_trace_invalid cfg now s hs hout hfull hz ho
        simp [hz, ho, hb]

/-- C10 amended, in the sample state with unit period 100 (zero window 40..160): a pulse of
160 µs is accepted as a zero-bit and `10 * 160 ≤ 16 * 100`. -/
theorem c10_windows_witness :
    Calibrated sampleConfig 100 syncedSample ∧
    ¬ inSyncWindow syncedSample (sub32 3260 syncedSample.last) ∧
    (Receiver.interruptHandler sampleConfig 3260 syncedSample).trace = [.zeroBit] :=
  ⟨by decide, by decide,
    (c10_windows sampleConfig 100 syncedSample 3260 rfl (by decide) (by decide) (by decide)
      (by decide)).1.mpr (by decide)⟩

/-- A pulse inside the sync window that fails to re-acquire sync exists whatever the constants:
for any constants with `SYNC_CYCLES > 6`, `MIN_PERIOD_US > 0`, `MIN_LENGTH > 0` (and products that fit
32 bits), after a first sync of exactly `SYNC_CYCLES * MIN_PERIOD_US` from start-up, a pulse of
`(SYNC_CYCLES - 6) * MIN_PERIOD_US` lies in the sync window and leaves the machine unsynced. -/
theorem resync_gap (cfg : Config) (h6 : 6 < cfg.SYNC_CYCLES) (hM : 0 < cfg.MIN_PERIOD_US)
    (hL : 0 < cfg.MIN_LENGTH)
    (hfit : 2 * ((cfg.SYNC_CYCLES + 4) * cfg.MIN_PERIOD_US) < 4294967296) :
    (Receiver.interruptHandler cfg (cfg.SYNC_CYCLES * cfg.MIN_PERIOD_US)
      (Statics.init cfg)).st.sync = true ∧
    (Receiver.interruptHandler cfg (cfg.SYNC_CYCLES * cfg.MIN_PERIOD_US)
      (Statics.init cfg)).st.codeLength < cfg.MIN_LENGTH ∧
    inSyncWindow (Receiver.interruptHandler cfg (cfg.SYNC_CYCLES * cfg.MIN_PERIOD_US)
        (Statics.init cfg)).st ((cfg.SYNC_CYCLES - 6) * cfg.MIN_PERIOD_US) ∧
    (Receiver.interruptHandler cfg
      (cfg.SYNC_CYCLES * cfg.MIN_PERIOD_US + (cfg.SYNC_CYCLES - 6) * cfg.MIN_PERIOD_US)
      (Receiver.interruptHandler cfg (cfg.SYNC_CYCLES * cfg.MIN_PERIOD_US)
        (Statics.init cfg)).st).st.sync = false := by
  obtain ⟨k, hk⟩ : ∃ k, cfg.SYNC_CYCLES = k + 7 := ⟨cfg.SYNC_CYCLES - 7, by omega⟩
  have e1 : (cfg.SYNC_CYCLES + 4) * cfg.MIN_PERIOD_US =
      cfg.SYNC_CYCLES * cfg.MIN_PERIOD_US + 4 * cfg.MIN_PERIOD_US := by ring
  have e2 : cfg.SYNC_CYCLES * cfg.MIN_PERIOD_US =
      (cfg.SYNC_CYCLES - 6) * cfg.MIN_PERIOD_US + 6 * cfg.MIN_PERIOD_US := by
    rw [hk]
    have : k + 7 - 6 = k + 1 := by omega
    rw [this]
    ring
  have hS : cfg.SYNC_CYCLES ≤ cfg.SYNC_CYCLES * cfg.MIN_PERIOD_US :=
    Nat.le_mul_of_pos_right _ hM
  have hd0 : sub32 (cfg.SYNC_CYCLES * cfg.MIN_PERIOD_US) (Statics.init cfg).last =
      cfg.SYNC_CYCLES * cfg.MIN_PERIOD_US := by
    simp only [sub32, wrap32, Statics.init]
    omega
  have hacq := handler_acquire cfg (cfg.SYNC_CYCLES * cfg.MIN_PERIOD_US) (Statics.init cfg) rfl
    (by rw [hd0])
  rw [hd0] at hacq
  have hper : cfg.SYNC_CYCLES * cfg.MIN_PERIOD_US / cfg.SYNC_CYCLES = cfg.MIN_PERIOD_US :=
    Nat.mul_div_cancel_left _ (by omega)
  rw [hper] at hacq
  have hsub : sub32 cfg.SYNC_CYCLES 6 = cfg.SYNC_CYCLES - 6 := by
    simp only [sub32, wrap32]
    omega
  have hadd : wrap32 (cfg.SYNC_CYCLES + 4) = cfg.SYNC_CYCLES + 4 :=
    Nat.mod_eq_of_lt (by omega)
  have hlo : wrap32 (cfg.MIN_PERIOD_US * (cfg.SYNC_CYCLES - 6)) =
      (cfg.SYNC_CYCLES - 6) * cfg.MIN_PERIOD_US := by
    rw [Nat.mul_comm]
    exact Nat.mod_eq_of_lt (by omega)
  have hhi : wrap32 (cfg.MIN_PERIOD_US * (cfg.SYNC_CYCLES + 4)) =
      (cfg.SYNC_CYCLES + 4) * cfg.MIN_PERIOD_US := by
    rw [Nat.mul_comm]
    exact Nat.mod_eq_of_lt (by omega)
  rw [hsub, hadd, hlo, hhi] at hacq
  rw [hacq]
  have hwin : inSyncWindow
      { Statics.init cfg with
          last := cfg.SYNC_CYCLES * cfg.MIN_PERIOD_US
          start := (Statics.init cfg).last
          codeLength := 0
          preSyncPeriod := cfg.MIN_PERIOD_US
          zeroBitPeriod := 0, oneBitPeriod := 0, allBitPeriod := 0
          zeroBitCount := 0, oneBitCount := 0, allBitCount := 0
          currentBit := 3
          value := 0
          sync := true
          minZeroPeriod := wrap32 (cfg.MIN_PERIOD_US * 4) / 10
          maxZeroPeriod := wrap32 (cfg.MIN_PERIOD_US * 16) / 10
          minOnePeriod := wrap32 (cfg.MIN_PERIOD_US * 23) / 10
          maxOnePeriod := wrap32 (cfg.MIN_PERIOD_US * 37) / 10
          minSyncPeriod := (cfg.SYNC_CYCLES - 6) * cfg.MIN_PERIOD_US
          maxSyncPeriod := (cfg.SYNC_CYCLES + 4) * cfg.MIN_PERIOD_US }
      ((cfg.SYNC_CYCLES - 6) * cfg.MIN_PERIOD_US) := by
    simp only [inSyncWindow]
    omega
  refine ⟨rfl, hL, hwin, ?_⟩
  have hd1 : sub32 (cfg.SYNC_CYCLES * cfg.MIN_PERIOD_US +
      (cfg.SYNC_CYCLES - 6) * cfg.MIN_PERIOD_US) (cfg.SYNC_CYCLES * cfg.MIN_PERIOD_US) =
      (cfg.SYNC_CYCLES - 6) * cfg.MIN_PERIOD_US := by
    simp only [sub32, wrap32]
    omega
  rw [interruptHandler_unfold]
  simp only [hd1]
  rw [pass_syncEnd cfg _ _ _ rfl hwin, complete_short cfg _ true _ _ hL]
  simp only [Branch.retries, if_true]
  unfold pass
  have hlt : ¬ cfg.SYNC_CYCLES * cfg.MIN_PERIOD_US ≤ (cfg.SYNC_CYCLES - 6) * cfg.MIN_PERIOD_US := by
    omega
  simp [hlt]

/-! ### Control flow of the handler -/

/-- The sample state `decodedSample` is reached from start-up by the first nine events of
`packingEvents`. -/
theorem decodedSample_reached :
    (run sampleConfig [3100, 3400, 3500, 3800, 4100, 4200, 4300, 4400, 4500]
      (Statics.init sampleConfig)).1 = decodedSample := by
  simp only [run, interruptHandler_unfold]
  decide

theorem complete_pushed_length (cfg : Config) (now : Nat) (p : Bool) (s : Statics) (b : Branch) :
    (complete cfg now p s b).pushed.length ≤ 1 := by
  unfold complete
  split <;> simp

theorem pass_pushed_length (cfg : Config) (now d : Nat) (s : Statics) :
    (pass cfg now d s).pushed.length ≤ 1 := by
  unfold pass
  split_ifs <;> first | exact complete_pushed_length _ _ _ _ _ | simp

/-- A pass entered with `sync` false takes the `idle` or the `acquire` branch. -/
theorem pass_unsynced_branch (cfg : Config) (now d : Nat) (s : Statics) (hs : s.sync = false) :
    (pass cfg now d s).branch = .idle ∨ (pass cfg now d s).branch = .acquire := by
  unfold pass
  rw [if_pos hs]
  split
  · exact Or.inr rfl
  · exact Or.inl rfl

/-- Closed form of a pass that acquires sync. -/
theorem pass_acquire_sync (cfg : Config) (now d : Nat) (s : Statics) (hs : s.sync = false)
    (hd : cfg.SYNC_CYCLES * cfg.MIN_PERIOD_US ≤ d) :
    (pass cfg now d s).st.sync = true ∧ (pass cfg now d s).branch = .acquire ∧
    (pass cfg now d s).st.preSyncPeriod = d / cfg.SYNC_CYCLES ∧
    (pass cfg now d s).st.codeLength = 0 := by
  unfold pass
  rw [if_pos hs, if_pos hd]
  exact ⟨rfl, rfl, rfl, rfl⟩

/-- A pass entered with `sync` true that does not end in `goto retry` leaves `sync` true. -/
theorem pass_synced_done (cfg : Config) (now d : Nat) (s : Statics) (hs : s.sync = true)
    (h : (pass cfg now d s).branch.retries = false) : (pass cfg now d s).st.sync = true := by
  unfold pass at h ⊢
  split_ifs at h ⊢ <;> simp_all [complete_branch, Branch.retries]

/-- C18. Bounded re-entry: in every state and for every edge event the handler (a total
function: its loop terminates because a pass that jumps to `retry` leaves `sync` false and a pass
entered with `sync` false never jumps) makes one or two passes, takes `goto retry` at most once,
calls `addCode` at most once, and a second pass takes the `idle` or `acquire` branch of the
unsynced case. -/
theorem c18_bounded_reentry (cfg : Config) (now : Nat) (s : Statics) :
    ((Receiver.interruptHandler cfg now s).trace.length = 1 ∨
      (Receiver.interruptHandler cfg now s).trace.length = 2) ∧
    (Receiver.interruptHandler cfg now s).jumps ≤ 1 ∧
    (Receiver.interruptHandler cfg now s).pushed.length ≤ 1 ∧
    (∀ b1 b2, (Receiver.interruptHandler cfg now s).trace = [b1, b2] →
      b1.retries = true ∧ (b2 = .idle ∨ b2 = .acquire)) ∧
    (∀ d s1, (pass cfg now d s1).branch.retries = true →
      s1.sync = true ∧ (pass cfg now d s1).st.sync = false) ∧
    (∀ d s1, s1.sync = false → (pass cfg now d s1).branch.retries = false) := by
  refine ⟨?_, ?_, ?_, ?_, fun d s1 h => pass_retries cfg now d s1 h,
    fun d s1 h => pass_unsynced_retries cfg now d s1 h⟩
  · rw [interruptHandler_unfold]
    split <;> simp
  · rw [interruptHandler_unfold]
    cases h : (pass cfg now (sub32 now s.last) s).branch.retries
    · simp [Outcome.jumps, List.filter, h]
    · have h2 := pass_unsynced_retries cfg now (sub32 now s.last) _ (pass_retries cfg now _ s h).2
      simp [Outcome.jumps, List.filter, h, h2]
  · rw [handler_pushed_eq]
    exact pass_pushed_length cfg now _ s
  · intro b1 b2 ht
    rw [interruptHandler_unfold] at ht
    cases h : (pass cfg now (sub32 now s.last) s).branch.retries
    · simp [h] at ht
    · simp only [h, if_true, List.cons.injEq, and_true] at ht
      obtain ⟨h1, h2⟩ := ht
      refine ⟨by rw [← h1]; exact h, ?_⟩
      rw [← h2]
      exact pass_unsynced_branch cfg now _ _ (pass_retries cfg now _ s h).2

/-- C19. Re-synchronisation invariant: in every state, after an edge event whose duration is at
least `SYNC_CYCLES * MIN_PERIOD_US` the machine is synced; when the event ended a candidate (two
passes) the second pass acquired sync from that same pulse, with unit period
`duration / SYNC_CYCLES` and no digits. -/
theorem c19_resync (cfg : Config) (now : Nat) (s : Statics)
    (hd : cfg.SYNC_CYCLES * cfg.MIN_PERIOD_US ≤ sub32 now s.last) :
    (Receiver.interruptHandler cfg now s).st.sync = true ∧
    (∀ b1 b2, (Receiver.interruptHandler cfg now s).trace = [b1, b2] →
      b2 = .acquire ∧
      (Receiver.interruptHandler cfg now s).st.preSyncPeriod = sub32 now s.last / cfg.SYNC_CYCLES ∧
      (Receiver.interruptHandler cfg now s).st.codeLength = 0) := by
  rw [interruptHandler_unfold]
  cases h : (pass cfg now (sub32 now s.last) s).branch.retries
  · simp only [Bool.false_eq_true, if_false]
    refine ⟨?_, by intro b1 b2 ht; simp at ht⟩
    cases hs : s.sync
    · exact (pass_acquire_sync cfg now _ s hs hd).1
    · exact pass_synced_done cfg now _ s hs h
  · obtain ⟨a1, a2, a3, a4⟩ :=
      pass_acquire_sync cfg now (sub32 now s.last) _ (pass_retries cfg now _ s h).2 hd
    simp only [if_true]
    refine ⟨a1, ?_⟩
    intro b1 b2 ht
    simp only [List.cons.injEq, and_true] at ht
    exact ⟨by rw [← ht.2]; exact a2, a3, a4⟩

/-- C19 in the sample state `decodedSample`: a 5000 µs pulse, above the sync window 2500..3500,
ends the candidate and the machine is synced again with unit period `5000 / 31 = 161`. -/
theorem c19_resync_witness :
    sampleConfig.SYNC_CYCLES * sampleConfig.MIN_PERIOD_US ≤ sub32 9500 decodedSample.last ∧
    (Receiver.interruptHandler sampleConfig 9500 decodedSample).st.sync = true :=
  ⟨by decide, (c19_resync sampleConfig 9500 decodedSample (by decide)).1⟩

theorem complete_post (cfg : Config) (now : Nat) (p : Bool) (s : Statics) (b : Branch) (c : Code)
    (hc : c ∈ (complete cfg now p s b).pushed) :
    c.postSyncPresent = p ∧ c.postSyncPeriodMicros = s.postSyncPeriod := by
  unfold complete at hc
  split at hc
  · simp only [List.mem_singleton] at hc
    subst hc
    refine ⟨rfl, ?_⟩
    simp only []
    split_ifs <;> rfl
  · simp at hc

/-- C14. postSyncPresent: for every code passed to `addCode` by a handler call (in any state), the
machine was synced, `postSyncPresent` is true if and only if the duration of the pulse being
handled lies in the stored sync window (the first pass took the sync branch), it is false exactly
when that pulse is outside the sync window and either the digit buffer is full or the duration is
in neither the zero nor the one window, and when it is true
`postSyncPeriod = duration / SYNC_CYCLES`. -/
theorem c14_post_sync (cfg : Config) (now : Nat) (s : Statics) (c : Code)
    (hc : c ∈ (Receiver.interruptHandler cfg now s).pushed) :
    s.sync = true ∧
    (c.postSyncPresent = true ↔ inSyncWindow s (sub32 now s.last)) ∧
    (c.postSyncPresent = false ↔
      (¬ inSyncWindow s (sub32 now s.last) ∧
        (s.codeLength = cfg.MAX_LENGTH ∨
          (¬ inZeroWindow s (sub32 now s.last) ∧ ¬ inOneWindow s (sub32 now s.last))))) ∧
    (c.postSyncPresent = true → c.postSyncPeriodMicros = sub32 now s.last / cfg.SYNC_CYCLES) ∧
    (c.postSyncPresent = true ↔
      (Receiver.interruptHandler cfg now s).trace.head? = some Branch.syncEnd) := by
  have hhead : (Receiver.interruptHandler cfg now s).trace.head? =
      some (pass cfg now (sub32 now s.last) s).branch := by
    rw [interruptHandler_unfold]
    split <;> rfl
  rw [hhead]
  rw [handler_pushed_eq] at hc
  have hs : s.sync = true := by
    cases h : s.sync
    · rw [pass_unsynced_pushed cfg now _ s h] at hc
      simp at hc
    · rfl
  refine ⟨hs, ?_⟩
  by_cases h1 : inSyncWindow s (sub32 now s.last)
  · rw [pass_syncEnd cfg now _ s hs h1] at hc ⊢
    obtain ⟨p1, p2⟩ := complete_post cfg now true _ _ c hc
    rw [complete_branch]
    simp [p1, p2, h1]
  by_cases h2 : s.codeLength = cfg.MAX_LENGTH
  · rw [pass_tooLong cfg now _ s hs h1 h2] at hc ⊢
    obtain ⟨p1, _⟩ := complete_post cfg now false _ _ c hc
    rw [complete_branch]
    simp [p1, h1, h2]
  by_cases h3 : inZeroWindow s (sub32 now s.last)
  · rw [pass_zeroBit cfg now _ s hs h1 h2 h3] at hc
    simp at hc
  by_cases h4 : inOneWindow s (sub32 now s.last)
  · rw [pass_oneBit cfg now _ s hs h1 h2 h3 h4] at hc
    simp at hc
  · rw [pass_invalid cfg now _ s hs h1 h2 h3 h4] at hc ⊢
    obtain ⟨p1, _⟩ := complete_post cfg now false _ _ c hc
    rw [complete_branch]
    simp [p1, h1, h2, h3, h4]

/-- C14 in the sample state `decodedSample`: the 3100 µs pulse ending at 7600 lies in the sync
window 2500..3500, the code `B0` is pushed with `postSyncPresent = true` and
`postSyncPeriod = 3100 / 31`. -/
theorem c14_post_sync_witness :
    packingLogged.code ∈ (Receiver.interruptHandler sampleConfig 7600 decodedSample).pushed ∧
    inSyncWindow decodedSample (sub32 7600 decodedSample.last) ∧
    packingLogged.code.postSyncPresent = true ∧
    packingLogged.code.postSyncPeriodMicros =
      sub32 7600 decodedSample.last / sampleConfig.SYNC_CYCLES :=
  have hmem : packingLogged.code ∈
      (Receiver.interruptHandler sampleConfig 7600 decodedSample).pushed := by
    rw [interruptHandler_unfold]
    decide
  ⟨hmem, by decide, rfl,
    (c14_post_sync sampleConfig 7600 decodedSample packingLogged.code hmem).2.2.2.1 rfl⟩

/-! ### Calibration -/

/-- The sample state `hugeSample` is the one the handler reaches from start-up on an edge at
4294967295 µs. -/
theorem hugeSample_reached :
    (Receiver.interruptHandler sampleConfig 4294967295 (Statics.init sampleConfig)).st =
      hugeSample := by
  rw [handler_acquire sampleConfig 4294967295 _ rfl (by decide)]
  decide

theorem handler_head (cfg : Config) (now : Nat) (s : Statics) :
    (Receiver.interruptHandler cfg now s).trace.head? =
      some (pass cfg now (sub32 now s.last) s).branch := by
  rw [interruptHandler_unfold]
  split <;> rfl

/-- The branch taken by a pass entered with `sync` true, in the order of the tests. -/
theorem pass_branch_synced (cfg : Config) (now d : Nat) (s : Statics) (hs : s.sync = true) :
    (pass cfg now d s).branch =
      if inSyncWindow s d then Branch.syncEnd
      else if s.codeLength = cfg.MAX_LENGTH then Branch.tooLong
      else if inZeroWindow s d then Branch.zeroBit
      else if inOneWindow s d then Branch.oneBit
      else Branch.invalid := by
  by_cases h1 : inSyncWindow s d
  · rw [if_pos h1, pass_syncEnd cfg now d s hs h1, complete_branch]
  rw [if_neg h1]
  by_cases h2 : s.codeLength = cfg.MAX_LENGTH
  · rw [if_pos h2, pass_tooLong cfg now d s hs h1 h2, complete_branch]
  rw [if_neg h2]
  by_cases h3 : inZeroWindow s d
  · rw [if_pos h3, pass_zeroBit cfg now d s hs h1 h2 h3]
  rw [if_neg h3]
  by_cases h4 : inOneWindow s d
  · rw [if_pos h4, pass_oneBit cfg now d s hs h1 h2 h3 h4]
  · rw [if_neg h4, pass_invalid cfg now d s hs h1 h2 h3 h4, complete_branch]

/-- In a synced state the first pass takes the sync branch exactly for the durations in the
stored sync window, whatever the zero and one windows and the length of the digit buffer. -/
theorem handler_head_syncEnd (cfg : Config) (now : Nat) (s : Statics) (hs : s.sync = true) :
    (Receiver.interruptHandler cfg now s).trace.head? = some Branch.syncEnd ↔
      inSyncWindow s (sub32 now s.last) := by
  rw [handler_head, pass_branch_synced cfg now _ s hs]
  split_ifs <;> simp_all

/-- C11 as stated fails: with the sample constants a first sync of 3110 µs gives unit period 100
and the stored window 2500..3500, not `3110 - 6 * 100 = 2510` .. `3110 + 4 * 100 = 3510`; a later
pulse of 2505 µs, below 2510, is classified as Sync. -/
theorem c11_sync_window_counterexample :
    sampleConfig.SYNC_CYCLES * sampleConfig.MIN_PERIOD_US ≤
      sub32 3110 (Statics.init sampleConfig).last ∧
    sub32 3110 (Statics.init sampleConfig).last / sampleConfig.SYNC_CYCLES = 100 ∧
    (Receiver.interruptHandler sampleConfig 3110 (Statics.init sampleConfig)).st.minSyncPeriod
      = 2500 ∧
    (Receiver.interruptHandler sampleConfig 3110 (Statics.init sampleConfig)).st.maxSyncPeriod
      = 3500 ∧
    3110 - 6 * 100 = 2510 ∧ 3110 + 4 * 100 = 3510 ∧
    (Receiver.interruptHandler sampleConfig (3110 + 2505)
      (Receiver.interruptHandler sampleConfig 3110 (Statics.init sampleConfig)).st).trace.head?
      = some Branch.syncEnd := by
  rw [handler_acquire sampleConfig 3110 _ rfl (by decide)]
  refine ⟨by decide, by decide, by decide, by decide, by decide, by decide, ?_⟩
  rw [handler_head]
  decide

/-- C11, amended. Sync window: a sync acquisition from a pulse of duration `d` with unit period
`u = d / SYNC_CYCLES` stores `minSyncPeriod = u * (SYNC_CYCLES - 6)` and
`maxSyncPeriod = u * (SYNC_CYCLES + 4)` in 32-bit arithmetic, derived from the unit period; when
`SYNC_CYCLES ≥ 6` and `u * (SYNC_CYCLES + 4) < 2 ^ 32` these are the exact products, equal to
`d - d % SYNC_CYCLES - 6 u` and `d - d % SYNC_CYCLES + 4 u`. In any synced state with this stored
window a later pulse takes the sync branch exactly when its duration lies in the window,
whatever the zero and one windows and the buffer length (the test comes first). -/
theorem c11_sync_window (cfg : Config) (s : Statics) (now : Nat) (hs : s.sync = false)
    (hd : cfg.SYNC_CYCLES * cfg.MIN_PERIOD_US ≤ sub32 now s.last) :
    (Receiver.interruptHandler cfg now s).st.minSyncPeriod =
      wrap32 (sub32 now s.last / cfg.SYNC_CYCLES * sub32 cfg.SYNC_CYCLES 6) ∧
    (Receiver.interruptHandler cfg now s).st.maxSyncPeriod =
      wrap32 (sub32 now s.last / cfg.SYNC_CYCLES * wrap32 (cfg.SYNC_CYCLES + 4)) ∧
    (6 ≤ cfg.SYNC_CYCLES → cfg.SYNC_CYCLES + 4 < 4294967296 →
      sub32 now s.last / cfg.SYNC_CYCLES * (cfg.SYNC_CYCLES + 4) < 4294967296 →
      (Receiver.interruptHandler cfg now s).st.minSyncPeriod =
        sub32 now s.last / cfg.SYNC_CYCLES * (cfg.SYNC_CYCLES - 6) ∧
      (Receiver.interruptHandler cfg now s).st.maxSyncPeriod =
        sub32 now s.last / cfg.SYNC_CYCLES * (cfg.SYNC_CYCLES + 4) ∧
      (Receiver.interruptHandler cfg now s).st.minSyncPeriod =
        sub32 now s.last - sub32 now s.last % cfg.SYNC_CYCLES -
          6 * (sub32 now s.last / cfg.SYNC_CYCLES) ∧
      (Receiver.interruptHandler cfg now s).st.maxSyncPeriod =
        sub32 now s.last - sub32 now s.last % cfg.SYNC_CYCLES +
          4 * (sub32 now s.last / cfg.SYNC_CYCLES)) ∧
    (∀ (t : Statics) (later : Nat), t.sync = true →
      t.windows = (Receiver.interruptHandler cfg now s).st.windows →
      ((Receiver.interruptHandler cfg later t).trace.head? = some Branch.syncEnd ↔
        ((Receiver.interruptHandler cfg now s).st.minSyncPeriod ≤ sub32 later t.last ∧
          sub32 later t.last ≤ (Receiver.interruptHandler cfg now s).st.maxSyncPeriod))) := by
  have hacq := handler_acquire cfg now s hs hd
  refine ⟨by rw [hacq], by rw [hacq], ?_, ?_⟩
  · intro h6 hS hfit
    have hsub : sub32 cfg.SYNC_CYCLES 6 = cfg.SYNC_CYCLES - 6 := by
      simp only [sub32, wrap32]
      omega
    have hadd : wrap32 (cfg.SYNC_CYCLES + 4) = cfg.SYNC_CYCLES + 4 := Nat.mod_eq_of_lt hS
    have hmono : sub32 now s.last / cfg.SYNC_CYCLES * (cfg.SYNC_CYCLES - 6) ≤
        sub32 now s.last / cfg.SYNC_CYCLES * (cfg.SYNC_CYCLES + 4) :=
      Nat.mul_le_mul_left _ (by omega)
    have hlo : wrap32 (sub32 now s.last / cfg.SYNC_CYCLES * (cfg.SYNC_CYCLES - 6)) =
        sub32 now s.last / cfg.SYNC_CYCLES * (cfg.SYNC_CYCLES - 6) :=
      Nat.mod_eq_of_lt (by omega)
    have hhi : wrap32 (sub32 now s.last / cfg.SYNC_CYCLES * (cfg.SYNC_CYCLES + 4)) =
        sub32 now s.last / cfg.SYNC_CYCLES * (cfg.SYNC_CYCLES + 4) := Nat.mod_eq_of_lt hfit
    have hdm := Nat.div_add_mod (sub32 now s.last) cfg.SYNC_CYCLES
    have e1 : sub32 now s.last / cfg.SYNC_CYCLES * (cfg.SYNC_CYCLES - 6) =
        cfg.SYNC_CYCLES * (sub32 now s.last / cfg.SYNC_CYCLES) -
          6 * (sub32 now s.last / cfg.SYNC_CYCLES) := by
      rw [Nat.mul_sub, Nat.mul_comm (sub32 now s.last / cfg.SYNC_CYCLES) cfg.SYNC_CYCLES,
        Nat.mul_comm (sub32 now s.last / cfg.SYNC_CYCLES) 6]
    have e2 : sub32 now s.last / cfg.SYNC_CYCLES * (cfg.SYNC_CYCLES + 4) =
        cfg.SYNC_CYCLES * (sub32 now s.last / cfg.SYNC_CYCLES) +
          4 * (sub32 now s.last / cfg.SYNC_CYCLES) := by ring
    rw [hacq]
    simp only [hsub, hadd, hlo, hhi]
    refine ⟨trivial, trivial, ?_, ?_⟩
    · rw [e1]; omega
    · rw [e2]; omega
  · intro t later ht hw
    rw [handler_head_syncEnd cfg later t ht]
    simp only [Statics.windows, List.cons.injEq, and_true] at hw
    obtain ⟨_, _, _, _, a5, a6⟩ := hw
    simp only [inSyncWindow, a5, a6, ge_iff_le]

/-- C11 amended, at start-up with the sample constants: a first sync of 3110 µs stores the
window `100 * 25` .. `100 * 35`. -/
theorem c11_sync_window_witness :
    sampleConfig.SYNC_CYCLES * sampleConfig.MIN_PERIOD_US ≤
      sub32 3110 (Statics.init sampleConfig).last ∧
    (Receiver.interruptHandler sampleConfig 3110 (Statics.init sampleConfig)).st.minSyncPeriod =
      sub32 3110 (Statics.init sampleConfig).last / sampleConfig.SYNC_CYCLES *
        (sampleConfig.SYNC_CYCLES - 6) :=
  ⟨by decide,
    ((c11_sync_window sampleConfig (Statics.init sampleConfig) 3110 rfl (by decide)).2.2.1
      (by decide) (by decide) (by decide)).1⟩

/-- C20 as stated fails: with the sample constants (`SYNC_CYCLES = 31`) a first edge after
4294967295 µs is acquired with period 138547332; `period * 37` and `period * 35` exceed `2 ^ 32`,
the stored `maxOnePeriod` is 83128398 instead of `period * 37 / 10 = 512625128`, and neither
`minOnePeriod ≤ maxOnePeriod` nor `minSyncPeriod ≤ maxSyncPeriod` holds. -/
theorem c20_no_overflow_counterexample :
    sampleConfig.SYNC_CYCLES * sampleConfig.MIN_PERIOD_US ≤
      sub32 4294967295 (Statics.init sampleConfig).last ∧
    sub32 4294967295 (Statics.init sampleConfig).last < 4294967296 ∧
    sub32 4294967295 (Statics.init sampleConfig).last / sampleConfig.SYNC_CYCLES = 138547332 ∧
    ¬ (138547332 * 37 < 4294967296) ∧
    ¬ (138547332 * (sampleConfig.SYNC_CYCLES + 4) < 4294967296) ∧
    (Receiver.interruptHandler sampleConfig 4294967295
      (Statics.init sampleConfig)).st.maxOnePeriod = 83128398 ∧
    138547332 * 37 / 10 = 512625128 ∧
    ¬ ((Receiver.interruptHandler sampleConfig 4294967295
        (Statics.init sampleConfig)).st.minOnePeriod ≤
      (Receiver.interruptHandler sampleConfig 4294967295
        (Statics.init sampleConfig)).st.maxOnePeriod) ∧
    ¬ ((Receiver.interruptHandler sampleConfig 4294967295
        (Statics.init sampleConfig)).st.minSyncPeriod ≤
      (Receiver.interruptHandler sampleConfig 4294967295
        (Statics.init sampleConfig)).st.maxSyncPeriod) := by
  rw [handler_acquire sampleConfig 4294967295 _ rfl (by decide)]
  decide

/-- C20, amended. No threshold overflow: for a sync acquisition from a duration `d` (at least
`SYNC_CYCLES * MIN_PERIOD_US`, with `MIN_PERIOD_US ≥ 1` and `SYNC_CYCLES ≥ 6`) whose period
`u = d / SYNC_CYCLES` satisfies `37 u < 2 ^ 32` and `(SYNC_CYCLES + 4) u < 2 ^ 32`, none of the six
products wraps, the six stored thresholds are `4u/10`, `16u/10`, `23u/10`, `37u/10`,
`u (SYNC_CYCLES - 6)`, `u (SYNC_CYCLES + 4)`, and
`minZero ≤ maxZero < minOne ≤ maxOne`, `minSync ≤ maxSync`. -/
theorem c20_no_overflow (cfg : Config) (s : Statics) (now : Nat) (hs : s.sync = false)
    (hd : cfg.SYNC_CYCLES * cfg.MIN_PERIOD_US ≤ sub32 now s.last)
    (hM : 1 ≤ cfg.MIN_PERIOD_US) (h6 : 6 ≤ cfg.SYNC_CYCLES)
    (hS : cfg.SYNC_CYCLES + 4 < 4294967296)
    (h37 : sub32 now s.last / cfg.SYNC_CYCLES * 37 < 4294967296)
    (hfit : sub32 now s.last / cfg.SYNC_CYCLES * (cfg.SYNC_CYCLES + 4) < 4294967296) :
    (Receiver.interruptHandler cfg now s).st.preSyncPeriod = sub32 now s.last / cfg.SYNC_CYCLES ∧
    (Receiver.interruptHandler cfg now s).st.minZeroPeriod =
      sub32 now s.last / cfg.SYNC_CYCLES * 4 / 10 ∧
    (Receiver.interruptHandler cfg now s).st.maxZeroPeriod =
      sub32 now s.last / cfg.SYNC_CYCLES * 16 / 10 ∧
    (Receiver.interruptHandler cfg now s).st.minOnePeriod =
      sub32 now s.last / cfg.SYNC_CYCLES * 23 / 10 ∧
    (Receiver.interruptHandler cfg now s).st.maxOnePeriod =
      sub32 now s.last / cfg.SYNC_CYCLES * 37 / 10 ∧
    (Receiver.interruptHandler cfg now s).st.minSyncPeriod =
      sub32 now s.last / cfg.SYNC_CYCLES * (cfg.SYNC_CYCLES - 6) ∧
    (Receiver.interruptHandler cfg now s).st.maxSyncPeriod =
      sub32 now s.last / cfg.SYNC_CYCLES * (cfg.SYNC_CYCLES + 4) ∧
    sub32 now s.last / cfg.SYNC_CYCLES * (cfg.SYNC_CYCLES - 6) < 4294967296 ∧
    (Receiver.interruptHandler cfg now s).st.minZeroPeriod ≤
      (Receiver.interruptHandler cfg now s).st.maxZeroPeriod ∧
    (Receiver.interruptHandler cfg now s).st.maxZeroPeriod <
      (Receiver.interruptHandler cfg now s).st.minOnePeriod ∧
    (Receiver.interruptHandler cfg now s).st.minOnePeriod ≤
      (Receiver.interruptHandler cfg now s).st.maxOnePeriod ∧
    (Receiver.interruptHandler cfg now s).st.minSyncPeriod ≤
      (Receiver.interruptHandler cfg now s).st.maxSyncPeriod := by
  have hu : 1 ≤ sub32 now s.last / cfg.SYNC_CYCLES := by
    have h1 : cfg.MIN_PERIOD_US ≤ sub32 now s.last / cfg.SYNC_CYCLES :=
      (Nat.le_div_iff_mul_le (by omega)).mpr (by rw [Nat.mul_comm]; exact hd)
    omega
  have hsub : sub32 cfg.SYNC_CYCLES 6 = cfg.SYNC_CYCLES - 6 := by
    simp only [sub32, wrap32]
    omega
  have hadd : wrap32 (cfg.SYNC_CYCLES + 4) = cfg.SYNC_CYCLES + 4 := Nat.mod_eq_of_lt hS
  have hmono : sub32 now s.last / cfg.SYNC_CYCLES * (cfg.SYNC_CYCLES - 6) ≤
      sub32 now s.last / cfg.SYNC_CYCLES * (cfg.SYNC_CYCLES + 4) :=
    Nat.mul_le_mul_left _ (by omega)
  have w4 : wrap32 (sub32 now s.last / cfg.SYNC_CYCLES * 4) =
      sub32 now s.last / cfg.SYNC_CYCLES * 4 := Nat.mod_eq_of_lt (by omega)
  have w16 : wrap32 (sub32 now s.last / cfg.SYNC_CYCLES * 16) =
      sub32 now s.last / cfg.SYNC_CYCLES * 16 := Nat.mod_eq_of_lt (by omega)
  have w23 : wrap32 (sub32 now s.last / cfg.SYNC_CYCLES * 23) =
      sub32 now s.last / cfg.SYNC_CYCLES * 23 := Nat.mod_eq_of_lt (by omega)
  have w37 : wrap32 (sub32 now s.last / cfg.SYNC_CYCLES * 37) =
      sub32 now s.last / cfg.SYNC_CYCLES * 37 := Nat.mod_eq_of_lt h37
  have hlo : wrap32 (sub32 now s.last / cfg.SYNC_CYCLES * (cfg.SYNC_CYCLES - 6)) =
      sub32 now s.last / cfg.SYNC_CYCLES * (cfg.SYNC_CYCLES - 6) :=
    Nat.mod_eq_of_lt (by omega)
  have hhi : wrap32 (sub32 now s.last / cfg.SYNC_CYCLES * (cfg.SYNC_CYCLES + 4)) =
      sub32 now s.last / cfg.SYNC_CYCLES * (cfg.SYNC_CYCLES + 4) := Nat.mod_eq_of_lt hfit
  rw [handler_acquire cfg now s hs hd]
  simp only [hsub, hadd, w4, w16, w23, w37, hlo, hhi, true_and]
  have hgap : sub32 now s.last / cfg.SYNC_CYCLES * 16 / 10 <
      sub32 now s.last / cfg.SYNC_CYCLES * 23 / 10 := by
    generalize sub32 now s.last / cfg.SYNC_CYCLES = u at hu
    rcases Nat.lt_or_ge u 2 with h | h
    · have : u = 1 := by omega
      subst this
      decide
    · omega
  refine ⟨by omega, by omega, hgap, by omega, hmono⟩

/-- C20 amended, at start-up with the sample constants: a first sync of 3100 µs (period 100)
stores the windows 40..160, 230..370 and 2500..3500. -/
theorem c20_no_overflow_witness :
    sampleConfig.SYNC_CYCLES * sampleConfig.MIN_PERIOD_US ≤
      sub32 3100 (Statics.init sampleConfig).last ∧
    (Receiver.interruptHandler sampleConfig 3100 (Statics.init sampleConfig)).st.maxOnePeriod =
      sub32 3100 (Statics.init sampleConfig).last / sampleConfig.SYNC_CYCLES * 37 / 10 ∧
    (Receiver.interruptHandler sampleConfig 3100 (Statics.init sampleConfig)).st.maxZeroPeriod <
      (Receiver.interruptHandler sampleConfig 3100 (Statics.init sampleConfig)).st.minOnePeriod :=
  ⟨by decide,
    (c20_no_overflow sampleConfig (Statics.init sampleConfig) 3100 rfl (by decide) (by decide)
      (by decide) (by decide) (by decide) (by decide)).2.2.2.2.1,
    (c20_no_overflow sampleConfig (Statics.init sampleConfig) 3100 rfl (by decide) (by decide)
      (by decide) (by decide) (by decide) (by decide)).2.2.2.2.2.2.2.2.2.1⟩

/-- Closed form of a handler call that adds a zero-bit. -/
theorem handler_zeroBit (cfg : Config) (now : Nat) (s : Statics) (hs : s.sync = true)
    (h1 : ¬ inSyncWindow s (sub32 now s.last)) (h2 : s.codeLength ≠ cfg.MAX_LENGTH)
    (h3 : inZeroWindow s (sub32 now s.last)) :
    Receiver.interruptHandler cfg now s =
      { st := { s with
                  last := now
                  code := (addBit s.code s.codeLength s.currentBit s.value 0).code
                  codeLength := (addBit s.code s.codeLength s.currentBit s.value 0).codeLength
                  currentBit := (addBit s.code s.codeLength s.currentBit s.value 0).currentBit
                  value := (addBit s.code s.codeLength s.currentBit s.value 0).value
                  zeroBitPeriod := wrap32 (s.zeroBitPeriod + sub32 now s.last)
                  zeroBitCount := s.zeroBitCount + 1
                  allBitPeriod := wrap32 (s.allBitPeriod + sub32 now s.last)
                  allBitCount := s.allBitCount + 1 }
        pushed := []
        trace := [.zeroBit] } := by
  rw [interruptHandler_unfold, pass_zeroBit cfg now _ s hs h1 h2 h3,
    if_neg (by simp [Branch.retries])]

/-- Closed form of a handler call that adds a one-bit. -/
theorem handler_oneBit (cfg : Config) (now : Nat) (s : Statics) (hs : s.sync = true)
    (h1 : ¬ inSyncWindow s (sub32 now s.last)) (h2 : s.codeLength ≠ cfg.MAX_LENGTH)
    (h3 : ¬ inZeroWindow s (sub32 now s.last)) (h4 : inOneWindow s (sub32 now s.last)) :
    Receiver.interruptHandler cfg now s =
      { st := { s with
                  last := now
                  code := (addBit s.code s.codeLength s.currentBit s.value 1).code
                  codeLength := (addBit s.code s.codeLength s.currentBit s.value 1).codeLength
                  currentBit := (addBit s.code s.codeLength s.currentBit s.value 1).currentBit
                  value := (addBit s.code s.codeLength s.currentBit s.value 1).value
                  oneBitPeriod := wrap32 (s.oneBitPeriod + sub32 now s.last / 3)
                  oneBitCount := s.oneBitCount + 1
                  allBitPeriod := wrap32 (s.allBitPeriod + sub32 now s.last / 3)
                  allBitCount := s.allBitCount + 1 }
        pushed := []
        trace := [.oneBit] } := by
  rw [interruptHandler_unfold, pass_oneBit cfg now _ s hs h1 h2 h3 h4,
    if_neg (by simp [Branch.retries])]

/-- C12 as stated fails: in the sample state `hugeSample`, calibrated with unit period
`p = 138547332 = 4294967295 / 31`, a pulse of exactly `3 p` µs is not accepted as a one-bit: it
takes the invalid-duration branch, because `37 p` exceeds `2 ^ 32` and the stored `maxOnePeriod`
is 83128398. -/
theorem c12_nominal_counterexample :
    hugeSample.sync = true ∧ Calibrated sampleConfig 138547332 hugeSample ∧
    138547332 = 4294967295 / sampleConfig.SYNC_CYCLES ∧
    sampleConfig.SYNC_CYCLES * sampleConfig.MIN_PERIOD_US ≤ 4294967295 ∧
    hugeSample.codeLength ≠ sampleConfig.MAX_LENGTH ∧
    sub32 415641995 hugeSample.last = 3 * 138547332 ∧
    (Receiver.interruptHandler sampleConfig 415641995 hugeSample).trace =
      [Branch.invalid, Branch.acquire] := by
  refine ⟨rfl, by decide, by decide, by decide, by decide, by decide, ?_⟩
  rw [interruptHandler_unfold]
  decide

/-- C12, amended. Nominal pulses: for a unit period `p = d0 / SYNC_CYCLES` of an acquired duration
`d0 ≥ SYNC_CYCLES * MIN_PERIOD_US` (with `MIN_PERIOD_US ≥ 1`, `SYNC_CYCLES ≥ 10`) such that
`37 p < 2 ^ 32`, in every synced state with that calibration whose digit buffer is not full, a
pulse of exactly `p` is accepted as a zero-bit and a pulse of exactly `3 p` as a one-bit: the
handler makes one pass, calls `addBit` with the bit, and pushes no code. -/
theorem c12_nominal (cfg : Config) (p d0 : Nat) (s : Statics) (hs : s.sync = true)
    (hcal : Calibrated cfg p s) (hfull : s.codeLength ≠ cfg.MAX_LENGTH)
    (hp : p = d0 / cfg.SYNC_CYCLES) (hd0 : cfg.SYNC_CYCLES * cfg.MIN_PERIOD_US ≤ d0)
    (hlt : d0 < 4294967296) (hM : 1 ≤ cfg.MIN_PERIOD_US) (h10 : 10 ≤ cfg.SYNC_CYCLES)
    (h37 : p * 37 < 4294967296) :
    (∀ now, sub32 now s.last = p →
      (Receiver.interruptHandler cfg now s).trace = [Branch.zeroBit] ∧
      (Receiver.interruptHandler cfg now s).pushed = [] ∧
      (Receiver.interruptHandler cfg now s).st.sync = true ∧
      (Receiver.interruptHandler cfg now s).st.code =
        (addBit s.code s.codeLength s.currentBit s.value 0).code ∧
      (Receiver.interruptHandler cfg now s).st.codeLength =
        (addBit s.code s.codeLength s.currentBit s.value 0).codeLength ∧
      (Receiver.interruptHandler cfg now s).st.currentBit =
        (addBit s.code s.codeLength s.currentBit s.value 0).currentBit ∧
      (Receiver.interruptHandler cfg now s).st.value =
        (addBit s.code s.codeLength s.currentBit s.value 0).value) ∧
    (∀ now, sub32 now s.last = 3 * p →
      (Receiver.interruptHandler cfg now s).trace = [Branch.oneBit] ∧
      (Receiver.interruptHandler cfg now s).pushed = [] ∧
      (Receiver.interruptHandler cfg now s).st.sync = true ∧
      (Receiver.interruptHandler cfg now s).st.code =
        (addBit s.code s.codeLength s.currentBit s.value 1).code ∧
      (Receiver.interruptHandler cfg now s).st.codeLength =
        (addBit s.code s.codeLength s.currentBit s.value 1).codeLength ∧
      (Receiver.interruptHandler cfg now s).st.currentBit =
        (addBit s.code s.codeLength s.currentBit s.value 1).currentBit ∧
      (Receiver.interruptHandler cfg now s).st.value =
        (addBit s.code s.codeLength s.currentBit s.value 1).value) := by
  obtain ⟨_, c1, c2, c3, c4, c5, _⟩ := hcal
  have hp1 : 1 ≤ p := by
    have h1 : cfg.MIN_PERIOD_US ≤ d0 / cfg.SYNC_CYCLES :=
      (Nat.le_div_iff_mul_le (by omega)).mpr (by rw [Nat.mul_comm]; exact hd0)
    omega
  have hpS : p * cfg.SYNC_CYCLES ≤ d0 := by rw [hp]; exact Nat.div_mul_le_self d0 _
  have hSle : cfg.SYNC_CYCLES ≤ p * cfg.SYNC_CYCLES := Nat.le_mul_of_pos_left _ hp1
  have hsub : sub32 cfg.SYNC_CYCLES 6 = cfg.SYNC_CYCLES - 6 := by
    simp only [sub32, wrap32]
    omega
  have hle1 : p * (cfg.SYNC_CYCLES - 6) ≤ p * cfg.SYNC_CYCLES :=
    Nat.mul_le_mul_left _ (by omega)
  have hle2 : p * 4 ≤ p * (cfg.SYNC_CYCLES - 6) := Nat.mul_le_mul_left _ (by omega)
  have hlo : wrap32 (p * (cfg.SYNC_CYCLES - 6)) = p * (cfg.SYNC_CYCLES - 6) :=
    Nat.mod_eq_of_lt (by omega)
  have w4 : wrap32 (p * 4) = p * 4 := Nat.mod_eq_of_lt (by omega)
  have w16 : wrap32 (p * 16) = p * 16 := Nat.mod_eq_of_lt (by omega)
  have w23 : wrap32 (p * 23) = p * 23 := Nat.mod_eq_of_lt (by omega)
  have w37 : wrap32 (p * 37) = p * 37 := Nat.mod_eq_of_lt (by omega)
  rw [w4] at c1
  rw [w16] at c2
  rw [w23] at c3
  rw [w37] at c4
  rw [hsub, hlo] at c5
  constructor
  · intro now hnow
    have h1 : ¬ inSyncWindow s (sub32 now s.last) := by
      rw [hnow]
      simp only [inSyncWindow, c5]
      omega
    have h3 : inZeroWindow s (sub32 now s.last) := by
      rw [hnow]
      simp only [inZeroWindow, c1, c2]
      omega
    rw [handler_zeroBit cfg now s hs h1 hfull h3]
    exact ⟨rfl, rfl, hs, rfl, rfl, rfl, rfl⟩
  · intro now hnow
    have h1 : ¬ inSyncWindow s (sub32 now s.last) := by
      rw [hnow]
      simp only [inSyncWindow, c5]
      omega
    have h3 : ¬ inZeroWindow s (sub32 now s.last) := by
      rw [hnow]
      simp only [inZeroWindow, c1, c2]
      omega
    have h4 : inOneWindow s (sub32 now s.last) := by
      rw [hnow]
      simp only [inOneWindow, c3, c4]
      omega
    rw [handler_oneBit cfg now s hs h1 hfull h3 h4]
    exact ⟨rfl, rfl, hs, rfl, rfl, rfl, rfl⟩

/-- C12 amended, in the sample state `syncedSample` (unit period `100 = 3100 / 31`): a pulse of
100 µs is accepted as a zero-bit and a pulse of 300 µs as a one-bit. -/
theorem c12_nominal_witness :
    Calibrated sampleConfig 100 syncedSample ∧
    sub32 3200 syncedSample.last = 100 ∧
    (Receiver.interruptHandler sampleConfig 3200 syncedSample).trace = [Branch.zeroBit] ∧
    sub32 3400 syncedSample.last = 3 * 100 ∧
    (Receiver.interruptHandler sampleConfig 3400 syncedSample).trace = [Branch.oneBit] :=
  ⟨by decide, by decide,
    ((c12_nominal sampleConfig 100 3100 syncedSample rfl (by decide) (by decide) (by decide)
      (by decide) (by decide) (by decide) (by decide) (by decide)).1 3200 (by decide)).1,
    by decide,
    ((c12_nominal sampleConfig 100 3100 syncedSample rfl (by decide) (by decide) (by decide)
      (by decide) (by decide) (by decide) (by decide) (by decide)).2 3400 (by decide)).1⟩

/-! ### Pulses that end a candidate without being a sync -/

set_option maxRecDepth 8000 in
/-- The sample state `fullSample` is reached from start-up by a 3100 µs sync and twenty-four
zero-bit pulses of 100 µs. -/
theorem fullSample_reached :
    (run sampleConfig [3100, 3200, 3300, 3400, 3500, 3600, 3700, 3800, 3900, 4000, 4100, 4200,
      4300, 4400, 4500, 4600, 4700, 4800, 4900, 5000, 5100, 5200, 5300, 5400, 5500]
      (Statics.init sampleConfig)).1 = fullSample := by
  simp only [run, interruptHandler_unfold]
  decide

/-- What the completion evaluation leaves in the statics: `sync` false, `preSyncStandalone` the
negation of `postSyncPresent`; the digit state, the time stamps of the edges and the calibration
are kept. -/
theorem complete_st (cfg : Config) (now : Nat) (p : Bool) (s : Statics) (b : Branch) :
    (complete cfg now p s b).st.sync = false ∧
    (complete cfg now p s b).st.preSyncStandalone = (!p) ∧
    (complete cfg now p s b).st.codeLength = s.codeLength ∧
    (complete cfg now p s b).st.currentBit = s.currentBit ∧
    (complete cfg now p s b).st.value = s.value ∧
    (complete cfg now p s b).st.last = s.last ∧
    (complete cfg now p s b).st.windows = s.windows := by
  unfold complete
  split
  · simp only []
    split_ifs <;> simp [Statics.windows]
  · exact ⟨rfl, rfl, rfl, rfl, rfl, rfl, rfl⟩

/-- The completion evaluation calls `addCode` exactly when `codeLength ≥ MIN_LENGTH`. -/
theorem complete_pushed_cases (cfg : Config) (now : Nat) (p : Bool) (s : Statics) (b : Branch) :
    (s.codeLength < cfg.MIN_LENGTH → (complete cfg now p s b).pushed = []) ∧
    (cfg.MIN_LENGTH ≤ s.codeLength → ∃ c, (complete cfg now p s b).pushed = [c] ∧
      c.postSyncPresent = p ∧ c.preSyncStandalone = s.preSyncStandalone ∧
      c.totalDurationMicros = sub32 now s.start ∧
      c.trailingBitCount = 3 - s.currentBit ∧ c.trailingValue = s.value) := by
  constructor
  · intro h
    rw [complete_short cfg now p s b h]
  · intro h
    unfold complete
    rw [if_pos h]
    refine ⟨_, rfl, rfl, ?_, ?_, ?_, ?_⟩ <;> (simp only []; split_ifs <;> rfl)

/-- Outcome of a handler call whose first pass ends in `goto retry`: the second pass acquires
sync from the same pulse when its duration is at least `SYNC_CYCLES * MIN_PERIOD_US` and changes
nothing otherwise. -/
theorem restart_outcome (cfg : Config) (now : Nat) (s : Statics)
    (hr : (pass cfg now (sub32 now s.last) s).branch.retries = true) :
    (Receiver.interruptHandler cfg now s).pushed = (pass cfg now (sub32 now s.last) s).pushed ∧
    (Receiver.interruptHandler cfg now s).st.preSyncStandalone =
      (pass cfg now (sub32 now s.last) s).st.preSyncStandalone ∧
    (cfg.SYNC_CYCLES * cfg.MIN_PERIOD_US ≤ sub32 now s.last →
      (Receiver.interruptHandler cfg now s).st.sync = true ∧
      (Receiver.interruptHandler cfg now s).st.preSyncPeriod =
        sub32 now s.last / cfg.SYNC_CYCLES ∧
      (Receiver.interruptHandler cfg now s).st.codeLength = 0 ∧
      (Receiver.interruptHandler cfg now s).st.start =
        (pass cfg now (sub32 now s.last) s).st.last ∧
      (Receiver.interruptHandler cfg now s).trace =
        [(pass cfg now (sub32 now s.last) s).branch, Branch.acquire]) ∧
    (sub32 now s.last < cfg.SYNC_CYCLES * cfg.MIN_PERIOD_US →
      (Receiver.interruptHandler cfg now s).st =
        { (pass cfg now (sub32 now s.last) s).st with last := now } ∧
      (Receiver.interruptHandler cfg now s).trace =
        [(pass cfg now (sub32 now s.last) s).branch, Branch.idle]) := by
  have hs1 := (pass_retries cfg now _ s hr).2
  refine ⟨handler_pushed_eq cfg now s, ?_, ?_, ?_⟩
  · rw [interruptHandler_unfold, if_pos hr]
    generalize (pass cfg now (sub32 now s.last) s).st = s1 at hs1 ⊢
    unfold pass
    rw [if_pos hs1]
    split <;> rfl
  · intro hd
    rw [interruptHandler_unfold, if_pos hr]
    generalize (pass cfg now (sub32 now s.last) s).st = s1 at hs1 ⊢
    generalize (pass cfg now (sub32 now s.last) s).branch = b1
    unfold pass
    rw [if_pos hs1, if_pos hd]
    exact ⟨rfl, rfl, rfl, rfl, rfl⟩
  · intro hd
    rw [interruptHandler_unfold, if_pos hr]
    generalize (pass cfg now (sub32 now s.last) s).st = s1 at hs1 ⊢
    generalize (pass cfg now (sub32 now s.last) s).branch = b1
    unfold pass
    rw [if_pos hs1, if_neg (by omega)]
    exact ⟨rfl, rfl⟩

/-- C16 as stated fails: in the sample state `decodedSample` (synced, two digits, buffer not
full) a pulse of 200 µs lies outside the sync window 2500..3500, the zero window 40..160 and the
one window 230..370; the handler pushes a code and leaves `sync` false. -/
theorem c16_invalid_pulse_counterexample :
    decodedSample.sync = true ∧ decodedSample.codeLength ≠ sampleConfig.MAX_LENGTH ∧
    sub32 4700 decodedSample.last = 200 ∧
    ¬ inSyncWindow decodedSample 200 ∧ ¬ inZeroWindow decodedSample 200 ∧
    ¬ inOneWindow decodedSample 200 ∧
    (Receiver.interruptHandler sampleConfig 4700 decodedSample).pushed.length = 1 ∧
    (Receiver.interruptHandler sampleConfig 4700 decodedSample).st.sync = false ∧
    (Receiver.interruptHandler sampleConfig 4700 decodedSample).st.zeroBitPeriod ≠
      decodedSample.zeroBitPeriod := by
  refine ⟨rfl, by decide, by decide, by decide, by decide, by decide, ?_, ?_, ?_⟩ <;>
    (rw [interruptHandler_unfold]; decide)

/-- What the completion evaluation does to the accumulators: the three counts are kept; with
fewer than `MIN_LENGTH` digits the three sums are kept; otherwise each sum is replaced by the
average (the sum divided by its count when the count is positive, the sum itself otherwise), and
these averages are the ones of the pushed code. -/
theorem complete_accumulators (cfg : Config) (now : Nat) (p : Bool) (s : Statics) (b : Branch) :
    (complete cfg now p s b).st.zeroBitCount = s.zeroBitCount ∧
    (complete cfg now p s b).st.oneBitCount = s.oneBitCount ∧
    (complete cfg now p s b).st.allBitCount = s.allBitCount ∧
    (s.codeLength < cfg.MIN_LENGTH →
      (complete cfg now p s b).st.zeroBitPeriod = s.zeroBitPeriod ∧
      (complete cfg now p s b).st.oneBitPeriod = s.oneBitPeriod ∧
      (complete cfg now p s b).st.allBitPeriod = s.allBitPeriod) ∧
    (cfg.MIN_LENGTH ≤ s.codeLength →
      (complete cfg now p s b).st.zeroBitPeriod =
        (if s.zeroBitCount > 0 then s.zeroBitPeriod / s.zeroBitCount else s.zeroBitPeriod) ∧
      (complete cfg now p s b).st.oneBitPeriod =
        (if s.oneBitCount > 0 then s.oneBitPeriod / s.oneBitCount else s.oneBitPeriod) ∧
      (complete cfg now p s b).st.allBitPeriod =
        (if s.allBitCount > 0 then s.allBitPeriod / s.allBitCount else s.allBitPeriod) ∧
      ∀ c ∈ (complete cfg now p s b).pushed,
        c.avgZeroPeriodMicros =
          (if s.zeroBitCount > 0 then s.zeroBitPeriod / s.zeroBitCount else s.zeroBitPeriod) ∧
        c.avgOnePeriodMicros =
          (if s.oneBitCount > 0 then s.oneBitPeriod / s.oneBitCount else s.oneBitPeriod) ∧
        c.avgAllPeriodMicros =
          (if s.allBitCount > 0 then s.allBitPeriod / s.allBitCount else s.allBitPeriod)) := by
  refine ⟨?_, ?_, ?_, ?_, ?_⟩
  · unfold complete
    split
    · simp only []
      split_ifs <;> rfl
    · rfl
  · unfold complete
    split
    · simp only []
      split_ifs <;> rfl
    · rfl
  · unfold complete
    split
    · simp only []
      split_ifs <;> rfl
    · rfl
  · intro h
    rw [complete_short cfg now p s b h]
    exact ⟨rfl, rfl, rfl⟩
  · intro h
    unfold complete
    rw [if_pos h]
    refine ⟨?_, ?_, ?_, ?_⟩
    · simp only []
      split_ifs <;> rfl
    · simp only []
      split_ifs <;> rfl
    · simp only []
      split_ifs <;> rfl
    · intro c hc
      simp only [List.mem_singleton] at hc
      subst hc
      refine ⟨?_, ?_, ?_⟩ <;> (simp only []; split_ifs <;> rfl)

/-- When the second pass of a handler call acquires sync, the three sums, the three counts and
the pending group are cleared. -/
theorem restart_cleared (cfg : Config) (now : Nat) (s : Statics)
    (hr : (pass cfg now (sub32 now s.last) s).branch.retries = true)
    (hd : cfg.SYNC_CYCLES * cfg.MIN_PERIOD_US ≤ sub32 now s.last) :
    (Receiver.interruptHandler cfg now s).st.zeroBitPeriod = 0 ∧
    (Receiver.interruptHandler cfg now s).st.oneBitPeriod = 0 ∧
    (Receiver.interruptHandler cfg now s).st.allBitPeriod = 0 ∧
    (Receiver.interruptHandler cfg now s).st.zeroBitCount = 0 ∧
    (Receiver.interruptHandler cfg now s).st.oneBitCount = 0 ∧
    (Receiver.interruptHandler cfg now s).st.allBitCount = 0 ∧
    (Receiver.interruptHandler cfg now s).st.currentBit = 3 ∧
    (Receiver.interruptHandler cfg now s).st.value = 0 := by
  have hs1 := (pass_retries cfg now _ s hr).2
  rw [interruptHandler_unfold, if_pos hr]
  generalize (pass cfg now (sub32 now s.last) s).st = s1 at hs1 ⊢
  unfold pass
  rw [if_pos hs1, if_pos hd]
  exact ⟨rfl, rfl, rfl, rfl, rfl, rfl, rfl, rfl⟩

/-- C16, amended. Invalid pulse: in a synced state whose digit buffer is not full, a pulse outside
the sync, zero and one windows takes the invalid-duration branch; no bit is added, and the pulse
ends the candidate: the completion evaluation runs with `postSyncPresent = false`, pushing
nothing with fewer than `MIN_LENGTH` digits and exactly one code otherwise, each of whose three
averages is the sum divided by its count (the sum itself when the count is 0).
`preSyncStandalone` becomes true, and the same pulse is re-examined as a sync: when
`duration ≥ SYNC_CYCLES * MIN_PERIOD_US` the machine is synced again with unit period
`duration / SYNC_CYCLES`, no digits, and all sums and counts cleared; otherwise it is left
unsynced with digit state, calibration and the three counts untouched, the three sums being
unchanged when nothing was pushed and replaced by the pushed averages when a code was pushed. -/
theorem c16_invalid_pulse (cfg : Config) (s : Statics) (now : Nat) (hs : s.sync = true)
    (hfull : s.codeLength ≠ cfg.MAX_LENGTH) (h1 : ¬ inSyncWindow s (sub32 now s.last))
    (h3 : ¬ inZeroWindow s (sub32 now s.last)) (h4 : ¬ inOneWindow s (sub32 now s.last)) :
    (Receiver.interruptHandler cfg now s).trace.head? = some Branch.invalid ∧
    (s.codeLength < cfg.MIN_LENGTH → (Receiver.interruptHandler cfg now s).pushed = []) ∧
    (cfg.MIN_LENGTH ≤ s.codeLength → ∃ c, (Receiver.interruptHandler cfg now s).pushed = [c] ∧
      c.postSyncPresent = false ∧ c.trailingBitCount = 3 - s.currentBit ∧
      c.trailingValue = s.value ∧
      c.avgZeroPeriodMicros =
        (if s.zeroBitCount > 0 then s.zeroBitPeriod / s.zeroBitCount else s.zeroBitPeriod) ∧
      c.avgOnePeriodMicros =
        (if s.oneBitCount > 0 then s.oneBitPeriod / s.oneBitCount else s.oneBitPeriod) ∧
      c.avgAllPeriodMicros =
        (if s.allBitCount > 0 then s.allBitPeriod / s.allBitCount else s.allBitPeriod)) ∧
    (Receiver.interruptHandler cfg now s).st.preSyncStandalone = true ∧
    (cfg.SYNC_CYCLES * cfg.MIN_PERIOD_US ≤ sub32 now s.last →
      (Receiver.interruptHandler cfg now s).st.sync = true ∧
      (Receiver.interruptHandler cfg now s).st.preSyncPeriod =
        sub32 now s.last / cfg.SYNC_CYCLES ∧
      (Receiver.interruptHandler cfg now s).st.codeLength = 0 ∧
      (Receiver.interruptHandler cfg now s).st.zeroBitPeriod = 0 ∧
      (Receiver.interruptHandler cfg now s).st.oneBitPeriod = 0 ∧
      (Receiver.interruptHandler cfg now s).st.allBitPeriod = 0 ∧
      (Receiver.interruptHandler cfg now s).st.zeroBitCount = 0 ∧
      (Receiver.interruptHandler cfg now s).st.oneBitCount = 0 ∧
      (Receiver.interruptHandler cfg now s).st.allBitCount = 0) ∧
    (sub32 now s.last < cfg.SYNC_CYCLES * cfg.MIN_PERIOD_US →
      (Receiver.interruptHandler cfg now s).st.sync = false ∧
      (Receiver.interruptHandler cfg now s).st.codeLength = s.codeLength ∧
      (Receiver.interruptHandler cfg now s).st.currentBit = s.currentBit ∧
      (Receiver.interruptHandler cfg now s).st.value = s.value ∧
      (Receiver.interruptHandler cfg now s).st.windows = s.windows ∧
      (Receiver.interruptHandler cfg now s).st.zeroBitCount = s.zeroBitCount ∧
      (Receiver.interruptHandler cfg now s).st.oneBitCount = s.oneBitCount ∧
      (Receiver.interruptHandler cfg now s).st.allBitCount = s.allBitCount ∧
      (s.codeLength < cfg.MIN_LENGTH →
        (Receiver.interruptHandler cfg now s).st.zeroBitPeriod = s.zeroBitPeriod ∧
        (Receiver.interruptHandler cfg now s).st.oneBitPeriod = s.oneBitPeriod ∧
        (Receiver.interruptHandler cfg now s).st.allBitPeriod = s.allBitPeriod) ∧
      (cfg.MIN_LENGTH ≤ s.codeLength →
        (Receiver.interruptHandler cfg now s).st.zeroBitPeriod =
          (if s.zeroBitCount > 0 then s.zeroBitPeriod / s.zeroBitCount else s.zeroBitPeriod) ∧
        (Receiver.interruptHandler cfg now s).st.oneBitPeriod =
          (if s.oneBitCount > 0 then s.oneBitPeriod / s.oneBitCount else s.oneBitPeriod) ∧
        (Receiver.interruptHandler cfg now s).st.allBitPeriod =
          (if s.allBitCount > 0 then s.allBitPeriod / s.allBitCount
            else s.allBitPeriod))) := by
  have hp := pass_invalid cfg now _ s hs h1 hfull h3 h4
  have hr : (pass cfg now (sub32 now s.last) s).branch.retries = true := by
    rw [hp, complete_branch]; rfl
  obtain ⟨r1, r2, r3, r4⟩ := restart_outcome cfg now s hr
  obtain ⟨k1, k2, k3, k4, k5, _, k7⟩ := complete_st cfg now false s Branch.invalid
  obtain ⟨q1, q2⟩ := complete_pushed_cases cfg now false s Branch.invalid
  obtain ⟨n1, n2, n3, n4, n5⟩ := complete_accumulators cfg now false s Branch.invalid
  rw [hp] at r1 r2 r4
  refine ⟨by rw [handler_head, hp, complete_branch], ?_, ?_, ?_, ?_, ?_⟩
  · intro h; rw [r1]; exact q1 h
  · intro h
    obtain ⟨c, e1, e2, _, _, e5, e6⟩ := q2 h
    obtain ⟨_, _, _, m4⟩ := n5 h
    obtain ⟨v1, v2, v3⟩ := m4 c (by rw [e1]; exact List.mem_singleton.mpr rfl)
    exact ⟨c, by rw [r1]; exact e1, e2, e5, e6, v1, v2, v3⟩
  · rw [r2, k2]; rfl
  · intro h
    obtain ⟨z1, z2, z3, z4, z5, z6, _, _⟩ := restart_cleared cfg now s hr h
    exact ⟨(r3 h).1, (r3 h).2.1, (r3 h).2.2.1, z1, z2, z3, z4, z5, z6⟩
  · intro h
    rw [(r4 h).1]
    refine ⟨k1, k3, k4, k5, k7, n1, n2, n3, ?_, ?_⟩
    · intro hl
      exact n4 hl
    · intro hl
      exact ⟨(n5 hl).1, (n5 hl).2.1, (n5 hl).2.2.1⟩

/-- C16 amended, in the sample state `decodedSample` (two digits, zero-bit sum 500 over 5 pulses):
a pulse of 200 µs is invalid, the machine is left unsynced, the count of zero-bits is kept and the
sum of their durations is replaced by the average `500 / 5`. -/
theorem c16_invalid_pulse_witness :
    ¬ inSyncWindow decodedSample (sub32 4700 decodedSample.last) ∧
    ¬ inZeroWindow decodedSample (sub32 4700 decodedSample.last) ∧
    ¬ inOneWindow decodedSample (sub32 4700 decodedSample.last) ∧
    (Receiver.interruptHandler sampleConfig 4700 decodedSample).st.sync = false ∧
    (Receiver.interruptHandler sampleConfig 4700 decodedSample).st.zeroBitCount =
      decodedSample.zeroBitCount ∧
    (Receiver.interruptHandler sampleConfig 4700 decodedSample).st.zeroBitPeriod =
      (if decodedSample.zeroBitCount > 0
        then decodedSample.zeroBitPeriod / decodedSample.zeroBitCount
        else decodedSample.zeroBitPeriod) :=
  ⟨by decide, by decide, by decide,
    ((c16_invalid_pulse sampleConfig decodedSample 4700 rfl (by decide) (by decide) (by decide)
      (by decide)).2.2.2.2.2 (by decide)).1,
    ((c16_invalid_pulse sampleConfig decodedSample 4700 rfl (by decide) (by decide) (by decide)
      (by decide)).2.2.2.2.2 (by decide)).2.2.2.2.2.1,
    (((c16_invalid_pulse sampleConfig decodedSample 4700 rfl (by decide) (by decide) (by decide)
      (by decide)).2.2.2.2.2 (by decide)).2.2.2.2.2.2.2.2.2 (by decide)).1⟩

/-- C17 as stated fails: in the sample state `fullSample` (synced, the digit buffer holds
`MAX_LENGTH = 6` digits) a pulse of 100 µs, outside the sync window, makes the handler push the
six-digit code and leave `sync` false. -/
theorem c17_too_long_counterexample :
    fullSample.sync = true ∧ fullSample.codeLength = sampleConfig.MAX_LENGTH ∧
    sub32 5600 fullSample.last = 100 ∧ ¬ inSyncWindow fullSample 100 ∧
    (Receiver.interruptHandler sampleConfig 5600 fullSample).pushed.map Code.digits =
      [['0', '0', '0', '0', '0', '0']] ∧
    (Receiver.interruptHandler sampleConfig 5600 fullSample).st.sync = false := by
  refine ⟨rfl, by decide, by decide, by decide, ?_, ?_⟩ <;>
    (rw [interruptHandler_unfold]; decide)

/-- C17, amended. Code too long: in a synced state whose digit buffer holds `MAX_LENGTH` digits, a
pulse outside the sync window takes the code-too-long branch; no bit is added, and the pulse ends
the candidate: the completion evaluation runs with `postSyncPresent = false` (with
`MIN_LENGTH ≤ MAX_LENGTH` one code is pushed, holding the `MAX_LENGTH` digits when the statics
are well-formed), `preSyncStandalone` becomes true, and the same pulse is re-examined as a sync:
the machine is synced again with unit period `duration / SYNC_CYCLES` and no digits when
`duration ≥ SYNC_CYCLES * MIN_PERIOD_US`, and is left unsynced, digit state and calibration
untouched, otherwise. -/
theorem c17_too_long (cfg : Config) (s : Statics) (now : Nat) (hs : s.sync = true)
    (hfull : s.codeLength = cfg.MAX_LENGTH) (h1 : ¬ inSyncWindow s (sub32 now s.last)) :
    (Receiver.interruptHandler cfg now s).trace.head? = some Branch.tooLong ∧
    (cfg.MIN_LENGTH ≤ cfg.MAX_LENGTH → ∃ c, (Receiver.interruptHandler cfg now s).pushed = [c] ∧
      c.postSyncPresent = false ∧ c.trailingBitCount = 3 - s.currentBit ∧
      c.trailingValue = s.value ∧
      (WellFormed cfg s → c.digits = s.code.take cfg.MAX_LENGTH)) ∧
    (Receiver.interruptHandler cfg now s).st.preSyncStandalone = true ∧
    (cfg.SYNC_CYCLES * cfg.MIN_PERIOD_US ≤ sub32 now s.last →
      (Receiver.interruptHandler cfg now s).st.sync = true ∧
      (Receiver.interruptHandler cfg now s).st.preSyncPeriod =
        sub32 now s.last / cfg.SYNC_CYCLES ∧
      (Receiver.interruptHandler cfg now s).st.codeLength = 0) ∧
    (sub32 now s.last < cfg.SYNC_CYCLES * cfg.MIN_PERIOD_US →
      (Receiver.interruptHandler cfg now s).st.sync = false ∧
      (Receiver.interruptHandler cfg now s).st.codeLength = s.codeLength ∧
      (Receiver.interruptHandler cfg now s).st.currentBit = s.currentBit ∧
      (Receiver.interruptHandler cfg now s).st.value = s.value ∧
      (Receiver.interruptHandler cfg now s).st.windows = s.windows) := by
  have hp := pass_tooLong cfg now _ s hs h1 hfull
  have hr : (pass cfg now (sub32 now s.last) s).branch.retries = true := by
    rw [hp, complete_branch]; rfl
  obtain ⟨r1, r2, r3, r4⟩ := restart_outcome cfg now s hr
  obtain ⟨k1, k2, k3, k4, k5, _, k7⟩ := complete_st cfg now false s Branch.tooLong
  obtain ⟨_, q2⟩ := complete_pushed_cases cfg now false s Branch.tooLong
  rw [hp] at r1 r2 r4
  refine ⟨by rw [handler_head, hp, complete_branch], ?_, ?_, ?_, ?_⟩
  · intro h
    obtain ⟨c, e1, e2, _, _, e5, e6⟩ := q2 (by omega)
    refine ⟨c, by rw [r1]; exact e1, e2, e5, e6, ?_⟩
    intro hw
    have hl := complete_long cfg now false s Branch.tooLong hw (by omega)
    rw [e1] at hl
    have hc := List.head_eq_of_cons_eq hl
    rw [hc, hfull]
  · rw [r2, k2]; rfl
  · intro h
    exact ⟨(r3 h).1, (r3 h).2.1, (r3 h).2.2.1⟩
  · intro h
    rw [(r4 h).1]
    exact ⟨k1, k3, k4, k5, k7⟩

/-- C17 amended, in the sample state `fullSample`: a pulse of 200 µs with the buffer full ends the
candidate and leaves the machine unsynced, with `preSyncStandalone` true. -/
theorem c17_too_long_witness :
    fullSample.codeLength = sampleConfig.MAX_LENGTH ∧
    ¬ inSyncWindow fullSample (sub32 5700 fullSample.last) ∧
    (Receiver.interruptHandler sampleConfig 5700 fullSample).st.preSyncStandalone = true ∧
    (Receiver.interruptHandler sampleConfig 5700 fullSample).st.sync = false :=
  ⟨by decide, by decide,
    (c17_too_long sampleConfig fullSample 5700 rfl (by decide) (by decide)).2.2.1,
    ((c17_too_long sampleConfig fullSample 5700 rfl (by decide) (by decide)).2.2.2.2
      (by decide)).1⟩

/-! ### Total duration -/

theorem handler_last (cfg : Config) (now : Nat) (s : Statics) :
    (Receiver.interruptHandler cfg now s).st.last = now := by
  rw [interruptHandler_unfold]
  split <;> rfl

/-- The total duration of a pushed code is `now - start` in 32-bit arithmetic, `now` being the
time stamp of the edge handled by the call that pushes it. -/
theorem handler_total (cfg : Config) (now : Nat) (s : Statics) (c : Code)
    (hc : c ∈ (Receiver.interruptHandler cfg now s).pushed) :
    s.sync = true ∧ c.totalDurationMicros = sub32 now s.start := by
  rw [handler_pushed_eq] at hc
  have hs : s.sync = true := by
    cases h : s.sync
    · rw [pass_unsynced_pushed cfg now _ s h] at hc
      simp at hc
    · rfl
  refine ⟨hs, ?_⟩
  have key : ∀ (p : Bool) (s' : Statics) (b : Branch), s'.start = s.start →
      c ∈ (complete cfg now p s' b).pushed → c.totalDurationMicros = sub32 now s.start := by
    intro p s' b hst hmem
    obtain ⟨q1, q2⟩ := complete_pushed_cases cfg now p s' b
    rcases Nat.lt_or_ge s'.codeLength cfg.MIN_LENGTH with h | h
    · rw [q1 h] at hmem
      simp at hmem
    · obtain ⟨c', e1, _, _, e4, _, _⟩ := q2 h
      rw [e1, List.mem_singleton] at hmem
      rw [hmem, e4, hst]
  by_cases h1 : inSyncWindow s (sub32 now s.last)
  · rw [pass_syncEnd cfg now _ s hs h1] at hc
    exact key true { s with postSyncPeriod := sub32 now s.last / cfg.SYNC_CYCLES } _ rfl hc
  by_cases h2 : s.codeLength = cfg.MAX_LENGTH
  · rw [pass_tooLong cfg now _ s hs h1 h2] at hc
    exact key false s _ rfl hc
  by_cases h3 : inZeroWindow s (sub32 now s.last)
  · rw [pass_zeroBit cfg now _ s hs h1 h2 h3] at hc
    simp at hc
  by_cases h4 : inOneWindow s (sub32 now s.last)
  · rw [pass_oneBit cfg now _ s hs h1 h2 h3 h4] at hc
    simp at hc
  · rw [pass_invalid cfg now _ s hs h1 h2 h3 h4] at hc
    exact key false s _ rfl hc

theorem timed_fresh (lastOld now : Nat) :
    wrap32 now = wrap32 (lastOld + sub32 now lastOld + ([] : List Nat).sum) := by
  simp only [List.sum_nil, sub32, wrap32]
  omega

theorem restart_timed (cfg : Config) (now : Nat) (s : Statics) (g : Candidate)
    (hr : (pass cfg now (sub32 now s.last) s).branch.retries = true)
    (hlast : (pass cfg now (sub32 now s.last) s).st.last = s.last) :
    Timed (Receiver.interruptHandler cfg now s).st
      (g.record (sub32 now s.last) (Receiver.interruptHandler cfg now s).trace) := by
  intro hsync
  obtain ⟨_, _, r3, r4⟩ := restart_outcome cfg now s hr
  by_cases hd : cfg.SYNC_CYCLES * cfg.MIN_PERIOD_US ≤ sub32 now s.last
  · obtain ⟨_, _, _, a4, a5⟩ := r3 hd
    rw [handler_last, a4, a5, hlast]
    exact timed_fresh s.last now
  · rw [(r4 (by omega)).1] at hsync
    rw [(pass_retries cfg now _ s hr).2] at hsync
    simp at hsync

/-- The relation `Timed` is kept by every handler call. -/
theorem handler_timed (cfg : Config) (now : Nat) (s : Statics) (g : Candidate)
    (ht : Timed s g) :
    Timed (Receiver.interruptHandler cfg now s).st
      (g.record (sub32 now s.last) (Receiver.interruptHandler cfg now s).trace) := by
  by_cases hs : s.sync = true
  · have t := ht hs
    by_cases h1 : inSyncWindow s (sub32 now s.last)
    · have hp := pass_syncEnd cfg now _ s hs h1
      exact restart_timed cfg now s g (by rw [hp, complete_branch]; rfl)
        (by rw [hp]; exact (complete_st cfg now true
          { s with postSyncPeriod := sub32 now s.last / cfg.SYNC_CYCLES } _).2.2.2.2.2.1)
    by_cases h2 : s.codeLength = cfg.MAX_LENGTH
    · have hp := pass_tooLong cfg now _ s hs h1 h2
      exact restart_timed cfg now s g (by rw [hp, complete_branch]; rfl)
        (by rw [hp]; exact (complete_st cfg now false s _).2.2.2.2.2.1)
    by_cases h3 : inZeroWindow s (sub32 now s.last)
    · intro _
      rw [handler_zeroBit cfg now s hs h1 h2 h3]
      dsimp only [Candidate.record, Candidate.step]
      simp only [List.sum_append, List.sum_singleton]
      simp only [sub32, wrap32] at t ⊢
      omega
    by_cases h4 : inOneWindow s (sub32 now s.last)
    · intro _
      rw [handler_oneBit cfg now s hs h1 h2 h3 h4]
      dsimp only [Candidate.record, Candidate.step]
      simp only [List.sum_append, List.sum_singleton]
      simp only [sub32, wrap32] at t ⊢
      omega
    · have hp := pass_invalid cfg now _ s hs h1 h2 h3 h4
      exact restart_timed cfg now s g (by rw [hp, complete_branch]; rfl)
        (by rw [hp]; exact (complete_st cfg now false s _).2.2.2.2.2.1)
  · have hs0 : s.sync = false := by simpa using hs
    intro hsync
    by_cases hd : cfg.SYNC_CYCLES * cfg.MIN_PERIOD_US ≤ sub32 now s.last
    · rw [handler_acquire cfg now s hs0 hd]
      exact timed_fresh s.last now
    · rw [handler_idle cfg now s hs0 (by omega)] at hsync
      simp [hs0] at hsync

theorem runTrail_total (cfg : Config) (events : List Nat) : ∀ (s : Statics) (g : Candidate),
    Timed s g → ∀ t ∈ runTrail cfg events s g,
      t.code.totalDurationMicros = wrap32 (t.cand.lead + t.cand.pulses.sum + t.duration) := by
  induction events with
  | nil => intro s g _ t ht; simp [runTrail] at ht
  | cons now rest ih =>
    intro s g hg t ht
    simp only [runTrail, List.mem_append, List.mem_map] at ht
    rcases ht with ⟨c, hc, rfl⟩ | ht
    · obtain ⟨hs, htot⟩ := handler_total cfg now s c hc
      have hl := hg hs
      dsimp only
      rw [htot]
      simp only [sub32, wrap32] at hl ⊢
      omega
    · exact ih _ _ (handler_timed cfg now s g hg) t ht

theorem runTrail_codes (cfg : Config) (events : List Nat) : ∀ (s : Statics) (g : Candidate),
    (runTrail cfg events s g).map Completion.code = (run cfg events s).2 ∧
    (runTrail cfg events s g).map (fun t => ({ cand := t.cand, code := t.code } : Logged)) =
      (runLog cfg events s g).2.2 := by
  induction events with
  | nil => intro s g; simp [runTrail, run, runLog]
  | cons now rest ih =>
    intro s g
    obtain ⟨i1, i2⟩ := ih (Receiver.interruptHandler cfg now s).st
      (g.record (sub32 now s.last) (Receiver.interruptHandler cfg now s).trace)
    simp only [runTrail, run, runLog, List.map_append, List.map_map, i1, i2]
    simp [Function.comp_def]

/-- C15 as stated fails: in the sample run `packingEvents` (3100 µs sync, eight bit pulses summing
to 1400 µs, closing 3100 µs sync) the pushed code has `totalDurationMicros = 7600`, which
includes the closing pulse, whereas the leading sync plus the accepted bit pulses last 4500 µs. -/
theorem c15_total_duration_counterexample :
    (runTrail sampleConfig packingEvents (Statics.init sampleConfig) Candidate.start).map
      (fun t => (t.code.totalDurationMicros, t.cand.lead + t.cand.pulses.sum, t.duration)) =
      [(7600, 4500, 3100)] := by
  simp only [packingEvents, runTrail, interruptHandler_unfold]
  decide

/-- C15, amended. totalDurationMicros: for every code passed to `addCode` in any run from
start-up, `totalDurationMicros` is, modulo `2 ^ 32`, the duration of the leading sync pulse plus
the durations of all the pulses accepted as bits plus the duration of the pulse that ended the
decode: the elapsed time from `start` to the edge being handled when the code is pushed. The
trail covers every `addCode` call. -/
theorem c15_total_duration (cfg : Config) (events : List Nat) :
    (∀ t ∈ runTrail cfg events (Statics.init cfg) Candidate.start,
      t.code.totalDurationMicros = wrap32 (t.cand.lead + t.cand.pulses.sum + t.duration)) ∧
    (runTrail cfg events (Statics.init cfg) Candidate.start).map Completion.code =
      (run cfg events (Statics.init cfg)).2 :=
  ⟨runTrail_total cfg events _ _ (by intro h; simp [Statics.init] at h),
    (runTrail_codes cfg events _ _).1⟩

/-- C15 amended, on the sample run `packingEvents`: `7600 = 3100 + 1400 + 3100`. -/
theorem c15_total_duration_witness :
    packingCompletion ∈
      runTrail sampleConfig packingEvents (Statics.init sampleConfig) Candidate.start ∧
    packingCompletion.code.totalDurationMicros =
      wrap32 (packingCompletion.cand.lead + packingCompletion.cand.pulses.sum +
        packingCompletion.duration) ∧
    packingCompletion.code.totalDurationMicros = 3100 + 1400 + 3100 :=
  have hmem : packingCompletion ∈
      runTrail sampleConfig packingEvents (Statics.init sampleConfig) Candidate.start := by
    simp only [packingEvents, runTrail, interruptHandler_unfold]
    decide
  ⟨hmem, (c15_total_duration sampleConfig packingEvents).1 packingCompletion hmem, rfl⟩

/-! ### preSyncStandalone -/

set_option maxRecDepth 8000 in
/-- C13, evaluation of the handler on `staleEvents`: two codes are pushed. The first candidate is
the first after start-up and its code has `preSyncStandalone = true`. The leading sync of the
second candidate (the edge at 10150) is handled by a single pass from the unsynced state, two
events after the pulse that ended the first code, so it is not that pulse (`afterSync = false`);
yet its code is pushed with `preSyncStandalone = false`, the value left by the restart at the
2500 µs pulse, which failed to re-acquire sync. -/
theorem c13_standalone_stale :
    (runLog sampleConfig staleEvents (Statics.init sampleConfig) Candidate.start).2.2.map
      (fun e => (e.cand.lead, e.cand.afterSync, e.code.preSyncStandalone)) =
      [(3100, false, true), (3100, false, false)] ∧
    (Receiver.interruptHandler sampleConfig 7000
      (run sampleConfig [3100, 3400, 3500, 3800, 4100, 4200, 4300, 4400, 4500]
        (Statics.init sampleConfig)).1).trace = [Branch.syncEnd, Branch.idle] ∧
    (Receiver.interruptHandler sampleConfig 10150
      (run sampleConfig [3100, 3400, 3500, 3800, 4100, 4200, 4300, 4400, 4500, 7000, 7050]
        (Statics.init sampleConfig)).1).trace = [Branch.acquire] := by
  refine ⟨?_, ?_, ?_⟩
  · simp only [staleEvents, runLog, interruptHandler_unfold]
    decide
  · simp only [run, interruptHandler_unfold]
    decide
  · simp only [run, interruptHandler_unfold]
    decide

/-- The relation `Flagged` is kept by every handler call. -/
theorem handler_flagged (cfg : Config) (now : Nat) (s : Statics) (g : Candidate)
    (hf : Flagged s g) :
    Flagged (Receiver.interruptHandler cfg now s).st
      (g.record (sub32 now s.last) (Receiver.interruptHandler cfg now s).trace) := by
  by_cases hs : s.sync = true
  · by_cases h1 : inSyncWindow s (sub32 now s.last)
    · have hp := pass_syncEnd cfg now _ s hs h1
      have hr : (pass cfg now (sub32 now s.last) s).branch.retries = true := by
        rw [hp, complete_branch]; rfl
      obtain ⟨_, r2, _, _⟩ := restart_outcome cfg now s hr
      intro _ _
      rw [r2, hp, (complete_st cfg now true
        { s with postSyncPeriod := sub32 now s.last / cfg.SYNC_CYCLES } _).2.1]
      rfl
    by_cases h2 : s.codeLength = cfg.MAX_LENGTH
    · have hp := pass_tooLong cfg now _ s hs h1 h2
      have hr : (pass cfg now (sub32 now s.last) s).branch.retries = true := by
        rw [hp, complete_branch]; rfl
      obtain ⟨_, _, r3, r4⟩ := restart_outcome cfg now s hr
      intro hsync haft
      by_cases hd : cfg.SYNC_CYCLES * cfg.MIN_PERIOD_US ≤ sub32 now s.last
      · rw [(r3 hd).2.2.2.2, hp, complete_branch] at haft
        simp [Candidate.record, Candidate.step] at haft
      · rw [(r4 (by omega)).1] at hsync
        rw [(pass_retries cfg now _ s hr).2] at hsync
        simp at hsync
    by_cases h3 : inZeroWindow s (sub32 now s.last)
    · intro _ haft
      rw [handler_zeroBit cfg now s hs h1 h2 h3] at haft ⊢
      exact hf hs haft
    by_cases h4 : inOneWindow s (sub32 now s.last)
    · intro _ haft
      rw [handler_oneBit cfg now s hs h1 h2 h3 h4] at haft ⊢
      exact hf hs haft
    · have hp := pass_invalid cfg now _ s hs h1 h2 h3 h4
      have hr : (pass cfg now (sub32 now s.last) s).branch.retries = true := by
        rw [hp, complete_branch]; rfl
      obtain ⟨_, _, r3, r4⟩ := restart_outcome cfg now s hr
      intro hsync haft
      by_cases hd : cfg.SYNC_CYCLES * cfg.MIN_PERIOD_US ≤ sub32 now s.last
      · rw [(r3 hd).2.2.2.2, hp, complete_branch] at haft
        simp [Candidate.record, Candidate.step] at haft
      · rw [(r4 (by omega)).1] at hsync
        rw [(pass_retries cfg now _ s hr).2] at hsync
        simp at hsync
  · have hs0 : s.sync = false := by simpa using hs
    intro hsync haft
    by_cases hd : cfg.SYNC_CYCLES * cfg.MIN_PERIOD_US ≤ sub32 now s.last
    · rw [handler_acquire cfg now s hs0 hd] at haft
      simp [Candidate.record, Candidate.step] at haft
    · rw [handler_idle cfg now s hs0 (by omega)] at hsync
      simp [hs0] at hsync

/-- The part of the description of `preSyncStandalone` that the code does meet: in any run from
start-up, a code whose candidate was acquired from the very pulse that ended the preceding
candidate as a Sync is pushed with `preSyncStandalone = false`. -/
theorem standalone_after_sync (cfg : Config) (events : List Nat) :
    ∀ (s : Statics) (g : Candidate), WellFormed cfg s → Flagged s g →
    ∀ e ∈ (runLog cfg events s g).2.2,
      e.cand.afterSync = true → e.code.preSyncStandalone = false := by
  induction events with
  | nil => intro s g _ _ e he; simp [runLog] at he
  | cons now rest ih =>
    intro s g hw hf e he
    simp only [runLog, List.mem_append, List.mem_map] at he
    rcases he with ⟨c, hc, rfl⟩ | he
    · have hsnap := handler_snapshot cfg now s hw c hc
      intro haft
      dsimp only at haft ⊢
      rw [hsnap.standalone]
      exact hf hsnap.synced haft
    · exact ih _ _ (handler_wellFormed cfg now s hw) (handler_flagged cfg now s g hf) e he

end Rf433
